import Mathlib

/-!
# where_is_my_childs: presence-tracking chat bot

A shallow embedding of the Go packages `utils`, `database`, `config`, `excel`
and `handlers` and a verification of the behaviour the specification states
about them.

Conventions of the embedding

* A Go `string` is its byte sequence (`GoString`); `len`, slicing,
  `strings.Contains` and the regular expressions of the source all act on
  bytes.  `utf8` turns a text literal into its UTF-8 bytes.
* `strings.ToLower` (Unicode tables of the Go runtime) and the SQL function
  `LOWER` (the storage engine) are not part of the repository: every
  definition that calls one of them takes it as a parameter.  `LOWER` as
  SQLite ships it folds the ASCII letters only (`lowerAscii`).
* `time.Time` is a wall-clock reading with the offset of its zone (`Time`).
  `time.Now()` and `utils.GetMoscowTime()` are inputs of the handler that
  reads them.
* An SQL table is the list of its rows in insertion order.  A stored time
  keeps its offset; `Format("2006-01-02")` is the wall-clock day of a time
  (`Time.date`) and SQL `DATE(column)` is its day in UTC (`Time.sqlDate`).
  The two differ for the first hours of a day east of UTC.
* The statements that write records can fail (`Faults`); a failed statement
  changes nothing.  The read-only queries of the directory are taken on
  their success path, and no name column is `NULL`.
* `h.bot.Send` appends to the list of messages sent (`BotHandler.sent`); a
  message is recorded by its kind and its arguments, not by its wording.
* A handler that can panic (a failed type assertion `x.(T)`, a slice
  expression out of range) returns an `Option`; `none` is the panic.
* The allow-list `h.config` is the parameter `cfg` of the handlers that read
  it.  An attachment carries what fetching and opening it yields (`Fetch`).
  The export of the statistics and the statistics of one day are taken on
  their success path and recorded as one message each.
* `Reachable` is the set of handler states the main loop can produce: it
  starts from `NewBotHandler` and handles messages and callbacks.
-/

/-! ## Part I. Definitions -/

deriving instance DecidableEq for Except

/-- A Go string, as the sequence of its bytes. -/
abbrev GoString := List Nat

/-- UTF-8 encoding of one code point. -/
def utf8EncodeChar (c : Nat) : List Nat :=
  if c < 0x80 then [c]
  else if c < 0x800 then [0xC0 + c / 64, 0x80 + c % 64]
  else if c < 0x10000 then [0xE0 + c / 4096, 0x80 + c / 64 % 64, 0x80 + c % 64]
  else [0xF0 + c / 262144, 0x80 + c / 4096 % 64, 0x80 + c / 64 % 64, 0x80 + c % 64]

/-- The bytes of a text literal of the source. -/
def utf8 (s : String) : GoString := s.toList.flatMap (fun c => utf8EncodeChar c.toNat)

/-- The keyword "сейчас" (now), as the source spells it in lower case. -/
def kwNow : GoString := [0xD1, 0x81, 0xD0, 0xB5, 0xD0, 0xB9, 0xD1, 0x87, 0xD0, 0xB0, 0xD1, 0x81]

/-- The capitalised spelling "Сейчас". -/
def kwNowCap : GoString := [0xD0, 0xA1, 0xD0, 0xB5, 0xD0, 0xB9, 0xD1, 0x87, 0xD0, 0xB0, 0xD1, 0x81]

/-- The upper-case spelling "СЕЙЧАС". -/
def kwNowUpper : GoString := [0xD0, 0xA1, 0xD0, 0x95, 0xD0, 0x99, 0xD0, 0xA7, 0xD0, 0x90, 0xD0, 0xA1]

namespace strings

/-- Go `strings.Contains(s, substr)`. -/
def Contains : GoString → GoString → Bool
  | [], sub => sub.isEmpty
  | c :: cs, sub => sub.isPrefixOf (c :: cs) || Contains cs sub

/-- Go `strings.HasPrefix`. -/
def HasPrefix (s pre : GoString) : Bool := pre.isPrefixOf s

/-- Worker of `ReplaceAll`: `skip` bytes of an occurrence are still to be dropped. -/
def replaceAllAux (old new : GoString) : Nat → GoString → GoString
  | _, [] => []
  | skip + 1, _ :: cs => replaceAllAux old new skip cs
  | 0, c :: cs =>
    if old.isPrefixOf (c :: cs) then new ++ replaceAllAux old new (old.length - 1) cs
    else c :: replaceAllAux old new 0 cs

/-- Go `strings.ReplaceAll(s, old, new)` for a non-empty `old`: the
non-overlapping occurrences of `old`, found left to right, become `new`. -/
def ReplaceAll (s old new : GoString) : GoString := replaceAllAux old new 0 s

/-- UTF-8 encodings of the code points for which `unicode.IsSpace` holds:
tab, LF, VT, FF, CR, space, U+0085, U+00A0, U+1680, U+2000..U+200A, U+2028,
U+2029, U+202F, U+205F, U+3000. -/
def spaceEncodings : List GoString :=
  [[9], [10], [11], [12], [13], [32], [0xC2, 0x85], [0xC2, 0xA0], [0xE1, 0x9A, 0x80],
   [0xE2, 0x80, 0x80], [0xE2, 0x80, 0x81], [0xE2, 0x80, 0x82], [0xE2, 0x80, 0x83],
   [0xE2, 0x80, 0x84], [0xE2, 0x80, 0x85], [0xE2, 0x80, 0x86], [0xE2, 0x80, 0x87],
   [0xE2, 0x80, 0x88], [0xE2, 0x80, 0x89], [0xE2, 0x80, 0x8A], [0xE2, 0x80, 0xA8],
   [0xE2, 0x80, 0xA9], [0xE2, 0x80, 0xAF], [0xE2, 0x81, 0x9F], [0xE3, 0x80, 0x80]]

/-- Removes one leading white-space rune, if the string starts with one. -/
def dropSpace (encs : List GoString) (s : GoString) : Option GoString :=
  encs.findSome? (fun e => if e.isPrefixOf s then some (s.drop e.length) else none)

/-- Removes leading white-space runes, at most `fuel` of them. -/
def trimLeftAux (encs : List GoString) : Nat → GoString → GoString
  | 0, s => s
  | fuel + 1, s =>
    match dropSpace encs s with
    | some rest => trimLeftAux encs fuel rest
    | none => s

/-- Go `strings.TrimLeftFunc(s, unicode.IsSpace)`. -/
def TrimLeftSpace (s : GoString) : GoString := trimLeftAux spaceEncodings s.length s

/-- Go `strings.TrimRightFunc(s, unicode.IsSpace)`: the last rune is decoded
backwards, so a string ending in the encoding of a white-space rune loses it. -/
def TrimRightSpace (s : GoString) : GoString :=
  (trimLeftAux (spaceEncodings.map List.reverse) s.length s.reverse).reverse

/-- Go `strings.TrimSpace`. -/
def TrimSpace (s : GoString) : GoString := TrimRightSpace (TrimLeftSpace s)

end strings

/-- Go `time.Time`, read as year, month, day, hour, minute, second, nanosecond
on the wall clock of its zone, with the offset of that zone in minutes east of
UTC (what `Format` prints for `-07:00`). -/
structure Time where
  year : Nat
  month : Nat
  day : Nat
  hour : Nat
  minute : Nat
  second : Nat
  nano : Nat
  offset : Int
deriving DecidableEq, Repr

namespace Time

/-- The wall-clock day of a time: what `t.Format("2006-01-02")` prints. -/
def date (t : Time) : Nat × Nat × Nat := (t.year, t.month, t.day)

/-- The year is a leap year of the Gregorian calendar. -/
def isLeapYear (y : Nat) : Bool := (y % 4 == 0 && y % 100 != 0) || y % 400 == 0

/-- The number of days of a month. -/
def daysIn (y m : Nat) : Nat :=
  if m == 2 then (if isLeapYear y then 29 else 28)
  else if m == 4 || m == 6 || m == 9 || m == 11 then 30
  else 31

/-- The day before a calendar day. -/
def prevDay : Nat × Nat × Nat → Nat × Nat × Nat
  | (y, m, d) =>
    if d > 1 then (y, m, d - 1)
    else if m > 1 then (y, m - 1, daysIn y (m - 1))
    else (y - 1, 12, 31)

/-- The day after a calendar day. -/
def nextDay : Nat × Nat × Nat → Nat × Nat × Nat
  | (y, m, d) =>
    if d < daysIn y m then (y, m, d + 1)
    else if m < 12 then (y, m + 1, 1)
    else (y + 1, 1, 1)

/-- SQL `DATE(column)` for a stored time.  The driver stores a `time.Time` as
the text `2006-01-02 15:04:05.999999999-07:00`, and `DATE` applies the offset
of that text before it takes the day: the result is the day of the time in UTC.
Zone offsets are less than a day. -/
def sqlDate (t : Time) : Nat × Nat × Nat :=
  let utcMinute : Int := ((t.hour * 60 + t.minute : Nat) : Int) - t.offset
  if utcMinute < 0 then prevDay t.date
  else if utcMinute ≥ 1440 then nextDay t.date
  else t.date

/-- The day of the time in UTC is its wall-clock day.  For a time of the zone
UTC+3 this is a time from 03:00 on. -/
def DayAligned (t : Time) : Prop := t.sqlDate = t.date

instance (t : Time) : Decidable t.DayAligned := by unfold DayAligned; exact inferInstance

/-- Go `time.Date(y, mo, d, h, mi, s, ns, loc)`.  Every call site of the source
passes fields that are in range, so the normalisation of `time.Date` is the
identity there; `offset` is the offset of the time whose zone `loc` is (a change
of the offset of that zone during the day is not modelled). -/
def Date (y mo d h mi s ns : Nat) (offset : Int) : Time :=
  { year := y, month := mo, day := d, hour := h, minute := mi, second := s, nano := ns,
    offset := offset }

end Time

/-! ### Package `utils` -/

namespace utils

/-- The character class `\d`: an ASCII digit. -/
def isDigit (b : Nat) : Bool := decide (48 ≤ b) && decide (b ≤ 57)

/-- The regular expression `(\d{1,2}):(\d{2})` anchored at the start of `s`:
the two capture groups and the text after the match.  `\d{1,2}` is greedy, so
two digits are tried before one. -/
def matchTimeAt (s : GoString) : Option (GoString × GoString × GoString) :=
  match s with
  | a :: b :: c :: d :: e :: rest =>
    if isDigit a && isDigit b && c == 58 && isDigit d && isDigit e then
      some ([a, b], [d, e], rest)
    else if isDigit a && b == 58 && isDigit c && isDigit d then
      some ([a], [c, d], e :: rest)
    else none
  | [a, b, c, d] =>
    if isDigit a && b == 58 && isDigit c && isDigit d then some ([a], [c, d], []) else none
  | _ => none

/-- Leftmost match of `(\d{1,2}):(\d{2})` in `s`: the text before the match,
the two capture groups and the text after the match. -/
def findTime : GoString → Option (GoString × GoString × GoString × GoString)
  | [] => none
  | c :: cs =>
    match matchTimeAt (c :: cs) with
    | some (hs, ms, rest) => some ([], hs, ms, rest)
    | none =>
      match findTime cs with
      | some (pre, hs, ms, post) => some (c :: pre, hs, ms, post)
      | none => none

/-- Go `timeRegex.FindStringSubmatch(input)`: the capture groups of the
leftmost match (`matches[1]`, `matches[2]`), or none when `len(matches) ≠ 3`. -/
def FindStringSubmatch (s : GoString) : Option (GoString × GoString) :=
  match findTime s with
  | some (_, hs, ms, _) => some (hs, ms)
  | none => none

/-- Go `timeRegex.MatchString(input)` for the pattern `\d{1,2}:\d{2}`. -/
def MatchString (s : GoString) : Bool := (findTime s).isSome

/-- Go `timeRegex.FindStringIndex(text)`: byte offsets of the leftmost match. -/
def FindStringIndex (s : GoString) : Option (Nat × Nat) :=
  match findTime s with
  | some (pre, hs, ms, _) => some (pre.length, pre.length + hs.length + 1 + ms.length)
  | none => none

/-- Worker of `ReplaceAllString`: `skip` bytes of a match are still to be dropped. -/
def removeTimesAux : Nat → GoString → GoString
  | _, [] => []
  | skip + 1, _ :: cs => removeTimesAux skip cs
  | 0, c :: cs =>
    match matchTimeAt (c :: cs) with
    | some (hs, ms, _) => removeTimesAux (hs.length + ms.length) cs
    | none => c :: removeTimesAux 0 cs

/-- Go `timeRegex.ReplaceAllString(text, "")` for `\d{1,2}:\d{2}`: every
non-overlapping match, found left to right, is deleted. -/
def ReplaceAllTimes (s : GoString) : GoString := removeTimesAux 0 s

/-- The source helper `parseInt` (`fmt.Sscanf(s, "%d", &result)`) on the
digit strings the regular expression captures. -/
def parseInt (s : GoString) : Nat := s.foldl (fun acc b => 10 * acc + (b - 48)) 0

/-- The two errors `ParseTime` builds with `fmt.Errorf`. -/
inductive ParseError where
  /-- Text "неверное время: %02d:%02d": the matched hour or minute is out of range. -/
  | invalidTimeValue (hour minute : Nat)
  /-- Text "неверный формат времени. Используйте 'сейчас' или ЧЧ:MM". -/
  | noTimeFound
deriving DecidableEq, Repr

/-- Go `utils.ParseTime`.  `lower` is `strings.ToLower`, `now` is `time.Now()`. -/
def ParseTime (lower : GoString → GoString) (now : Time) (input : GoString) :
    Except ParseError Time :=
  let lowerInput := lower input
  if strings.Contains lowerInput kwNow then
    .ok now
  else
    match FindStringSubmatch input with
    | some (h, m) =>
      let hour := parseInt h
      let minute := parseInt m
      if decide (hour < 0) || decide (hour > 23) || decide (minute < 0) || decide (minute > 59) then
        .error (.invalidTimeValue hour minute)
      else
        .ok (Time.Date now.year now.month now.day hour minute 0 0 now.offset)
    | none => .error .noTimeFound

/-- Go `utils.ContainsTime`. -/
def ContainsTime (lower : GoString → GoString) (input : GoString) : Bool :=
  MatchString input || strings.Contains (lower input) kwNow

/-- The words of the pattern: `hs` is one or two digits, `ms` is two digits. -/
def IsTimeText (hs ms : GoString) : Prop :=
  (hs.length = 1 ∨ hs.length = 2) ∧ ms.length = 2 ∧
    (∀ b ∈ hs, isDigit b = true) ∧ (∀ b ∈ ms, isDigit b = true)

/-- The text has an occurrence of the pattern "one or two digits, a colon, two
digits" right after `pre`: it reads `pre`, `hs`, a colon, `ms`, `post`. -/
def TimeMatchAt (text pre hs ms post : GoString) : Prop :=
  text = pre ++ hs ++ 58 :: ms ++ post ∧ IsTimeText hs ms

/-- The occurrence after `pre` is the first one: no occurrence starts earlier. -/
def FirstTimeMatch (text pre hs ms post : GoString) : Prop :=
  TimeMatchAt text pre hs ms post ∧
    ∀ pre2 hs2 ms2 post2, TimeMatchAt text pre2 hs2 ms2 post2 → pre.length ≤ pre2.length

/-- Go `utils.RoundTimeToMinute`. -/
def RoundTimeToMinute (t : Time) : Time :=
  Time.Date t.year t.month t.day t.hour t.minute 0 0 t.offset

end utils

/-! ### Package `database` -/

namespace database

/-- Go `database.Subordinate`, a row of table `subordinates`. -/
structure Subordinate where
  ID : Int
  LastName : GoString
  FirstName : GoString
  MiddleName : GoString
deriving DecidableEq, Repr

/-- Go `database.Leave`, a row of table `leaves` (`created_at` is never read). -/
structure Leave where
  ID : Int
  SubordinateID : Int
  LeaveTime : Time
deriving DecidableEq, Repr

/-- Go `database.UnplannedActivity`, a row of table `unplanned_activities`. -/
structure UnplannedActivity where
  ID : Int
  SubordinateID : Int
  ActivityTime : Time
  Description : GoString
deriving DecidableEq, Repr

/-- The tables of `migrations.go`.  `leavesSeq` and `activitiesSeq` are the
`AUTOINCREMENT` counters the engine keeps for the two record tables. -/
structure DB where
  subordinates : List Subordinate
  leaves : List Leave
  leavesSeq : Int
  activities : List UnplannedActivity
  activitiesSeq : Int
deriving DecidableEq, Repr

/-- The primary-key constraint of the two record tables: row ids are unique. -/
def DB.KeysUnique (db : DB) : Prop :=
  (db.leaves.map Leave.ID).Nodup ∧ (db.activities.map UnplannedActivity.ID).Nodup

/-- Which SQL statements the driver fails on while one event is handled.  A
statement that fails changes nothing. -/
structure Faults where
  deleteLeaves : Bool := false
  deleteActivities : Bool := false
  selectLeave : Bool := false
  updateLeave : Bool := false
  insertLeave : Bool := false
  selectActivity : Bool := false
  updateActivity : Bool := false
  insertActivity : Bool := false
deriving DecidableEq, Repr

/-- The Go `error` values the modelled functions return. -/
inductive Error where
  /-- An error of the SQL driver. -/
  | storage
  /-- Text "не указаны данные для поиска" of `findExactSubordinate`. -/
  | noSearchData
deriving DecidableEq, Repr

/-- The row id `AUTOINCREMENT` assigns: one more than the largest id the table
holds or has ever held. -/
def nextID (seq : Int) (ids : List Int) : Int := ids.foldl max seq + 1

/-- Go `(*DB).GetSubordinateByID`; the callers drop the error, so a missing id
yields the zero `Subordinate`. -/
def GetSubordinateByID (db : DB) (id : Int) : Subordinate :=
  (db.subordinates.find? (fun s => s.ID == id)).getD ⟨0, [], [], []⟩

/-- Go `(*DB).GetAllSubordinates`: `SELECT ... FROM subordinates`. -/
def GetAllSubordinates (db : DB) : List Subordinate := db.subordinates

/-- Go `(*DB).RemoveConflictingRecords`: two `DELETE` statements, the second
one only when the first did not fail.  Each compares `DATE(column)`, the day of
the stored time in UTC, with `date.Format("2006-01-02")`, the wall-clock day of
the argument. -/
def RemoveConflictingRecords (f : Faults) (db : DB) (subordinateID : Int) (date : Time) :
    DB × Option Error :=
  let dateStr := date.date
  if f.deleteLeaves then (db, some .storage)
  else
    let db1 := { db with
      leaves := db.leaves.filter
        (fun l => !(l.SubordinateID == subordinateID && l.LeaveTime.sqlDate == dateStr)) }
    if f.deleteActivities then (db1, some .storage)
    else
      ({ db1 with
          activities := db1.activities.filter
            (fun a => !(a.SubordinateID == subordinateID && a.ActivityTime.sqlDate == dateStr)) },
        none)

/-- Go `(*DB).AddLeave`: look up the row whose `DATE(leave_time)` is the
wall-clock day of `leaveTime`, `UPDATE` it with `leaveTime` when there is one,
`INSERT` a row with `roundedTime` otherwise. -/
def AddLeave (f : Faults) (db : DB) (subordinateID : Int) (leaveTime : Time) :
    DB × Option Error :=
  let today := leaveTime.date
  let roundedTime := Time.Date leaveTime.year leaveTime.month leaveTime.day
    leaveTime.hour leaveTime.minute 0 0 leaveTime.offset
  if f.selectLeave then (db, some .storage)
  else
    match db.leaves.find?
        (fun l => l.SubordinateID == subordinateID && l.LeaveTime.sqlDate == today) with
    | some row =>
      let existingID := row.ID
      if f.updateLeave then (db, some .storage)
      else
        ({ db with
            leaves := db.leaves.map
              (fun l => if l.ID == existingID then { l with LeaveTime := leaveTime } else l) },
          none)
    | none =>
      if f.insertLeave then (db, some .storage)
      else
        let id := nextID db.leavesSeq (db.leaves.map Leave.ID)
        ({ db with
            leaves := db.leaves ++ [⟨id, subordinateID, roundedTime⟩],
            leavesSeq := id },
          none)

/-- Go `(*DB).AddUnplannedActivity`: the description is cut to its first 1000
bytes, then the row whose `DATE(activity_time)` is the wall-clock day of
`activityTime` is updated, or a new row inserted when there is none. -/
def AddUnplannedActivity (f : Faults) (db : DB) (subordinateID : Int) (activityTime : Time)
    (description : GoString) : DB × Option Error :=
  let roundedTime := Time.Date activityTime.year activityTime.month activityTime.day
    activityTime.hour activityTime.minute 0 0 activityTime.offset
  let description := if description.length > 1000 then description.take 1000 else description
  let today := activityTime.date
  if f.selectActivity then (db, some .storage)
  else
    match db.activities.find?
        (fun a => a.SubordinateID == subordinateID && a.ActivityTime.sqlDate == today) with
    | some row =>
      let existingID := row.ID
      if f.updateActivity then (db, some .storage)
      else
        ({ db with
            activities := db.activities.map
              (fun a => if a.ID == existingID then
                  { a with ActivityTime := activityTime, Description := description }
                else a) },
          none)
    | none =>
      if f.insertActivity then (db, some .storage)
      else
        let id := nextID db.activitiesSeq (db.activities.map UnplannedActivity.ID)
        ({ db with
            activities := db.activities ++ [⟨id, subordinateID, roundedTime, description⟩],
            activitiesSeq := id },
          none)

/-- Byte-wise `a ≤ b` on strings: the `BINARY` collation of `ORDER BY`. -/
def bytesLe : GoString → GoString → Bool
  | [], _ => true
  | _ :: _, [] => false
  | a :: as, b :: bs => decide (a < b) || (a == b && bytesLe as bs)

/-- The order of `ORDER BY last_name, first_name`. -/
def nameLe (a b : Subordinate) : Prop :=
  (a.LastName ≠ b.LastName ∧ bytesLe a.LastName b.LastName = true) ∨
    (a.LastName = b.LastName ∧ bytesLe a.FirstName b.FirstName = true)

instance : DecidableRel nameLe := fun a b => by unfold nameLe; exact inferInstance

/-- The rows of `subordinates` that satisfy `p`, in the order of
`ORDER BY last_name, first_name`. -/
def selectOrdered (db : DB) (p : Subordinate → Bool) : List Subordinate :=
  (db.subordinates.filter p).insertionSort nameLe

/-- Go `(*DB).FindSubordinatesBySingleTerm`:
`WHERE LOWER(last_name) = LOWER(?) OR LOWER(first_name) = LOWER(?)`, both
placeholders bound to `term`.  `sqlLower` is SQL `LOWER`. -/
def FindSubordinatesBySingleTerm (sqlLower : GoString → GoString) (db : DB) (term : GoString) :
    List Subordinate :=
  selectOrdered db (fun s =>
    sqlLower s.LastName == sqlLower term || sqlLower s.FirstName == sqlLower term)

/-- Go `(*DB).FindSubordinatesByFullName`.  `sqlLike pattern text` is the SQL
operator `text LIKE pattern`; the byte 37 is the wildcard `%`. -/
def FindSubordinatesByFullName (sqlLower : GoString → GoString)
    (sqlLike : GoString → GoString → Bool) (db : DB) (lastName firstName : GoString) :
    List Subordinate :=
  let likeLastName := [37] ++ lastName ++ [37]
  let likeFirstName := [37] ++ firstName ++ [37]
  selectOrdered db (fun s =>
    (sqlLower s.LastName == sqlLower lastName && sqlLower s.FirstName == sqlLower firstName) ||
    (sqlLower s.LastName == sqlLower lastName &&
      sqlLike (sqlLower likeFirstName) (sqlLower s.FirstName)) ||
    (sqlLike (sqlLower likeLastName) (sqlLower s.LastName) &&
      sqlLower s.FirstName == sqlLower firstName))

/-- Go `(*DB).FindSubordinatesByName`:
`WHERE LOWER(last_name) LIKE LOWER(?) OR LOWER(first_name) LIKE LOWER(?)`. -/
def FindSubordinatesByName (sqlLower : GoString → GoString)
    (sqlLike : GoString → GoString → Bool) (db : DB) (lastName firstName : GoString) :
    List Subordinate :=
  let likeTerm := [37] ++ lastName ++ [37]
  let likeTerm2 := [37] ++ firstName ++ [37]
  selectOrdered db (fun s =>
    sqlLike (sqlLower likeTerm) (sqlLower s.LastName) ||
    sqlLike (sqlLower likeTerm2) (sqlLower s.FirstName))

/-- The mutual-exclusion invariant of the specification: no (person, day) has
both a row in `leaves` and a row in `unplanned_activities`. -/
def MutualExclusion (db : DB) : Prop :=
  ∀ l ∈ db.leaves, ∀ a ∈ db.activities,
    ¬ (l.SubordinateID = a.SubordinateID ∧ l.LeaveTime.date = a.ActivityTime.date)

instance (db : DB) : Decidable (MutualExclusion db) := by
  unfold MutualExclusion; exact inferInstance

/-- The store without the rows the two `DELETE` statements of
`RemoveConflictingRecords` match for the person `P` and the day text `d`: the
leave rows and the activity rows of `P` whose `DATE(column)` is `d`. -/
def withoutDay (db : DB) (P : Int) (d : Nat × Nat × Nat) : DB :=
  { db with
    leaves := db.leaves.filter (fun l => !(l.SubordinateID == P && l.LeaveTime.sqlDate == d)),
    activities := db.activities.filter
      (fun a => !(a.SubordinateID == P && a.ActivityTime.sqlDate == d)) }

/-- The store with one more leave row, as the `INSERT` of `AddLeave` writes it. -/
def insertLeave (db : DB) (P : Int) (t : Time) : DB :=
  { db with
    leaves := db.leaves ++ [⟨nextID db.leavesSeq (db.leaves.map Leave.ID), P,
      Time.Date t.year t.month t.day t.hour t.minute 0 0 t.offset⟩],
    leavesSeq := nextID db.leavesSeq (db.leaves.map Leave.ID) }

/-- The store with one more activity row, as the `INSERT` of
`AddUnplannedActivity` writes it. -/
def insertActivity (db : DB) (P : Int) (t : Time) (description : GoString) : DB :=
  { db with
    activities := db.activities ++
      [⟨nextID db.activitiesSeq (db.activities.map UnplannedActivity.ID), P,
        Time.Date t.year t.month t.day t.hour t.minute 0 0 t.offset, description.take 1000⟩],
    activitiesSeq := nextID db.activitiesSeq (db.activities.map UnplannedActivity.ID) }

/-- The leave records of one (person, day) in the sense of the specification:
the rows of the person whose time is of that day on the wall clock. -/
def leavesOf (db : DB) (p : Int) (d : Nat × Nat × Nat) : List Leave :=
  db.leaves.filter (fun l => l.SubordinateID == p && l.LeaveTime.date == d)

/-- The activity records of one (person, day) in the sense of the
specification. -/
def activitiesOf (db : DB) (p : Int) (d : Nat × Nat × Nat) : List UnplannedActivity :=
  db.activities.filter (fun a => a.SubordinateID == p && a.ActivityTime.date == d)

/-- The rows `WHERE subordinate_id = ? AND DATE(leave_time) = ?` selects. -/
def sqlLeavesOf (db : DB) (p : Int) (d : Nat × Nat × Nat) : List Leave :=
  db.leaves.filter (fun l => l.SubordinateID == p && l.LeaveTime.sqlDate == d)

/-- The rows `WHERE subordinate_id = ? AND DATE(activity_time) = ?` selects. -/
def sqlActivitiesOf (db : DB) (p : Int) (d : Nat × Nat × Nat) : List UnplannedActivity :=
  db.activities.filter (fun a => a.SubordinateID == p && a.ActivityTime.sqlDate == d)

/-- Every stored time is of the same day in UTC as on the wall clock: the two
readings of "the day of a record" agree on the store. -/
def DB.DayAligned (db : DB) : Prop :=
  (∀ l ∈ db.leaves, l.LeaveTime.DayAligned) ∧ (∀ a ∈ db.activities, a.ActivityTime.DayAligned)

instance (db : DB) : Decidable db.DayAligned := by unfold DB.DayAligned; exact inferInstance

end database

/-! ### Further library functions, the allow-list and the roster import -/

/-- Go `s[:n]`; `none` is the run-time panic "slice bounds out of range". -/
def sliceTo (s : GoString) (n : Int) : Option GoString :=
  if 0 ≤ n ∧ n ≤ s.length then some (s.take n.toNat) else none

/-- Go `s[n:]`; `none` is the run-time panic "slice bounds out of range". -/
def sliceFrom (s : GoString) (n : Int) : Option GoString :=
  if 0 ≤ n ∧ n ≤ s.length then some (s.drop n.toNat) else none

namespace strings

/-- Worker of `Index`: the offset of the first occurrence, counted from `i`. -/
def indexFrom (substr : GoString) : Nat → GoString → Option Nat
  | i, [] => if substr.isEmpty then some i else none
  | i, c :: cs => if substr.isPrefixOf (c :: cs) then some i else indexFrom substr (i + 1) cs

/-- Go `strings.Index(s, substr)`: the byte offset of the first occurrence of
`substr` in `s`, or -1. -/
def Index (s substr : GoString) : Int :=
  match indexFrom substr 0 s with
  | some i => (i : Int)
  | none => -1

/-- Go `strings.TrimPrefix`. -/
def TrimPrefix (s pre : GoString) : GoString :=
  if HasPrefix s pre then s.drop pre.length else s

/-- Worker of `Fields`: `cur` is the field being read. -/
def fieldsAux : Nat → GoString → GoString → List GoString
  | 0, cur, _ => if cur.isEmpty then [] else [cur]
  | _ + 1, cur, [] => if cur.isEmpty then [] else [cur]
  | fuel + 1, cur, c :: cs =>
    match dropSpace spaceEncodings (c :: cs) with
    | some rest => (if cur.isEmpty then [] else [cur]) ++ fieldsAux fuel [] rest
    | none => fieldsAux fuel (cur ++ [c]) cs

/-- Go `strings.Fields`: the maximal runs of bytes between white-space runes. -/
def Fields (s : GoString) : List GoString := fieldsAux s.length [] s

end strings

namespace strconv

/-- The sign and the digits of `Atoi`: a leading `+` or `-` is split off. -/
def splitSign (s : GoString) : Bool × GoString :=
  match s with
  | c :: r => if c == 43 then (false, r) else if c == 45 then (true, r) else (false, s)
  | [] => (false, [])

/-- The text is a number for `Atoi`: an optional sign, then one or more
decimal digits. -/
def isNumber (s : GoString) : Bool :=
  !(splitSign s).2.isEmpty && (splitSign s).2.all utils.isDigit

/-- Go `strconv.Atoi` on a 64-bit platform, as `HandleCallback` uses it
(`subID, _ := strconv.Atoi(...)`): the value returned next to the discarded
error.  A text that is not a number gives 0; a number out of range gives the
nearest bound. -/
def Atoi (s : GoString) : Int :=
  if !isNumber s then 0
  else
    let v : Int := utils.parseInt (splitSign s).2
    if (splitSign s).1 then (if v > 9223372036854775808 then -9223372036854775808 else -v)
    else (if v > 9223372036854775807 then 9223372036854775807 else v)

end strconv

namespace fmt

/-- Worker of `decimal`: the digits of `n` are put in front of `acc`. -/
def decimalAux : Nat → Nat → GoString → GoString
  | 0, _, acc => acc
  | fuel + 1, n, acc =>
    if n < 10 then (48 + n) :: acc else decimalAux fuel (n / 10) ((48 + n % 10) :: acc)

/-- The decimal digits of a natural number. -/
def decimal (n : Nat) : GoString := decimalAux (n + 1) n []

/-- What the verb `%d` of `fmt.Sprintf` prints for an `int`. -/
def formatInt (n : Int) : GoString :=
  if n < 0 then 45 :: decimal n.natAbs else decimal n.natAbs

end fmt

namespace filepath

/-- Go `filepath.Ext`: the suffix of the last path element that starts at its
last dot, or the empty string. -/
def Ext (path : GoString) : GoString :=
  let element := path.reverse.takeWhile (fun b => b != 47)
  if element.contains 46 then (element.takeWhile (fun b => b != 46) ++ [46]).reverse else []

end filepath

namespace utils

/-- Go `utils.IsExcelFile`; `lower` is `strings.ToLower`. -/
def IsExcelFile (lower : GoString → GoString) (filename : GoString) : Bool :=
  let ext := lower (filepath.Ext filename)
  ext == utf8 ".xlsx" || ext == utf8 ".xls"

end utils

namespace config

/-- Go `config.Config`, reduced to the allow-list. -/
structure Config where
  AdminIDs : List Int

/-- Go `(*Config).IsAdmin`. -/
def Config.IsAdmin (c : Config) (userID : Int) : Bool :=
  c.AdminIDs.any (fun adminID => userID == adminID)

end config

namespace database

/-- Go `(*DB).AddSubordinate`: an `INSERT` into `subordinates`, refused when the
triple of names is already there (`UNIQUE(last_name, first_name, middle_name)`).
No statement of the source deletes a row of `subordinates`, so the
`AUTOINCREMENT` key is one more than the largest key of the table. -/
def AddSubordinate (db : DB) (sub : Subordinate) : DB × Except Error Int :=
  if db.subordinates.any (fun s =>
      s.LastName == sub.LastName && s.FirstName == sub.FirstName &&
        s.MiddleName == sub.MiddleName) then
    (db, .error .storage)
  else
    let id := nextID 0 (db.subordinates.map Subordinate.ID)
    ({ db with subordinates := db.subordinates ++
        [⟨id, sub.LastName, sub.FirstName, sub.MiddleName⟩] }, .ok id)

/-- Go `(*DB).GetTodayLeaves`; `now` is `time.Now()`.  The rows of the day are
scanned in order, a later row of the same person overwriting an earlier one. -/
def GetTodayLeaves (db : DB) (now : Time) : Int → Option Time :=
  (db.leaves.filter (fun l => l.LeaveTime.sqlDate == now.date)).foldl
    (fun leaves l => Function.update leaves l.SubordinateID
      (some (Time.Date l.LeaveTime.year l.LeaveTime.month l.LeaveTime.day l.LeaveTime.hour
        l.LeaveTime.minute 0 0 l.LeaveTime.offset)))
    (fun _ => none)

/-- Go `(*DB).GetTodayUnplannedActivities`; the scan fills `SubordinateID`,
`ActivityTime` and `Description` and leaves `ID` zero. -/
def GetTodayUnplannedActivities (db : DB) (now : Time) : Int → Option UnplannedActivity :=
  (db.activities.filter (fun a => a.ActivityTime.sqlDate == now.date)).foldl
    (fun activities a => Function.update activities a.SubordinateID
      (some ⟨0, a.SubordinateID,
        Time.Date a.ActivityTime.year a.ActivityTime.month a.ActivityTime.day
          a.ActivityTime.hour a.ActivityTime.minute 0 0 a.ActivityTime.offset, a.Description⟩))
    (fun _ => none)

end database

namespace excel

open database

/-- The key `fmt.Sprintf("%s|%s|%s", ...)` of `existingMap`. -/
def nameKey (lastName firstName middleName : GoString) : GoString :=
  lastName ++ [124] ++ firstName ++ [124] ++ middleName

/-- The body of the row loop of `ProcessExcelFile` for a row after the header:
the store, the keys of `existingMap` and `newSubordinates`. -/
def processRow (st : DB × List GoString × List Subordinate) (row : List GoString) :
    DB × List GoString × List Subordinate :=
  match row with
  | c0 :: c1 :: c2 :: _ =>
    let lastName := strings.TrimSpace c0
    let firstName := strings.TrimSpace c1
    let middleName := strings.TrimSpace c2
    if lastName == [] && firstName == [] then st
    else
      let key := nameKey lastName firstName middleName
      if st.2.1.contains key then st
      else
        let sub : Subordinate := ⟨0, lastName, firstName, middleName⟩
        match AddSubordinate st.1 sub with
        | (_, .error _) => st
        | (db, .ok _) => (db, st.2.1 ++ [key], st.2.2 ++ [sub])
  | _ => st

/-- Go `(*ExcelProcessor).ProcessExcelFile` on the rows of the first sheet:
the store afterwards and `newSubordinates`. -/
def ProcessExcelFile (db : DB) (rows : List (List GoString)) : DB × List Subordinate :=
  let st := (rows.drop 1).foldl processRow
    (db, (GetAllSubordinates db).map (fun s => nameKey s.LastName s.FirstName s.MiddleName), [])
  (st.1, st.2.2)

end excel

/-! ### Package `handlers` -/

namespace handlers

open database

/-- What a handler reads from outside the program while it handles one event. -/
structure Env where
  /-- Go `strings.ToLower`. -/
  lower : GoString → GoString
  /-- SQL `LOWER`. -/
  sqlLower : GoString → GoString
  /-- SQL `text LIKE pattern`, as `sqlLike pattern text`. -/
  sqlLike : GoString → GoString → Bool
  /-- Go `time.Now()`. -/
  now : Time
  /-- Go `utils.GetMoscowTime()`. -/
  msk : Time
  /-- The SQL statements that fail. -/
  faults : Faults

/-- The status line of one person in the answer to "Где подчинённые". -/
inductive Status where
  /-- Text "📍 На месте" -/
  | present
  /-- Text "📋 Внеплановая (%s) - %s": the time and the shortened description -/
  | activity (t : Time) (shortDescription : GoString)
  /-- Text "🚪 Ушел в %s" -/
  | left (t : Time)
deriving DecidableEq, Repr

/-- A value of the `interface{}` data bag. -/
inductive Value where
  | str (s : GoString)
  | int (n : Int)
  | time (t : Time)
  | subs (l : List Subordinate)
deriving DecidableEq, Repr

/-- Go `map[string]interface{}`, as the list of the entries of its literal. -/
abbrev DataBag := List (String × Value)

/-- The messages the handlers send; the comment gives the text of the source. -/
inductive Reply where
  /-- Text "Неверный формат. Используйте 'сейчас' или время в формате ЧЧ:MM" -/
  | noTimeMarker
  /-- Text "Ошибка парсинга времени: " followed by the error of `ParseTime` -/
  | parseError (e : utils.ParseError)
  /-- Text "Укажите фамилию сотрудника" -/
  | emptySearchTerm
  /-- Text "Ошибка поиска подчиненных: " followed by the error -/
  | searchError (e : Error)
  /-- Text "Сотрудник не найден" -/
  | personNotFound
  /-- Text "Данные сессии устарели" -/
  | sessionExpired
  /-- Text "Неизвестное состояние" -/
  | unknownState
  /-- Text "Ошибка обработки записи: " followed by the error -/
  | conflictRemovalError (e : Error)
  /-- Text "Ошибка записи ухода: " / "Ошибка обновления ухода: " followed by the error -/
  | leaveWriteError (e : Error)
  /-- Text "Ошибка записи деятельности: " / "Ошибка обновления деятельности: " -/
  | activityWriteError (e : Error)
  /-- Text "✅ %s %s ушёл в %s (МСК)" -/
  | leaveRecorded (sub : Subordinate) (t : Time)
  /-- Text "✅ Для %s %s зафиксирована деятельность в %s: %s" -/
  | activityRecorded (sub : Subordinate) (t : Time) (description : GoString)
  /-- Text "✅ Уход для %s %s обновлен на %s" -/
  | leaveUpdated (sub : Subordinate) (t : Time)
  /-- Text "✅ Деятельность для %s %s обновлена: %s - %s" -/
  | activityUpdated (sub : Subordinate) (t : Time) (description : GoString)
  /-- Text "Найдено несколько сотрудников. Выберите нужного:" with the selection keyboard -/
  | chooseSubordinate (subs : List Subordinate)
  /-- Text "📝 Введите описание внеплановой деятельности:" -/
  | askDescription
  /-- Text "❌ Действие отменено" -/
  | cancelled
  /-- Text "Не понимаю команду. Используйте кнопки или стандартные форматы." -/
  | notUnderstood
  /-- The request to delete the message that carried the buttons -/
  | deleteMessage (messageID : Int)
  /-- Text "Нет добавленных подчиненных. Сначала добавьте их через Excel." -/
  | noPeopleRegistered
  /-- Text "👥 Выберите подчиненного, который уходит:" with the selection keyboard -/
  | selectLeaving (subs : List Subordinate)
  /-- Text "👥 Выберите сотрудника для внеплановой деятельности:" with the keyboard -/
  | selectForActivity (subs : List Subordinate)
  /-- Text "Неверное состояние" -/
  | wrongState
  /-- Text "Ошибка данных сессии" -/
  | sessionDataError
  /-- Text "Описание не может быть пустым" -/
  | emptyDescription
  /-- Text "Добро пожаловать! Используйте кнопки ниже для управления." with the main
  keyboard -/
  | welcome
  /-- Text "У вас нет прав для выполнения этой команды" -/
  | noPermission
  /-- Text "Прикрепите Excel файл к команде /add_excel" -/
  | attachExcelHint
  /-- Text "Файл должен быть в формате Excel (.xlsx или .xls)" -/
  | notExcelFile
  /-- Text "Ошибка получения файла: " followed by the error -/
  | fileUrlError
  /-- Text "📥 Скачиваю файл..." -/
  | downloading
  /-- Text "Ошибка скачивания файла: " followed by the error -/
  | downloadError
  /-- Text "📊 Обрабатываю данные..." -/
  | processing
  /-- Text "Ошибка обработки Excel: " followed by the error -/
  | excelError
  /-- Text "✅ Добавлено %d новых подчиненных:" with the list, or "Новых подчиненных не
  найдено" when the list is empty -/
  | importSummary (added : List Subordinate)
  /-- Text "📋 Всего подчиненных: %d" with the numbered list -/
  | allSubordinates (subs : List Subordinate)
  /-- The document "📊 Полная статистика": the exported spreadsheet -/
  | statisticsDocument
  /-- Text "Выберите вариант статистики:" with the four variants -/
  | statisticsMenu
  /-- Text "Укажите период: /stat сегодня|вчера|ДД.ММ.ГГГГ|excel" -/
  | statisticsUsage
  /-- The answer to `/stat` with a period other than `excel`: the leaves of the
  day, or the date-format error -/
  | statisticsAnswer (period : GoString)
  /-- Text "Укажите время в формате ЧЧ:MM или 'сейчас'" -/
  | timeRequired
  /-- Text "Ошибка обработки команды" -/
  | commandError
  /-- Text "Укажите описание деятельности" -/
  | descriptionRequired
  /-- Text "Не удалось найти время в тексте" -/
  | timeNotFound
  /-- Text "Неверный формат времени: " followed by the error of `ParseTime` -/
  | timeFormatError (e : utils.ParseError)
  /-- Text "📊 **Статус подчиненных на сегодня:**": one line per person, then
  "Всего: %d, На месте: %d, Ушли: %d, Внеплановая: %d" -/
  | whereReport (lines : List (Subordinate × Status))
      (total presentCount uniqueLeftCount uniqueActivityCount : Int)
deriving DecidableEq, Repr

/-- Go `handlers.BotHandler`: the store, the two per-chat session maps and the
messages sent so far. -/
structure BotHandler where
  db : DB
  userStates : Int → Option String
  userData : Int → Option DataBag
  sent : List (Int × Reply)

/-- Go `h.bot.Send(msg)` / `h.sendError(chatID, ...)`. -/
def BotHandler.send (h : BotHandler) (chatID : Int) (r : Reply) : BotHandler :=
  { h with sent := h.sent ++ [(chatID, r)] }

/-- The comparison of `sortSubordinatesAlphabetically`: `a` sorts after `b`,
`a.LastName > b.LastName || (a.LastName == b.LastName && a.FirstName > b.FirstName)`,
with Go's byte-wise string order. -/
def sortsAfter (a b : Subordinate) : Bool :=
  !bytesLe a.LastName b.LastName ||
    (a.LastName == b.LastName && !bytesLe a.FirstName b.FirstName)

/-- The body of the inner loop: swap the entries `i` and `j` when entry `i`
sorts after entry `j`. -/
def swapIfAfter (l : List Subordinate) (i j : Nat) : List Subordinate :=
  match l.get? i, l.get? j with
  | some a, some b => if sortsAfter a b then (l.set i b).set j a else l
  | _, _ => l

/-- The inner loop `for j := ...; j < len; j++`, with `k` iterations to go. -/
def sortInner (i : Nat) : Nat → Nat → List Subordinate → List Subordinate
  | 0, _, l => l
  | k + 1, j, l => sortInner i k (j + 1) (swapIfAfter l i j)

/-- The outer loop `for i := ...; i < len-1; i++`, with `k` iterations to go. -/
def sortOuter : Nat → Nat → List Subordinate → List Subordinate
  | 0, _, l => l
  | k + 1, i, l => sortOuter k (i + 1) (sortInner i (l.length - (i + 1)) (i + 1) l)

/-- Go `sortSubordinatesAlphabetically`. -/
def sortSubordinatesAlphabetically (l : List Subordinate) : List Subordinate :=
  sortOuter (l.length - 1) 0 l

/-- Every entry before position `i` is at most every later entry. -/
def SortedBelow (i : Nat) (l : List Subordinate) : Prop :=
  ∀ a b x y, a < i → a < b → l[a]? = some x → l[b]? = some y → nameLe x y

/-- The entry at position `i` is at most every entry at a position between `i`
and `j`. -/
def MinUpTo (i j : Nat) (l : List Subordinate) : Prop :=
  ∀ k x y, i < k → k < j → l[i]? = some x → l[k]? = some y → nameLe x y

/-- Go `findExactSubordinate`. -/
def findExactSubordinate (env : Env) (db : DB) (searchTerm1 searchTerm2 : GoString) :
    Except Error (List Subordinate) :=
  if searchTerm1 == [] && searchTerm2 == [] then .error .noSearchData
  else if searchTerm2 == [] then .ok (FindSubordinatesBySingleTerm env.sqlLower db searchTerm1)
  else .ok (FindSubordinatesByFullName env.sqlLower env.sqlLike db searchTerm1 searchTerm2)

/-- Go `recordLeave`: conflict removal, then `AddLeave`, then the receipt. -/
def recordLeave (env : Env) (h : BotHandler) (chatID subordinateID : Int) (leaveTime : Time) :
    BotHandler :=
  match RemoveConflictingRecords env.faults h.db subordinateID leaveTime with
  | (db1, some err) => ({ h with db := db1 }).send chatID (.conflictRemovalError err)
  | (db1, none) =>
    match AddLeave env.faults db1 subordinateID leaveTime with
    | (db2, some err) => ({ h with db := db2 }).send chatID (.leaveWriteError err)
    | (db2, none) =>
      let sub := GetSubordinateByID db2 subordinateID
      ({ h with db := db2 }).send chatID (.leaveRecorded sub leaveTime)

/-- Go `recordUnplannedActivity`. -/
def recordUnplannedActivity (env : Env) (h : BotHandler) (chatID subordinateID : Int)
    (activityTime : Time) (description : GoString) : BotHandler :=
  match RemoveConflictingRecords env.faults h.db subordinateID activityTime with
  | (db1, some err) => ({ h with db := db1 }).send chatID (.conflictRemovalError err)
  | (db1, none) =>
    match AddUnplannedActivity env.faults db1 subordinateID activityTime description with
    | (db2, some err) => ({ h with db := db2 }).send chatID (.activityWriteError err)
    | (db2, none) =>
      let sub := GetSubordinateByID db2 subordinateID
      ({ h with db := db2 }).send chatID (.activityRecorded sub activityTime description)

/-- Go `handleRecordLeave` (the roster query is taken on its success path). -/
def handleRecordLeave (h : BotHandler) (chatID : Int) : BotHandler :=
  let subordinates := GetAllSubordinates h.db
  if subordinates.length == 0 then h.send chatID .noPeopleRegistered
  else
    let subordinates := sortSubordinatesAlphabetically subordinates
    let h := { h with
      userStates := Function.update h.userStates chatID (some "waiting_leave_selection"),
      userData := Function.update h.userData chatID (some
        [("action", .str (utf8 "record_leave")), ("sub_list", .subs subordinates)]) }
    h.send chatID (.selectLeaving subordinates)

/-- Go `handleUnplannedActivity` (the roster query is taken on its success path). -/
def handleUnplannedActivity (h : BotHandler) (chatID : Int) : BotHandler :=
  let subordinates := GetAllSubordinates h.db
  if subordinates.length == 0 then h.send chatID .noPeopleRegistered
  else
    let subordinates := sortSubordinatesAlphabetically subordinates
    let h := { h with
      userStates := Function.update h.userStates chatID (some "waiting_activity_description"),
      userData := Function.update h.userData chatID (some
        [("action", .str (utf8 "unplanned_activity")), ("sub_list", .subs subordinates)]) }
    h.send chatID (.selectForActivity subordinates)

/-- Go `processLeaveInput`. -/
def processLeaveInput (env : Env) (h : BotHandler) (chatID : Int) (text : GoString) :
    BotHandler :=
  let h := { h with userStates := Function.update h.userStates chatID none }
  let hasTime := utils.ContainsTime env.lower text
  let hasNow := strings.Contains (env.lower text) kwNow
  if !hasTime && !hasNow then h.send chatID .noTimeMarker
  else
    let parsed : Except utils.ParseError (Time × GoString) :=
      if hasNow then
        .ok (env.now,
          strings.ReplaceAll (strings.ReplaceAll (strings.ReplaceAll text kwNow []) kwNowCap [])
            kwNowUpper [])
      else
        match utils.ParseTime env.lower env.now text with
        | .error err => .error err
        | .ok leaveTime => .ok (leaveTime, utils.ReplaceAllTimes text)
    match parsed with
    | .error err => h.send chatID (.parseError err)
    | .ok (leaveTime, text) =>
      let cleanText := strings.TrimSpace text
      if cleanText == [] then h.send chatID .emptySearchTerm
      else
        match findExactSubordinate env h.db cleanText [] with
        | .error err => h.send chatID (.searchError err)
        | .ok subordinates =>
          match subordinates with
          | [] => h.send chatID .personNotFound
          | [sub] => recordLeave env h chatID sub.ID leaveTime
          | _ =>
            let action := if hasNow then utf8 "leave_now" else utf8 "leave_time"
            let h := { h with userData := Function.update h.userData chatID (some
              [("action", .str action), ("sub_list", .subs subordinates),
               ("leave_time", .time leaveTime)]) }
            h.send chatID (.chooseSubordinate subordinates)

/-- Go `handleFreeTextInput`. -/
def handleFreeTextInput (env : Env) (h : BotHandler) (chatID : Int) (text : GoString) :
    BotHandler :=
  if strings.Contains text kwNow || utils.ContainsTime env.lower text then
    processLeaveInput env h chatID text
  else h.send chatID .notUnderstood

/-- Go `handleSubordinateSelection`. -/
def handleSubordinateSelection (env : Env) (h : BotHandler) (chatID subID messageID : Int) :
    BotHandler :=
  let h := h.send chatID (.deleteMessage messageID)
  match h.userStates chatID, h.userData chatID with
  | some userState, some _ =>
    let mskTime := env.msk
    if userState == "waiting_leave_selection" then
      let h := recordLeave env h chatID subID mskTime
      { h with userStates := Function.update h.userStates chatID none,
               userData := Function.update h.userData chatID none }
    else if userState == "waiting_activity_description" then
      let h := { h with
        userData := Function.update h.userData chatID (some
          [("subordinate_id", .int subID), ("activity_time", .time mskTime)]),
        userStates := Function.update h.userStates chatID (some "waiting_activity_desc_input") }
      h.send chatID .askDescription
    else
      let h := h.send chatID .unknownState
      { h with userStates := Function.update h.userStates chatID none,
               userData := Function.update h.userData chatID none }
  | _, _ => h.send chatID .sessionExpired

/-- Go `handleConfirmation`.  The result is `none` when a type assertion of the
form `userData[key].(T)` fails and the handler panics. -/
def handleConfirmation (env : Env) (h : BotHandler) (chatID : Int) (confirmed : Bool)
    (messageID : Int) : Option BotHandler :=
  let h := h.send chatID (.deleteMessage messageID)
  if !confirmed then
    let h := h.send chatID .cancelled
    some { h with userData := Function.update h.userData chatID none }
  else
    match h.userData chatID with
    | none => some (h.send chatID .sessionExpired)
    | some userData =>
      match userData.lookup "action", userData.lookup "subordinate_id" with
      | some (.str action), some (.int subordinateID) =>
        if action == utf8 "confirm_leave" then
          match userData.lookup "leave_time" with
          | some (.time leaveTime) =>
            match AddLeave env.faults h.db subordinateID leaveTime with
            | (db1, some err) => some (({ h with db := db1 }).send chatID (.leaveWriteError err))
            | (db1, none) =>
              let sub := GetSubordinateByID db1 subordinateID
              let h := ({ h with db := db1 }).send chatID (.leaveUpdated sub leaveTime)
              some { h with userData := Function.update h.userData chatID none }
          | _ => none
        else if action == utf8 "confirm_unplanned" then
          match userData.lookup "activity_time", userData.lookup "description" with
          | some (.time activityTime), some (.str description) =>
            match AddUnplannedActivity env.faults h.db subordinateID activityTime description with
            | (db1, some err) =>
              some (({ h with db := db1 }).send chatID (.activityWriteError err))
            | (db1, none) =>
              let sub := GetSubordinateByID db1 subordinateID
              let h := ({ h with db := db1 }).send chatID
                (.activityUpdated sub activityTime description)
              some { h with userData := Function.update h.userData chatID none }
          | _, _ => none
        else some { h with userData := Function.update h.userData chatID none }
      | _, _ => none

/-- Go `processActivityDescriptionInput`.  The two type assertions are of the
two-valued form `v, ok := userData[key].(T)`, which never panics. -/
def processActivityDescriptionInput (env : Env) (h : BotHandler) (chatID : Int)
    (text : GoString) : BotHandler :=
  if h.userStates chatID != some "waiting_activity_desc_input" then
    h.send chatID .wrongState
  else
    match h.userData chatID with
    | none =>
      let h := h.send chatID .sessionExpired
      { h with userStates := Function.update h.userStates chatID none }
    | some userData =>
      match userData.lookup "subordinate_id", userData.lookup "activity_time" with
      | some (.int subordinateID), some (.time activityTime) =>
        let description := strings.TrimSpace text
        if description == [] then h.send chatID .emptyDescription
        else
          let description :=
            if description.length > 1000 then description.take 1000 else description
          let h := recordUnplannedActivity env h chatID subordinateID activityTime description
          { h with userStates := Function.update h.userStates chatID none,
                   userData := Function.update h.userData chatID none }
      | _, _ =>
        let h := h.send chatID .sessionDataError
        { h with userStates := Function.update h.userStates chatID none,
                 userData := Function.update h.userData chatID none }

open config

/-- A button of an inline keyboard: the label and the callback token. -/
structure Button where
  text : GoString
  data : GoString
deriving DecidableEq, Repr

/-- The button `NewInlineKeyboardButtonData` builds for one person: label
`"%s %s"` of last and first name, token `"select_sub_%d"` of the id. -/
def selectionButton (sub : Subordinate) : Button :=
  { text := sub.LastName ++ [32] ++ sub.FirstName,
    data := utf8 "select_sub_" ++ fmt.formatInt sub.ID }

/-- Go `CreateSubordinateSelectionKeyboard`: the rows of the keyboard.  Each
iteration of `for i := 0; i < len; i += 2` takes the entries `i` and `i+1`. -/
def CreateSubordinateSelectionKeyboard : List Subordinate → List (List Button)
  | [] => []
  | [a] => [[selectionButton a]]
  | a :: b :: rest =>
    [selectionButton a, selectionButton b] :: CreateSubordinateSelectionKeyboard rest

/-- An attached file: its name, and what fetching and opening it yields. -/
inductive Fetch where
  /-- `GetFileDirectURL` fails -/
  | noURL
  /-- `utils.DownloadFile` fails -/
  | downloadFailed
  /-- `ProcessExcelFile` cannot open the file or read its first sheet -/
  | unreadable
  /-- The rows of the first sheet -/
  | rows (rows : List (List GoString))
deriving DecidableEq, Repr

/-- Go `tgbotapi.Document`, with what the transport yields for it. -/
structure Document where
  FileName : GoString
  fetch : Fetch
deriving DecidableEq, Repr

/-- Go `update.Message`: the chat, the text, the attachment and its caption. -/
structure Message where
  chatID : Int
  text : GoString
  document : Option Document
  caption : GoString
deriving DecidableEq, Repr

/-- Go `update.CallbackQuery`: the chat, the token and the id of the message
that carried the keyboard. -/
structure Callback where
  chatID : Int
  data : GoString
  messageID : Int
deriving DecidableEq, Repr

/-- Go `NewBotHandler`: empty session maps. -/
def NewBotHandler (db : DB) : BotHandler :=
  { db := db, userStates := fun _ => none, userData := fun _ => none, sent := [] }

/-- Go `handleStart`. -/
def handleStart (h : BotHandler) (chatID : Int) : BotHandler := h.send chatID .welcome

/-- The description as the status line prints it:
`if len(s) > 50 { s = s[:47] + "..." }`. -/
def shortDescription (description : GoString) : GoString :=
  if description.length > 50 then description.take 47 ++ utf8 "..." else description

/-- The status of one person in `handleWhereSubordinates`: the activity first,
then the leave. -/
def statusOf (leaves : Int → Option Time) (activities : Int → Option UnplannedActivity)
    (sub : Subordinate) : Status :=
  match activities sub.ID with
  | some activity => .activity activity.ActivityTime (shortDescription activity.Description)
  | none =>
    match leaves sub.ID with
    | some leaveTime => .left leaveTime
    | none => .present

/-- The counting loop of `handleWhereSubordinates`: `uniqueLeftCount` and
`uniqueActivityCount`. -/
def countStatuses (leaves : Int → Option Time) (activities : Int → Option UnplannedActivity)
    (subordinates : List Subordinate) : Int × Int :=
  subordinates.foldl
    (fun counts sub =>
      if (activities sub.ID).isSome then (counts.1, counts.2 + 1)
      else if (leaves sub.ID).isSome then (counts.1 + 1, counts.2)
      else counts)
    (0, 0)

/-- The message `handleWhereSubordinates` builds from the sorted roster and the
two maps of the day. -/
def whereReport (subordinates : List Subordinate) (leaves : Int → Option Time)
    (activities : Int → Option UnplannedActivity) : Reply :=
  let lines := subordinates.map (fun sub => (sub, statusOf leaves activities sub))
  let total : Int := subordinates.length
  let counts := countStatuses leaves activities subordinates
  let uniqueLeftCount := counts.1
  let uniqueActivityCount := counts.2
  let presentCount := total - uniqueLeftCount - uniqueActivityCount
  .whereReport lines total presentCount uniqueLeftCount uniqueActivityCount

/-- Go `handleWhereSubordinates` (the three queries are taken on their success
path). -/
def handleWhereSubordinates (env : Env) (h : BotHandler) (chatID : Int) : BotHandler :=
  let subordinates := sortSubordinatesAlphabetically (GetAllSubordinates h.db)
  let leaves := GetTodayLeaves h.db env.now
  let activities := GetTodayUnplannedActivities h.db env.now
  h.send chatID (whereReport subordinates leaves activities)

/-- Go `handleStatisticsMenu`. -/
def handleStatisticsMenu (h : BotHandler) (chatID : Int) : BotHandler :=
  h.send chatID .statisticsMenu

/-- Go `handleExcelExport`: the privilege check, then the export (taken on its
success path). -/
def handleExcelExport (cfg : Config) (h : BotHandler) (chatID : Int) : BotHandler :=
  if !cfg.IsAdmin chatID then h.send chatID .noPermission
  else h.send chatID .statisticsDocument

/-- Go `handleStatisticsCommand`.  The periods other than `excel` end in one
message that reads the store and changes nothing. -/
def handleStatisticsCommand (cfg : Config) (h : BotHandler) (chatID : Int) (text : GoString) :
    BotHandler :=
  match strings.Fields text with
  | _ :: period :: _ =>
    if period == utf8 "excel" then handleExcelExport cfg h chatID
    else h.send chatID (.statisticsAnswer period)
  | _ => h.send chatID .statisticsUsage

/-- Go `showAllSubordinates`. -/
def showAllSubordinates (h : BotHandler) (chatID : Int) : BotHandler :=
  h.send chatID (.allSubordinates (GetAllSubordinates h.db))

/-- Go `handleAddExcel`. -/
def handleAddExcel (cfg : Config) (env : Env) (h : BotHandler) (chatID : Int)
    (document : Option Document) : BotHandler :=
  if !cfg.IsAdmin chatID then h.send chatID .noPermission
  else
    match document with
    | none => h.send chatID .attachExcelHint
    | some document =>
      if !utils.IsExcelFile env.lower document.FileName then h.send chatID .notExcelFile
      else
        match document.fetch with
        | .noURL => h.send chatID .fileUrlError
        | .downloadFailed => (h.send chatID .downloading).send chatID .downloadError
        | .unreadable =>
          ((h.send chatID .downloading).send chatID .processing).send chatID .excelError
        | .rows rows =>
          let h := (h.send chatID .downloading).send chatID .processing
          let imported := excel.ProcessExcelFile h.db rows
          let h := ({ h with db := imported.1 }).send chatID (.importSummary imported.2)
          showAllSubordinates h chatID

/-- Go `processUnplannedActivity`. -/
def processUnplannedActivity (env : Env) (h : BotHandler) (chatID : Int)
    (searchText : GoString) (activityTime : Time) (description : GoString) : BotHandler :=
  match strings.Fields searchText with
  | [] => h.send chatID .emptySearchTerm
  | lastName :: _ =>
    match findExactSubordinate env h.db lastName [] with
    | .error err => h.send chatID (.searchError err)
    | .ok subordinates =>
      let subordinates :=
        if subordinates.length == 0 then
          FindSubordinatesByName env.sqlLower env.sqlLike h.db lastName []
        else subordinates
      match subordinates with
      | [] => h.send chatID .personNotFound
      | [sub] => recordUnplannedActivity env h chatID sub.ID activityTime description
      | _ =>
        let h := { h with userData := Function.update h.userData chatID (some
          [("action", .str (utf8 "unplanned")), ("sub_list", .subs subordinates),
           ("activity_time", .time activityTime), ("description", .str description)]) }
        h.send chatID (.chooseSubordinate subordinates)

/-- The common end of the two branches of `processUnplannedInput`: the checks
of the two segments, the cut of the description and the search. -/
def finishUnplannedInput (env : Env) (h : BotHandler) (chatID : Int)
    (activityTime : Time) (before after : GoString) : BotHandler :=
  let searchText := strings.TrimSpace before
  let description := strings.TrimSpace after
  if searchText == [] then h.send chatID .emptySearchTerm
  else if description == [] then h.send chatID .descriptionRequired
  else
    let description :=
      if description.length > 1000 then description.take 1000 else description
    processUnplannedActivity env h chatID searchText activityTime description

/-- Go `processUnplannedInput`.  The result is `none` when a slice expression
`text[:i]` or `text[i:]` is out of range and the handler panics. -/
def processUnplannedInput (env : Env) (h : BotHandler) (chatID : Int) (text : GoString) :
    Option BotHandler :=
  let h := { h with userStates := Function.update h.userStates chatID none }
  let hasTime := utils.ContainsTime env.lower text
  let hasNow := strings.Contains (env.lower text) kwNow
  if !hasTime && !hasNow then some (h.send chatID .timeRequired)
  else if hasNow then
    let activityTime := env.now
    let nowIndex := strings.Index (env.lower text) kwNow
    if nowIndex == -1 then some (h.send chatID .commandError)
    else
      let descriptionStart := nowIndex + (kwNow.length : Int)
      match sliceTo text nowIndex with
      | none => none
      | some before =>
        match sliceFrom text descriptionStart with
        | none => none
        | some after => some (finishUnplannedInput env h chatID activityTime before after)
  else
    match utils.ParseTime env.lower env.now text with
    | .error err => some (h.send chatID (.parseError err))
    | .ok activityTime =>
      match utils.FindStringIndex text with
      | none => some (h.send chatID .timeNotFound)
      | some timeMatch =>
        match sliceTo text timeMatch.1 with
        | none => none
        | some before =>
          match sliceFrom text timeMatch.2 with
          | none => none
          | some after => some (finishUnplannedInput env h chatID activityTime before after)

/-- Go `handleLeaveTimeInput`.  The result is `none` when the type assertion
`userData["subordinate_id"].(int)` fails and the handler panics. -/
def handleLeaveTimeInput (env : Env) (h : BotHandler) (chatID : Int) (text : GoString) :
    Option BotHandler :=
  let h := { h with userStates := Function.update h.userStates chatID none }
  match h.userData chatID with
  | none => some (h.send chatID .sessionExpired)
  | some userData =>
    match utils.ParseTime env.lower env.now text with
    | .error err => some (h.send chatID (.timeFormatError err))
    | .ok leaveTime =>
      match userData.lookup "subordinate_id" with
      | some (.int subordinateID) =>
        let h := recordLeave env h chatID subordinateID leaveTime
        some { h with userData := Function.update h.userData chatID none }
      | _ => none

/-- Go `handleUnplannedDetailsInput`.  The result is `none` when one of the
type assertions fails and the handler panics. -/
def handleUnplannedDetailsInput (env : Env) (h : BotHandler) (chatID : Int)
    (text : GoString) : Option BotHandler :=
  let h := { h with userStates := Function.update h.userStates chatID none }
  match h.userData chatID with
  | none => some (h.send chatID .sessionExpired)
  | some userData =>
    if strings.TrimSpace text == [] then some (h.send chatID .emptyDescription)
    else
      match userData.lookup "subordinate_id", userData.lookup "activity_time" with
      | some (.int subordinateID), some (.time activityTime) =>
        let h := recordUnplannedActivity env h chatID subordinateID activityTime text
        some { h with userData := Function.update h.userData chatID none }
      | _, _ => none

/-- Go `HandleMessage` for an update that carries a message.  The allow-list
`h.config` is the parameter `cfg`.  The result is `none` when the handler
panics. -/
def HandleMessage (cfg : Config) (env : Env) (h : BotHandler) (m : Message) :
    Option BotHandler :=
  let chatID := m.chatID
  let text := m.text
  if m.document.isSome && m.caption != [] &&
      strings.HasPrefix m.caption (utf8 "/add_excel") then
    if !cfg.IsAdmin chatID then some (h.send chatID .noPermission)
    else some (handleAddExcel cfg env h chatID m.document)
  else if text == utf8 "/start" then some (handleStart h chatID)
  else if text == utf8 "Зафиксировать уход" then some (handleRecordLeave h chatID)
  else if text == utf8 "Внеплановая деятельность" then some (handleUnplannedActivity h chatID)
  else if text == utf8 "Где подчинённые" then some (handleWhereSubordinates env h chatID)
  else if text == utf8 "Статистика" then some (handleStatisticsMenu h chatID)
  else if strings.HasPrefix text (utf8 "/stat") then
    some (handleStatisticsCommand cfg h chatID text)
  else if strings.HasPrefix text (utf8 "/add_excel") then some (h.send chatID .attachExcelHint)
  else if h.userStates chatID == some "waiting_activity_desc_input" then
    some (processActivityDescriptionInput env h chatID text)
  else if h.userStates chatID == some "waiting_leave_input" then
    some (processLeaveInput env h chatID text)
  else if h.userStates chatID == some "waiting_unplanned_input" then
    processUnplannedInput env h chatID text
  else if h.userStates chatID == some "waiting_leave_time" then
    handleLeaveTimeInput env h chatID text
  else if h.userStates chatID == some "waiting_unplanned_details" then
    handleUnplannedDetailsInput env h chatID text
  else some (handleFreeTextInput env h chatID text)

/-- Go `HandleCallback`.  The result is `none` when the handler panics. -/
def HandleCallback (env : Env) (h : BotHandler) (cb : Callback) : Option BotHandler :=
  let data := cb.data
  let chatID := cb.chatID
  if strings.HasPrefix data (utf8 "select_sub_") then
    let subID := strconv.Atoi (strings.TrimPrefix data (utf8 "select_sub_"))
    some (handleSubordinateSelection env h chatID subID cb.messageID)
  else if data == utf8 "confirm_yes" || data == utf8 "confirm_no" then
    handleConfirmation env h chatID (data == utf8 "confirm_yes") cb.messageID
  else some h

/-- The handler states the program can be in: `NewBotHandler` over some store,
followed by any number of handled messages and callbacks, each with its own
readings of the clocks and of the storage faults. -/
inductive Reachable (cfg : Config) : BotHandler → Prop where
  | start (db : DB) : Reachable cfg (NewBotHandler db)
  | message {h h2 : BotHandler} (env : Env) (m : Message) :
    Reachable cfg h → HandleMessage cfg env h m = some h2 → Reachable cfg h2
  | callback {h h2 : BotHandler} (env : Env) (cb : Callback) :
    Reachable cfg h → HandleCallback env h cb = some h2 → Reachable cfg h2

/-- The state tags the source assigns: none, or one of the three tags written
by `handleRecordLeave`, `handleUnplannedActivity` and
`handleSubordinateSelection`. -/
def AssignedTag (tag : Option String) : Prop :=
  tag = none ∨ tag = some "waiting_leave_selection" ∨
    tag = some "waiting_activity_description" ∨ tag = some "waiting_activity_desc_input"

/-- The text is none of the fixed commands and intents of `HandleMessage`. -/
def isCommand (text : GoString) : Bool :=
  text == utf8 "/start" || text == utf8 "Зафиксировать уход" ||
    text == utf8 "Внеплановая деятельность" || text == utf8 "Где подчинённые" ||
    text == utf8 "Статистика" || strings.HasPrefix text (utf8 "/stat") ||
    strings.HasPrefix text (utf8 "/add_excel")

end handlers

/-- A fragment of `strings.ToLower` used to run the definitions on concrete
texts: ASCII letters and the Cyrillic capitals U+0410..U+042F (bytes
`D0 90`..`D0 AF`) are lower-cased, every other byte is kept. -/
def lowerRu : GoString → GoString
  | 0xD0 :: b :: rest =>
    if 0x90 ≤ b ∧ b ≤ 0x9F then 0xD0 :: (b + 0x20) :: lowerRu rest
    else if 0xA0 ≤ b ∧ b ≤ 0xAF then 0xD1 :: (b - 0x20) :: lowerRu rest
    else 0xD0 :: b :: lowerRu rest
  | b :: rest => (if 65 ≤ b ∧ b ≤ 90 then b + 32 else b) :: lowerRu rest
  | [] => []

/-- A fragment of SQL `LOWER` as the storage engine ships it: only ASCII
letters are folded. -/
def lowerAscii (s : GoString) : GoString := s.map (fun b => if 65 ≤ b ∧ b ≤ 90 then b + 32 else b)

/-! ### Sample data, used to run the definitions -/

/-- A fragment of SQL `LIKE` for the patterns the source builds, `%term%` with a
term free of wildcards: the text contains the term. -/
def likeContains (pattern text : GoString) : Bool :=
  strings.Contains text (pattern.drop 1).dropLast

/-- Thursday 2 May 2024, 10:11:12.000000013. -/
def sampleNow : Time := ⟨2024, 5, 2, 10, 11, 12, 13, 180⟩

/-- An environment in which no SQL statement fails. -/
def sampleEnv : handlers.Env :=
  { lower := lowerRu, sqlLower := lowerAscii, sqlLike := likeContains,
    now := sampleNow, msk := ⟨2024, 5, 2, 10, 11, 12, 13, 180⟩, faults := {} }

def petrov : database.Subordinate := ⟨1, utf8 "Petrov", utf8 "Ivan", []⟩

def ivanovAnna : database.Subordinate := ⟨2, utf8 "Ivanov", utf8 "Anna", []⟩

def ivanovBoris : database.Subordinate := ⟨3, utf8 "Ivanov", utf8 "Boris", []⟩

/-- A roster of three people and no records. -/
def sampleDB : database.DB :=
  { subordinates := [petrov, ivanovBoris, ivanovAnna], leaves := [], leavesSeq := 0,
    activities := [], activitiesSeq := 0 }

/-- The roster, and Petrov left at 09:00 on 2 May 2024. -/
def sampleDBLeave : database.DB :=
  { sampleDB with leaves := [⟨1, 1, ⟨2024, 5, 2, 9, 0, 0, 0, 180⟩⟩], leavesSeq := 1 }

/-- The roster, and Petrov has an activity at 09:00 on 2 May 2024. -/
def sampleDBActivity : database.DB :=
  { sampleDB with
    activities := [⟨1, 1, ⟨2024, 5, 2, 9, 0, 0, 0, 180⟩, utf8 "meeting"⟩], activitiesSeq := 1 }

/-- A handler over `db` in which no chat has a session. -/
def idleHandler (db : database.DB) : handlers.BotHandler :=
  { db := db, userStates := fun _ => none, userData := fun _ => none, sent := [] }

/-- The session of chat 7 after the intent "Зафиксировать уход" (record leave). -/
def afterLeaveIntent : handlers.BotHandler :=
  handlers.handleRecordLeave (idleHandler sampleDB) 7

/-- Chat 7 after the free text "Ivanov 14:30", which two people match. -/
def afterIvanovText : handlers.BotHandler :=
  handlers.handleFreeTextInput sampleEnv (idleHandler sampleDB) 7 (utf8 "Ivanov 14:30")

/-- Chat 7 after the intent "Зафиксировать уход" and a click on the deny button:
`handleConfirmation` has dropped the data bag and kept the state tag. -/
def afterIntentDenied : handlers.BotHandler :=
  { (afterLeaveIntent.send 7 (.deleteMessage 0)).send 7 .cancelled with
    userData := Function.update afterLeaveIntent.userData 7 none }

/-- Chat 7 waits for the description of Petrov's activity, selected at
10:11:12; the store holds his leave of that day. -/
def awaitingDescription : handlers.BotHandler :=
  { idleHandler sampleDBLeave with
    userStates := fun c => if c = 7 then some "waiting_activity_desc_input" else none,
    userData := fun c => if c = 7 then some
      [("subordinate_id", .int 1), ("activity_time", .time sampleNow)] else none }

/-- Chat 7 waits for the person of a leave. -/
def awaitingLeaveSelection : handlers.BotHandler :=
  handlers.handleRecordLeave (idleHandler sampleDBActivity) 7

/-- The clock of a later event: 18:30:45 of the same day. -/
def laterEnv : handlers.Env :=
  { sampleEnv with now := ⟨2024, 5, 2, 18, 30, 45, 0, 180⟩, msk := ⟨2024, 5, 2, 18, 30, 45, 0, 180⟩ }

/-- Chat 7 holds the pending action `confirm_leave` for Petrov at 10:11 while
the store holds his activity of the same day. -/
def pendingLeaveConfirm : handlers.BotHandler :=
  { idleHandler sampleDBActivity with
    userData := fun c => if c = 7 then some
      [("action", .str (utf8 "confirm_leave")), ("subordinate_id", .int 1),
       ("leave_time", .time sampleNow)] else none }

/-- Chat 7 holds the pending action `confirm_unplanned` for Petrov at 10:11
while the store holds his leave of the same day. -/
def pendingActivityConfirm : handlers.BotHandler :=
  { idleHandler sampleDBLeave with
    userData := fun c => if c = 7 then some
      [("action", .str (utf8 "confirm_unplanned")), ("subordinate_id", .int 1),
       ("activity_time", .time sampleNow), ("description", .str (utf8 "call"))] else none }

/-- Chat 7 after the intent "Внеплановая деятельность" and the selection of
Petrov: it waits for the description. -/
def afterActivitySelection : handlers.BotHandler :=
  handlers.handleSubordinateSelection sampleEnv
    (handlers.handleUnplannedActivity (idleHandler sampleDB) 7) 7 1 0

namespace handlers

/-- The status is "present". -/
def Status.isPresent : Status → Bool
  | .present => true
  | _ => false

/-- The status is a leave. -/
def Status.isLeft : Status → Bool
  | .left _ => true
  | _ => false

/-- The status is an activity. -/
def Status.isActivity : Status → Bool
  | .activity _ _ => true
  | _ => false

end handlers

/-- The roster; on 2 May 2024 Petrov has a leave at 08:45:30 and an activity at
09:00, and Boris Ivanov a leave at 09:30:20. -/
def sampleDBBoth : database.DB :=
  { sampleDB with
    leaves := [⟨1, 1, ⟨2024, 5, 2, 8, 45, 30, 0, 180⟩⟩, ⟨2, 3, ⟨2024, 5, 2, 9, 30, 20, 0, 180⟩⟩],
    leavesSeq := 2,
    activities := [⟨1, 1, ⟨2024, 5, 2, 9, 0, 0, 0, 180⟩, utf8 "meeting"⟩], activitiesSeq := 1 }

/-- A store whose roster is Petrov alone. -/
def onePersonDB : database.DB :=
  { subordinates := [petrov], leaves := [], leavesSeq := 0, activities := [], activitiesSeq := 0 }

namespace handlers

/-- From `h` to `h2` every chat keeps its state tag or gets an assigned one. -/
def TagStep (h h2 : BotHandler) : Prop :=
  ∀ c, h2.userStates c = h.userStates c ∨ AssignedTag (h2.userStates c)

end handlers

namespace handlers

/-- The messages that only the roster import and the statistics export send. -/
def Reply.fromImportOrExport : Reply → Bool
  | .notExcelFile => true
  | .fileUrlError => true
  | .downloading => true
  | .downloadError => true
  | .processing => true
  | .excelError => true
  | .importSummary _ => true
  | .allSubordinates _ => true
  | .statisticsDocument => true
  | _ => false

/-- From `h` to `h2` neither the import nor the export ran: the roster is as
it was and none of the messages sent since belongs to the import or the
export. -/
def NoImportExport (h h2 : BotHandler) : Prop :=
  h2.db.subordinates = h.db.subordinates ∧
  ∃ rs, h2.sent = h.sent ++ rs ∧ ∀ r ∈ rs, r.2.fromImportOrExport = false

end handlers

namespace handlers

/-- The search key `cleanText` of `processLeaveInput` for a text with the
keyword: the three spellings of the keyword are deleted, then the text is
trimmed. -/
def nowSearchKey (text : GoString) : GoString :=
  strings.TrimSpace (strings.ReplaceAll (strings.ReplaceAll
    (strings.ReplaceAll text kwNow []) kwNowCap []) kwNowUpper [])

end handlers

/-- A larger fragment of `strings.ToLower`: as `lowerRu`, and the Kelvin sign
U+212A (bytes `E2 84 AA`) becomes the letter "k" (one byte), as the Unicode
tables of the Go runtime have it. -/
def lowerRuKelvin (s : GoString) : GoString :=
  lowerRu (strings.ReplaceAll s [0xE2, 0x84, 0xAA] [0x6B])

/-- The sample environment with the larger fragment of `strings.ToLower`. -/
def kelvinEnv : handlers.Env := { sampleEnv with lower := lowerRuKelvin }

/-- 2 May 2024, 01:30:00 in the zone UTC+3: the day in UTC is 1 May. -/
def earlyNow : Time := ⟨2024, 5, 2, 1, 30, 0, 0, 180⟩

/-- The clocks read 01:30 Moscow time and no SQL statement fails. -/
def earlyEnv : handlers.Env := { sampleEnv with now := earlyNow, msk := earlyNow }

/-- The roster, and Petrov left at 01:00 Moscow time on 2 May 2024. -/
def earlyDBLeave : database.DB :=
  { sampleDB with leaves := [⟨1, 1, ⟨2024, 5, 2, 1, 0, 0, 0, 180⟩⟩], leavesSeq := 1 }

/-- The roster, and Petrov has an activity at 01:00 Moscow time on 2 May 2024. -/
def earlyDBActivity : database.DB :=
  { sampleDB with
    activities := [⟨1, 1, ⟨2024, 5, 2, 1, 0, 0, 0, 180⟩, utf8 "meeting"⟩], activitiesSeq := 1 }

/-- Two bytes are equal, or one is an ASCII capital and the other its small
letter. -/
def sameAsciiLetter (x y : Nat) : Bool :=
  x == y || (65 ≤ x && x ≤ 90 && y == x + 32) || (65 ≤ y && y ≤ 90 && x == y + 32)

/-- Two texts are equal up to the case of their ASCII letters: they have the
same length and agree byte by byte up to `sameAsciiLetter`. -/
def EqualFoldAscii : GoString → GoString → Bool
  | [], [] => true
  | x :: xs, y :: ys => sameAsciiLetter x y && EqualFoldAscii xs ys
  | _, _ => false

/-- A person with a Cyrillic name. -/
def ivanovRu : database.Subordinate := ⟨1, utf8 "Иванов", utf8 "Пётр", []⟩

/-- A roster of one person with a Cyrillic name and no records. -/
def cyrillicDB : database.DB :=
  { subordinates := [ivanovRu], leaves := [], leavesSeq := 0, activities := [], activitiesSeq := 0 }

/-! ## Part II. Theorems -/

/-! ### The definitions on the sample data -/

theorem sort_sample : handlers.sortSubordinatesAlphabetically [petrov, ivanovBoris, ivanovAnna] =
    [ivanovAnna, ivanovBoris, petrov] := by decide
theorem afterLeaveIntent_state : afterLeaveIntent.userStates 7 = some "waiting_leave_selection" := by decide
theorem afterIvanovText_sent : afterIvanovText.sent = [(7, .chooseSubordinate [ivanovAnna, ivanovBoris])] := by decide
theorem afterIvanovText_state : afterIvanovText.userStates 7 = none := by decide
theorem selection_after_ivanov_sent : (handlers.handleSubordinateSelection sampleEnv afterIvanovText 7 3 0).sent =
    [(7, .chooseSubordinate [ivanovAnna, ivanovBoris]), (7, .deleteMessage 0),
     (7, .sessionExpired)] := by decide
theorem freeText_after_intent_leaves : (handlers.handleFreeTextInput sampleEnv afterLeaveIntent 7 (utf8 "Petrov 14:30")).db.leaves
    = [⟨1, 1, ⟨2024, 5, 2, 14, 30, 0, 0, 180⟩⟩] := by decide
theorem freeText_petr_sent : (handlers.handleFreeTextInput sampleEnv (idleHandler sampleDB) 7 (utf8 "Petr 14:30")).sent
    = [(7, .personNotFound)] := by decide
theorem byName_petr : database.FindSubordinatesByName lowerAscii likeContains sampleDB (utf8 "Petr")
    (utf8 "Petr") = [petrov] := by decide

/-! ### Strings and the time pattern -/

namespace strings

theorem Contains_iff_infix (s sub : GoString) : Contains s sub = true ↔ sub <:+: s := by
  induction s with
  | nil => simp [Contains, List.isEmpty_iff]
  | cons c cs ih =>
    simp only [Contains, Bool.or_eq_true, ih, List.infix_cons_iff, List.isPrefixOf_iff_prefix]

end strings

namespace utils

theorem isDigit_colon : isDigit 58 = false := by decide

theorem matchTimeAt_eq_some_iff (s hs ms rest : GoString) :
    matchTimeAt s = some (hs, ms, rest) ↔ (s = hs ++ 58 :: ms ++ rest ∧ IsTimeText hs ms) := by
  constructor
  · intro h
    unfold matchTimeAt at h
    split at h
    · split at h
      · rename_i hc
        simp only [Bool.and_eq_true, beq_iff_eq] at hc
        obtain ⟨⟨⟨⟨ha, hb⟩, hcol⟩, hd⟩, he⟩ := hc
        simp only [Option.some.injEq, Prod.mk.injEq] at h
        obtain ⟨rfl, rfl, rfl⟩ := h
        subst hcol
        refine ⟨by simp, Or.inr rfl, rfl, ?_, ?_⟩ <;> simp [ha, hb, hd, he]
      · split at h
        · rename_i hc
          simp only [Bool.and_eq_true, beq_iff_eq] at hc
          obtain ⟨⟨⟨ha, hcol⟩, hd⟩, he⟩ := hc
          simp only [Option.some.injEq, Prod.mk.injEq] at h
          obtain ⟨rfl, rfl, rfl⟩ := h
          subst hcol
          refine ⟨by simp, Or.inl rfl, rfl, ?_, ?_⟩ <;> simp [ha, hd, he]
        · exact absurd h (by simp)
    · split at h
      · rename_i hc
        simp only [Bool.and_eq_true, beq_iff_eq] at hc
        obtain ⟨⟨⟨ha, hcol⟩, hd⟩, he⟩ := hc
        simp only [Option.some.injEq, Prod.mk.injEq] at h
        obtain ⟨rfl, rfl, rfl⟩ := h
        subst hcol
        refine ⟨by simp, Or.inl rfl, rfl, ?_, ?_⟩ <;> simp [ha, hd, he]
      · exact absurd h (by simp)
    · exact absurd h (by simp)
  · rintro ⟨rfl, hlen, hmlen, hhs, hms⟩
    obtain ⟨c, d, rfl⟩ : ∃ c d, ms = [c, d] := by
      match ms, hmlen with
      | [c, d], _ => exact ⟨c, d, rfl⟩
    have hc : isDigit c = true := hms c (by simp)
    have hd : isDigit d = true := hms d (by simp)
    rcases hlen with h1 | h2
    · obtain ⟨a, rfl⟩ : ∃ a, hs = [a] := by
        match hs, h1 with
        | [a], _ => exact ⟨a, rfl⟩
      have ha : isDigit a = true := hhs a (by simp)
      cases rest with
      | nil => simp [matchTimeAt, ha, hc, hd]
      | cons e r => simp [matchTimeAt, ha, hc, hd, isDigit_colon]
    · obtain ⟨a, b, rfl⟩ : ∃ a b, hs = [a, b] := by
        match hs, h2 with
        | [a, b], _ => exact ⟨a, b, rfl⟩
      have ha : isDigit a = true := hhs a (by simp)
      have hb : isDigit b = true := hhs b (by simp)
      simp [matchTimeAt, ha, hb, hc, hd]

theorem IsTimeText.ne_nil {hs ms : GoString} (h : IsTimeText hs ms) : hs ≠ [] := by
  rcases h.1 with h1 | h2
  · intro h0; simp [h0] at h1
  · intro h0; simp [h0] at h2

/-- An occurrence that does not start at the head of `c :: cs` is an
occurrence in `cs`. -/
theorem TimeMatchAt.tail {c : Nat} {cs pre hs ms post : GoString}
    (h : TimeMatchAt (c :: cs) (c :: pre) hs ms post) : TimeMatchAt cs pre hs ms post := by
  obtain ⟨heq, ht⟩ := h
  refine ⟨?_, ht⟩
  simpa using heq

theorem TimeMatchAt.cons {cs pre hs ms post : GoString} (c : Nat)
    (h : TimeMatchAt cs pre hs ms post) : TimeMatchAt (c :: cs) (c :: pre) hs ms post := by
  obtain ⟨heq, ht⟩ := h
  exact ⟨by simp [heq], ht⟩

theorem TimeMatchAt.head_eq {c : Nat} {cs p pre hs ms post : GoString} {x : Nat}
    (h : TimeMatchAt (c :: cs) (x :: p) hs ms post) (_ : pre = p) : x = c := by
  obtain ⟨heq, _⟩ := h
  simp at heq
  exact heq.1.symm

theorem TimeMatchAt.not_nil {pre hs ms post : GoString} : ¬ TimeMatchAt [] pre hs ms post := by
  rintro ⟨heq, _⟩
  have := congrArg List.length heq
  simp at this
  omega

theorem findTime_eq_none (s : GoString) (h : findTime s = none) (pre hs ms post : GoString) :
    ¬ TimeMatchAt s pre hs ms post := by
  induction s generalizing pre with
  | nil =>
    exact TimeMatchAt.not_nil
  | cons c cs ih =>
    intro hm
    unfold findTime at h
    cases hmt : matchTimeAt (c :: cs) with
    | some r =>
      obtain ⟨a, b, r⟩ := r
      simp [hmt] at h
    | none =>
      simp only [hmt] at h
      cases pre with
      | nil =>
        have : matchTimeAt (c :: cs) = some (hs, ms, post) :=
          (matchTimeAt_eq_some_iff _ _ _ _).2 ⟨by simpa using hm.1, hm.2⟩
        simp [hmt] at this
      | cons x p =>
        have hx : x = c := TimeMatchAt.head_eq hm rfl
        subst hx
        cases hft : findTime cs with
        | some r =>
          obtain ⟨a, b, c2, d⟩ := r
          simp [hft] at h
        | none => exact ih hft p hm.tail

theorem findTime_eq_some_iff (s pre hs ms post : GoString) :
    findTime s = some (pre, hs, ms, post) ↔ FirstTimeMatch s pre hs ms post := by
  induction s generalizing pre with
  | nil =>
    constructor
    · intro h; simp [findTime] at h
    · rintro ⟨hm, _⟩
      exact absurd hm TimeMatchAt.not_nil
  | cons c cs ih =>
    unfold findTime
    cases hmt : matchTimeAt (c :: cs) with
    | some r =>
      obtain ⟨hs0, ms0, rest0⟩ := r
      have h0 := (matchTimeAt_eq_some_iff _ _ _ _).1 hmt
      simp only [Option.some.injEq, Prod.mk.injEq]
      constructor
      · rintro ⟨rfl, rfl, rfl, rfl⟩
        exact ⟨⟨by simpa using h0.1, h0.2⟩, fun _ _ _ _ _ => Nat.zero_le _⟩
      · rintro ⟨hm, hfirst⟩
        have hpre : pre = [] := by
          have := hfirst [] hs0 ms0 rest0 ⟨by simpa using h0.1, h0.2⟩
          exact List.eq_nil_of_length_eq_zero (Nat.le_zero.1 this)
        subst hpre
        have : matchTimeAt (c :: cs) = some (hs, ms, post) :=
          (matchTimeAt_eq_some_iff _ _ _ _).2 ⟨by simpa using hm.1, hm.2⟩
        rw [hmt] at this
        simp only [Option.some.injEq, Prod.mk.injEq] at this
        obtain ⟨rfl, rfl, rfl⟩ := this
        exact ⟨rfl, rfl, rfl, rfl⟩
    | none =>
      simp only
      constructor
      · intro h
        cases hft : findTime cs with
        | none => simp [hft] at h
        | some r =>
          obtain ⟨pre1, hs1, ms1, post1⟩ := r
          simp only [hft, Option.some.injEq, Prod.mk.injEq] at h
          obtain ⟨rfl, rfl, rfl, rfl⟩ := h
          obtain ⟨hm, hfirst⟩ := (ih pre1).1 hft
          refine ⟨hm.cons c, ?_⟩
          intro pre2 hs2 ms2 post2 h2
          cases pre2 with
          | nil =>
            have : matchTimeAt (c :: cs) = some (hs2, ms2, post2) :=
              (matchTimeAt_eq_some_iff _ _ _ _).2 ⟨by simpa using h2.1, h2.2⟩
            simp [hmt] at this
          | cons x p =>
            have hx : x = c := TimeMatchAt.head_eq h2 rfl
            subst hx
            have := hfirst p hs2 ms2 post2 h2.tail
            simpa using this
      · rintro ⟨hm, hfirst⟩
        cases pre with
        | nil =>
          have : matchTimeAt (c :: cs) = some (hs, ms, post) :=
            (matchTimeAt_eq_some_iff _ _ _ _).2 ⟨by simpa using hm.1, hm.2⟩
          simp [hmt] at this
        | cons x p =>
          have hx : x = c := TimeMatchAt.head_eq hm rfl
          subst hx
          have hcs : FirstTimeMatch cs p hs ms post := by
            refine ⟨hm.tail, ?_⟩
            intro pre2 hs2 ms2 post2 h2
            have := hfirst (x :: pre2) hs2 ms2 post2 (h2.cons x)
            simpa using this
          rw [(ih p).2 hcs]

theorem MatchString_iff (s : GoString) :
    MatchString s = true ↔ ∃ pre hs ms post, TimeMatchAt s pre hs ms post := by
  unfold MatchString
  constructor
  · intro h
    cases hft : findTime s with
    | none => simp [hft] at h
    | some r =>
      obtain ⟨pre, hs, ms, post⟩ := r
      exact ⟨pre, hs, ms, post, ((findTime_eq_some_iff _ _ _ _ _).1 hft).1⟩
  · rintro ⟨pre, hs, ms, post, hm⟩
    cases hft : findTime s with
    | none => exact absurd hm (findTime_eq_none s hft pre hs ms post)
    | some r => rfl

/-- What `ParseTime` computes on a text without the keyword whose first
occurrence of the pattern is `hs`:`ms`. -/
theorem ParseTime_of_first_match (lower : GoString → GoString) (now : Time)
    (text pre hs ms post : GoString)
    (hkw : strings.Contains (lower text) kwNow = false)
    (hfirst : FirstTimeMatch text pre hs ms post) :
    ParseTime lower now text =
      if 23 < parseInt hs ∨ 59 < parseInt ms then
        .error (.invalidTimeValue (parseInt hs) (parseInt ms))
      else .ok (Time.Date now.year now.month now.day (parseInt hs) (parseInt ms) 0 0 now.offset) := by
  have hft := (findTime_eq_some_iff _ _ _ _ _).2 hfirst
  simp only [ParseTime, hkw, FindStringSubmatch, hft]
  by_cases h1 : 23 < parseInt hs <;> by_cases h2 : 59 < parseInt ms <;> simp [h1, h2]

/-- C5. A text without the keyword "сейчас" (in any casing) whose first
occurrence of H:MM / HH:MM denotes the hour `h` in 0..23 and the minute `m` in
0..59 is parsed successfully, to the time `h`:`m`:00.000000000 on the calendar
date of `time.Now()`. -/
theorem ParseTime_valid (lower : GoString → GoString) (now : Time)
    (text pre hs ms post : GoString) (h m : Nat)
    (hkw : strings.Contains (lower text) kwNow = false)
    (hfirst : FirstTimeMatch text pre hs ms post)
    (hh : parseInt hs = h) (hm : parseInt ms = m) (hh23 : h ≤ 23) (hm59 : m ≤ 59) :
    ParseTime lower now text =
      .ok { year := now.year, month := now.month, day := now.day,
            hour := h, minute := m, second := 0, nano := 0, offset := now.offset } := by
  rw [ParseTime_of_first_match lower now text pre hs ms post hkw hfirst, hh, hm]
  have : ¬ (23 < h ∨ 59 < m) := by omega
  simp [this, Time.Date]

/-- C6. A text without the keyword whose first occurrence of H:MM / HH:MM has
an hour of 24 or more or a minute of 60 or more makes `ParseTime` fail with the
invalid-time-value error, which is not the no-time-found error; whatever
follows the first occurrence (`post`), a valid time included, plays no role. -/
theorem ParseTime_invalid (lower : GoString → GoString) (now : Time)
    (text pre hs ms post : GoString)
    (hkw : strings.Contains (lower text) kwNow = false)
    (hfirst : FirstTimeMatch text pre hs ms post)
    (hbad : 24 ≤ parseInt hs ∨ 60 ≤ parseInt ms) :
    ParseTime lower now text = .error (.invalidTimeValue (parseInt hs) (parseInt ms)) ∧
      ParseTime lower now text ≠ .error .noTimeFound := by
  have hval : ParseTime lower now text =
      .error (.invalidTimeValue (parseInt hs) (parseInt ms)) := by
    rw [ParseTime_of_first_match lower now text pre hs ms post hkw hfirst]
    have : 23 < parseInt hs ∨ 59 < parseInt ms := by omega
    simp [this]
  refine ⟨hval, ?_⟩
  rw [hval]
  simp

/-- C7. `ParseTime` fails with the no-time-found error exactly when
`ContainsTime` is false, that is exactly when the lower-cased text does not
contain "сейчас" and the text has no substring made of one or two digits, a
colon and two digits. -/
theorem ParseTime_noTimeFound_iff (lower : GoString → GoString) (now : Time) (text : GoString) :
    (ParseTime lower now text = .error .noTimeFound ↔ ContainsTime lower text = false) ∧
    (ParseTime lower now text = .error .noTimeFound ↔
      (¬ kwNow <:+: lower text ∧
        ¬ ∃ pre hs ms post, text = pre ++ hs ++ 58 :: ms ++ post ∧ IsTimeText hs ms)) := by
  have key : ParseTime lower now text = .error .noTimeFound ↔
      (strings.Contains (lower text) kwNow = false ∧ MatchString text = false) := by
    unfold ParseTime FindStringSubmatch MatchString
    cases hkw : strings.Contains (lower text) kwNow
    · cases hft : findTime text with
      | none => simp [hkw]
      | some r =>
        obtain ⟨pre, hs, ms, post⟩ := r
        by_cases hc : 23 < parseInt hs ∨ 59 < parseInt ms <;> simp [hc, hkw]
    · simp [hkw]
  refine ⟨?_, ?_⟩
  · rw [key]
    unfold ContainsTime
    cases strings.Contains (lower text) kwNow <;> cases MatchString text <;> simp
  · rw [key]
    have h1 : strings.Contains (lower text) kwNow = false ↔ ¬ kwNow <:+: lower text := by
      rw [← strings.Contains_iff_infix]; simp
    have h2 : MatchString text = false ↔
        ¬ ∃ pre hs ms post, text = pre ++ hs ++ 58 :: ms ++ post ∧ IsTimeText hs ms := by
      have := MatchString_iff text
      unfold TimeMatchAt at this
      rw [← this]; simp
    rw [h1, h2]

end utils

theorem utf8_kwNow : utf8 "сейчас" = kwNow := by decide
theorem utf8_kwNowCap : utf8 "Сейчас" = kwNowCap := by decide
theorem utf8_kwNowUpper : utf8 "СЕЙЧАС" = kwNowUpper := by decide
theorem lowerRu_kwNowUpper : lowerRu kwNowUpper = kwNow := by decide
theorem lowerRu_kwNowCap : lowerRu kwNowCap = kwNow := by decide
theorem trimSpace_sample : strings.TrimSpace (utf8 "  Petrov \t ") = utf8 "Petrov" := by decide
theorem replaceAllTimes_sample : utils.ReplaceAllTimes (utf8 "Petrov 14:30 x 1:234:56") = utf8 "Petrov  x " := by decide
theorem parseTime_sample : utils.ParseTime lowerRu ⟨2024, 5, 2, 10, 11, 12, 13, 180⟩ (utf8 "Petrov 14:30") =
    .ok ⟨2024, 5, 2, 14, 30, 0, 0, 180⟩ := by decide
theorem parseTime_three_digits : utils.ParseTime lowerRu ⟨2024, 5, 2, 10, 11, 12, 13, 180⟩ (utf8 "Petrov 123:45") =
    .ok ⟨2024, 5, 2, 23, 45, 0, 0, 180⟩ := by decide
theorem parseTime_first_invalid : utils.ParseTime lowerRu ⟨2024, 5, 2, 10, 11, 12, 13, 180⟩ (utf8 "Petrov 25:00 12:30") =
    .error (.invalidTimeValue 25 0) := by decide

/-! ### The store -/

namespace Time

theorem sqlDate_Date (t : Time) :
    (Time.Date t.year t.month t.day t.hour t.minute 0 0 t.offset).sqlDate = t.sqlDate := rfl

theorem date_Date (t : Time) :
    (Time.Date t.year t.month t.day t.hour t.minute 0 0 t.offset).date = t.date := rfl

/-- Rounding to the minute keeps a time day-aligned. -/
theorem DayAligned.round {t : Time} (h : t.DayAligned) :
    (Time.Date t.year t.month t.day t.hour t.minute 0 0 t.offset).DayAligned := h

end Time

namespace database

theorem le_foldl_max (ids : List Int) (seq : Int) :
    seq ≤ ids.foldl max seq ∧ ∀ i ∈ ids, i ≤ ids.foldl max seq := by
  induction ids generalizing seq with
  | nil => simp
  | cons a as ih =>
    simp only [List.foldl_cons, List.mem_cons, forall_eq_or_imp]
    obtain ⟨h1, h2⟩ := ih (max seq a)
    exact ⟨le_trans (le_max_left _ _) h1, le_trans (le_max_right _ _) h1, h2⟩

theorem nextID_fresh (seq : Int) (ids : List Int) : nextID seq ids ∉ ids := by
  intro h
  have := (le_foldl_max ids seq).2 _ h
  unfold nextID at this
  omega

theorem mem_leavesOf {db : DB} {p : Int} {d : Nat × Nat × Nat} {l : Leave} :
    l ∈ leavesOf db p d ↔ l ∈ db.leaves ∧ l.SubordinateID = p ∧ l.LeaveTime.date = d := by
  simp [leavesOf]

theorem mem_activitiesOf {db : DB} {p : Int} {d : Nat × Nat × Nat} {a : UnplannedActivity} :
    a ∈ activitiesOf db p d ↔
      a ∈ db.activities ∧ a.SubordinateID = p ∧ a.ActivityTime.date = d := by
  simp [activitiesOf]

theorem mem_sqlLeavesOf {db : DB} {p : Int} {d : Nat × Nat × Nat} {l : Leave} :
    l ∈ sqlLeavesOf db p d ↔ l ∈ db.leaves ∧ l.SubordinateID = p ∧ l.LeaveTime.sqlDate = d := by
  simp [sqlLeavesOf]

theorem mem_sqlActivitiesOf {db : DB} {p : Int} {d : Nat × Nat × Nat}
    {a : UnplannedActivity} :
    a ∈ sqlActivitiesOf db p d ↔
      a ∈ db.activities ∧ a.SubordinateID = p ∧ a.ActivityTime.sqlDate = d := by
  simp [sqlActivitiesOf]

/-- On day-aligned leave rows the statements select the records of the
(person, day). -/
theorem sqlLeavesOf_eq (db : DB) (hal : ∀ l ∈ db.leaves, l.LeaveTime.DayAligned) (p : Int)
    (d : Nat × Nat × Nat) : sqlLeavesOf db p d = leavesOf db p d := by
  unfold sqlLeavesOf leavesOf
  apply List.filter_congr
  intro l hl
  rw [hal l hl]

theorem sqlActivitiesOf_eq (db : DB) (hal : ∀ a ∈ db.activities, a.ActivityTime.DayAligned)
    (p : Int) (d : Nat × Nat × Nat) : sqlActivitiesOf db p d = activitiesOf db p d := by
  unfold sqlActivitiesOf activitiesOf
  apply List.filter_congr
  intro a ha
  rw [hal a ha]

/-- The `UPDATE leaves SET leave_time = ? WHERE id = ?` of `AddLeave`. -/
theorem leavesOf_update (db : DB) (row : Leave) (t : Time)
    (hkeys : (db.leaves.map Leave.ID).Nodup) (hmem : row ∈ db.leaves)
    (hday : row.LeaveTime.date = t.date) (p : Int) (d : Nat × Nat × Nat) :
    leavesOf
        { db with
          leaves := db.leaves.map
            (fun l => if l.ID == row.ID then { l with LeaveTime := t } else l) } p d =
      (leavesOf db p d).map (fun l => if l = row then { l with LeaveTime := t } else l) := by
  have hid : ∀ l ∈ db.leaves, l.ID = row.ID → l = row := fun l hl h =>
    List.inj_on_of_nodup_map hkeys hl hmem h
  simp only [leavesOf, List.filter_map]
  have h1 : db.leaves.filter ((fun l => l.SubordinateID == p && l.LeaveTime.date == d) ∘
      fun l => if l.ID == row.ID then { l with LeaveTime := t } else l) =
      db.leaves.filter (fun l => l.SubordinateID == p && l.LeaveTime.date == d) := by
    apply List.filter_congr
    intro l hl
    simp only [Function.comp]
    by_cases h : l.ID = row.ID
    · have := hid l hl h
      subst this
      simp [hday]
    · simp [h]
  rw [h1]
  apply List.map_congr_left
  intro l hl
  have hl2 : l ∈ db.leaves := (List.mem_filter.1 hl).1
  by_cases h : l = row
  · simp [h]
  · have : l.ID ≠ row.ID := fun hh => h (hid l hl2 hh)
    simp [h, this]

/-- One successful `AddLeave` on a table with unique row ids and day-aligned
times that holds at most one row of the (person, day) written. -/
theorem AddLeave_spec (f : Faults) (db : DB) (P : Int) (t : Time)
    (hkeys : (db.leaves.map Leave.ID).Nodup)
    (hal : ∀ l ∈ db.leaves, l.LeaveTime.DayAligned)
    (huniq : (leavesOf db P t.date).length ≤ 1)
    (hok : (AddLeave f db P t).2 = none) :
    (∃ l, leavesOf (AddLeave f db P t).1 P t.date = [l] ∧
        l.LeaveTime.hour = t.hour ∧ l.LeaveTime.minute = t.minute) ∧
    (∀ p d, (p, d) ≠ (P, t.date) →
        leavesOf (AddLeave f db P t).1 p d = leavesOf db p d) ∧
    (AddLeave f db P t).1.activities = db.activities ∧
    (AddLeave f db P t).1.subordinates = db.subordinates ∧
    ((AddLeave f db P t).1.leaves.map Leave.ID).Nodup ∧
    (t.DayAligned → ∀ l ∈ (AddLeave f db P t).1.leaves, l.LeaveTime.DayAligned) := by
  unfold AddLeave at hok ⊢
  cases hsel : f.selectLeave
  case true => simp [hsel] at hok
  simp only [hsel, Bool.false_eq_true, if_false] at hok ⊢
  cases hfind : db.leaves.find?
      (fun l => l.SubordinateID == P && l.LeaveTime.sqlDate == t.date) with
  | some row =>
    simp only [hfind] at hok ⊢
    cases hupd : f.updateLeave
    case true => simp [hupd] at hok
    simp only [Bool.false_eq_true, if_false]
    have hrow_mem : row ∈ db.leaves := List.mem_of_find?_eq_some hfind
    have hrow_q := List.find?_some hfind
    simp only [Bool.and_eq_true, beq_iff_eq] at hrow_q
    have hrow_p : row.SubordinateID = P ∧ row.LeaveTime.date = t.date :=
      ⟨hrow_q.1, by rw [← hal row hrow_mem]; exact hrow_q.2⟩
    have hone : leavesOf db P t.date = [row] := by
      have hin : row ∈ leavesOf db P t.date := mem_leavesOf.2 ⟨hrow_mem, hrow_p.1, hrow_p.2⟩
      match hl : leavesOf db P t.date, huniq, hin with
      | [x], _, hin => simpa using (List.mem_singleton.1 hin).symm
      | [], _, hin => simp at hin
      | _ :: _ :: _, hu, _ => simp at hu
    refine ⟨⟨{ row with LeaveTime := t }, ?_, rfl, rfl⟩, ?_, trivial, trivial, ?_, ?_⟩
    · rw [leavesOf_update db row t hkeys hrow_mem hrow_p.2, hone]; simp
    · intro p d hne
      rw [leavesOf_update db row t hkeys hrow_mem hrow_p.2]
      conv_rhs => rw [← List.map_id (leavesOf db p d)]
      apply List.map_congr_left
      intro l hl
      have hl2 := mem_leavesOf.1 hl
      have : l ≠ row := by
        rintro rfl
        exact hne (by rw [← hl2.2.1, ← hl2.2.2, hrow_p.1, hrow_p.2])
      simp [this]
    · simp only [List.map_map]
      have : (Leave.ID ∘ fun l => if l.ID == row.ID then { l with LeaveTime := t } else l) =
          Leave.ID := by
        funext l
        simp only [Function.comp]
        split <;> rfl
      rw [this]; exact hkeys
    · intro ht l hl
      obtain ⟨l0, hl0, rfl⟩ := List.mem_map.1 hl
      split
      · exact ht
      · exact hal l0 hl0
  | none =>
    simp only [hfind] at hok ⊢
    cases hins : f.insertLeave
    case true => simp [hins] at hok
    simp only [Bool.false_eq_true, if_false]
    have hnone : db.leaves.filter
        (fun l => l.SubordinateID == P && l.LeaveTime.date == t.date) = [] := by
      have h0 : sqlLeavesOf db P t.date = [] := by
        unfold sqlLeavesOf
        rw [List.filter_eq_nil_iff]
        exact List.find?_eq_none.1 hfind
      rw [sqlLeavesOf_eq db hal] at h0
      exact h0
    have hd : (Time.Date t.year t.month t.day t.hour t.minute 0 0 t.offset).date = t.date := rfl
    refine ⟨⟨⟨nextID db.leavesSeq (db.leaves.map Leave.ID), P,
        Time.Date t.year t.month t.day t.hour t.minute 0 0 t.offset⟩, ?_, rfl, rfl⟩,
      ?_, trivial, trivial, ?_, ?_⟩
    · unfold leavesOf
      simp [List.filter_append, hnone, hd]
    · intro p d hne
      unfold leavesOf
      have h2 : (P == p &&
          (Time.Date t.year t.month t.day t.hour t.minute 0 0 t.offset).date == d) = false := by
        rw [hd, Bool.and_eq_false_iff]
        by_cases hp : P = p
        · right
          simp only [beq_eq_false_iff_ne]
          rintro rfl
          exact hne (by rw [hp])
        · left; simpa using hp
      simp [List.filter_append, h2]
    · simp only [List.map_append, List.map_cons, List.map_nil]
      refine List.Nodup.append hkeys (List.nodup_singleton _) ?_
      intro x hx hx2
      rw [List.mem_singleton] at hx2
      subst hx2
      exact nextID_fresh _ _ hx
    · intro ht l hl
      rcases List.mem_append.1 hl with hl | hl
      · exact hal l hl
      · rw [List.mem_singleton.1 hl]; exact ht.round

end database

namespace database

theorem RemoveConflictingRecords_ok (f : Faults) (db : DB) (P : Int) (t : Time)
    (h : (RemoveConflictingRecords f db P t).2 = none) :
    (RemoveConflictingRecords f db P t).1 = withoutDay db P t.date := by
  unfold RemoveConflictingRecords at h ⊢
  cases h1 : f.deleteLeaves
  case true => simp [h1] at h
  cases h2 : f.deleteActivities
  case true => simp [h1, h2] at h
  simp [withoutDay]

/-- Whether it fails or not, `RemoveConflictingRecords` only removes rows. -/
theorem RemoveConflictingRecords_subset (f : Faults) (db : DB) (P : Int) (t : Time) :
    (∀ l ∈ (RemoveConflictingRecords f db P t).1.leaves, l ∈ db.leaves) ∧
    (∀ a ∈ (RemoveConflictingRecords f db P t).1.activities, a ∈ db.activities) := by
  unfold RemoveConflictingRecords
  cases h1 : f.deleteLeaves
  case true => simp
  cases h2 : f.deleteActivities
  case true =>
    simp only [Bool.false_eq_true, if_false, if_true]
    exact ⟨fun l hl => (List.mem_filter.1 hl).1, fun a ha => ha⟩
  simp only [Bool.false_eq_true, if_false]
  exact ⟨fun l hl => (List.mem_filter.1 hl).1, fun a ha => (List.mem_filter.1 ha).1⟩

/-- The rows of `withoutDay` are rows of the store. -/
theorem withoutDay_subset (db : DB) (P : Int) (d : Nat × Nat × Nat) :
    (∀ l ∈ (withoutDay db P d).leaves, l ∈ db.leaves) ∧
    (∀ a ∈ (withoutDay db P d).activities, a ∈ db.activities) :=
  ⟨fun _ hl => (List.mem_filter.1 hl).1, fun _ ha => (List.mem_filter.1 ha).1⟩

theorem withoutDay_dayAligned (db : DB) (P : Int) (d : Nat × Nat × Nat) (hal : db.DayAligned) :
    (withoutDay db P d).DayAligned :=
  ⟨fun l hl => hal.1 l ((withoutDay_subset db P d).1 l hl),
    fun a ha => hal.2 a ((withoutDay_subset db P d).2 a ha)⟩

theorem sqlLeavesOf_withoutDay_self (db : DB) (P : Int) (d : Nat × Nat × Nat) :
    sqlLeavesOf (withoutDay db P d) P d = [] := by
  simp only [sqlLeavesOf, withoutDay, List.filter_filter, List.filter_eq_nil_iff]
  intro l _
  cases (l.SubordinateID == P && l.LeaveTime.sqlDate == d) <;> simp

theorem sqlActivitiesOf_withoutDay_self (db : DB) (P : Int) (d : Nat × Nat × Nat) :
    sqlActivitiesOf (withoutDay db P d) P d = [] := by
  simp only [sqlActivitiesOf, withoutDay, List.filter_filter, List.filter_eq_nil_iff]
  intro a _
  cases (a.SubordinateID == P && a.ActivityTime.sqlDate == d) <;> simp

theorem leavesOf_withoutDay_self (db : DB) (P : Int) (d : Nat × Nat × Nat)
    (hal : db.DayAligned) : leavesOf (withoutDay db P d) P d = [] := by
  rw [← sqlLeavesOf_eq _ (withoutDay_dayAligned db P d hal).1]
  exact sqlLeavesOf_withoutDay_self db P d

theorem activitiesOf_withoutDay_self (db : DB) (P : Int) (d : Nat × Nat × Nat)
    (hal : db.DayAligned) : activitiesOf (withoutDay db P d) P d = [] := by
  rw [← sqlActivitiesOf_eq _ (withoutDay_dayAligned db P d hal).2]
  exact sqlActivitiesOf_withoutDay_self db P d

/-- `AddLeave` on a store in which the `SELECT` finds no row: it fails and
changes nothing, or it appends the row with the time rounded to the minute. -/
theorem AddLeave_of_no_row (f : Faults) (db : DB) (P : Int) (t : Time)
    (hnone : sqlLeavesOf db P t.date = []) :
    ((AddLeave f db P t).2 ≠ none ∧ (AddLeave f db P t).1 = db) ∨
    ((AddLeave f db P t).2 = none ∧
      (AddLeave f db P t).1 =
        { db with
          leaves := db.leaves ++ [⟨nextID db.leavesSeq (db.leaves.map Leave.ID), P,
            Time.Date t.year t.month t.day t.hour t.minute 0 0 t.offset⟩],
          leavesSeq := nextID db.leavesSeq (db.leaves.map Leave.ID) }) := by
  have hfind : db.leaves.find?
      (fun l => l.SubordinateID == P && l.LeaveTime.sqlDate == t.date) = none := by
    rw [List.find?_eq_none]
    exact List.filter_eq_nil_iff.1 hnone
  unfold AddLeave
  simp only [hfind]
  cases f.selectLeave <;> cases f.insertLeave <;> simp

/-- `AddUnplannedActivity` on a store in which the `SELECT` finds no row: it
fails and changes nothing, or it appends the row with the time rounded to the
minute and the description cut to 1000 bytes. -/
theorem AddUnplannedActivity_of_no_row (f : Faults) (db : DB) (P : Int) (t : Time)
    (desc : GoString) (hnone : sqlActivitiesOf db P t.date = []) :
    ((AddUnplannedActivity f db P t desc).2 ≠ none ∧
      (AddUnplannedActivity f db P t desc).1 = db) ∨
    ((AddUnplannedActivity f db P t desc).2 = none ∧
      (AddUnplannedActivity f db P t desc).1 =
        { db with
          activities := db.activities ++
            [⟨nextID db.activitiesSeq (db.activities.map UnplannedActivity.ID), P,
              Time.Date t.year t.month t.day t.hour t.minute 0 0 t.offset, desc.take 1000⟩],
          activitiesSeq := nextID db.activitiesSeq (db.activities.map UnplannedActivity.ID) }) := by
  have hfind : db.activities.find?
      (fun a => a.SubordinateID == P && a.ActivityTime.sqlDate == t.date) = none := by
    rw [List.find?_eq_none]
    exact List.filter_eq_nil_iff.1 hnone
  have htake : (if desc.length > 1000 then desc.take 1000 else desc) = desc.take 1000 := by
    split
    · rfl
    · exact (List.take_of_length_le (by omega)).symm
  unfold AddUnplannedActivity
  simp only [hfind, htake]
  cases f.selectActivity <;> cases f.insertActivity <;> simp

end database

/-! ### Committing records -/

/-- The two days of a time on the sample clocks: 10:11 Moscow time is 2 May on
the wall clock and in UTC, 01:30 Moscow time is 2 May on the wall clock and
1 May in UTC. -/
theorem sqlDate_sample :
    sampleNow.date = (2024, 5, 2) ∧ sampleNow.sqlDate = (2024, 5, 2) ∧
    earlyNow.date = (2024, 5, 2) ∧ earlyNow.sqlDate = (2024, 5, 1) ∧
    (⟨2024, 3, 1, 2, 0, 0, 0, 180⟩ : Time).sqlDate = (2024, 2, 29) ∧
    (⟨2024, 12, 31, 20, 0, 0, 0, -300⟩ : Time).sqlDate = (2025, 1, 1) := by
  decide

namespace handlers

open database

theorem send_db (h : BotHandler) (c : Int) (r : Reply) : (h.send c r).db = h.db := rfl

theorem send_sent (h : BotHandler) (c : Int) (r : Reply) :
    (h.send c r).sent = h.sent ++ [(c, r)] := rfl

/-- On a store whose times are day-aligned, whatever statement fails,
`recordLeave` keeps the mutual-exclusion invariant. -/
theorem recordLeave_preserves_MutualExclusion (env : Env) (h : BotHandler) (c P : Int)
    (t : Time) (hal : h.db.DayAligned) (hinv : MutualExclusion h.db) :
    MutualExclusion (recordLeave env h c P t).db := by
  have hsub := RemoveConflictingRecords_subset env.faults h.db P t
  have hinv1 : MutualExclusion (RemoveConflictingRecords env.faults h.db P t).1 :=
    fun l hl a ha => hinv l (hsub.1 l hl) a (hsub.2 a ha)
  unfold recordLeave
  rcases hR : RemoveConflictingRecords env.faults h.db P t with ⟨db1, e1⟩
  rw [hR] at hinv1
  cases e1 with
  | some err => exact hinv1
  | none =>
    have hdb1 : db1 = withoutDay h.db P t.date := by
      have := RemoveConflictingRecords_ok env.faults h.db P t (by rw [hR])
      rw [hR] at this; exact this
    simp only
    have hno : sqlLeavesOf db1 P t.date = [] := by
      rw [hdb1]; exact sqlLeavesOf_withoutDay_self _ _ _
    have hnoa : activitiesOf db1 P t.date = [] := by
      rw [hdb1]; exact activitiesOf_withoutDay_self _ _ _ hal
    rcases AddLeave_of_no_row env.faults db1 P t hno with ⟨hne, heq⟩ | ⟨hok, heq⟩
    · rcases hA : AddLeave env.faults db1 P t with ⟨db2, e2⟩
      rw [hA] at hne heq
      cases e2 with
      | none => exact absurd rfl hne
      | some err => simp only [send_db]; simp only at heq; rw [heq]; exact hinv1
    · rcases hA : AddLeave env.faults db1 P t with ⟨db2, e2⟩
      rw [hA] at hok heq
      simp only at hok heq
      subst hok
      simp only [send_db]
      rw [heq]
      intro l hl a ha
      simp only [List.mem_append, List.mem_singleton] at hl
      rcases hl with hl | rfl
      · exact hinv1 l hl a ha
      · rintro ⟨h1, h2⟩
        have : a ∈ activitiesOf db1 P t.date := mem_activitiesOf.2 ⟨ha, h1.symm, h2.symm⟩
        rw [hnoa] at this
        simp at this

/-- On a store whose times are day-aligned, whatever statement fails,
`recordUnplannedActivity` keeps the mutual-exclusion invariant. -/
theorem recordUnplannedActivity_preserves_MutualExclusion (env : Env) (h : BotHandler)
    (c P : Int) (t : Time) (d : GoString) (hal : h.db.DayAligned)
    (hinv : MutualExclusion h.db) :
    MutualExclusion (recordUnplannedActivity env h c P t d).db := by
  have hsub := RemoveConflictingRecords_subset env.faults h.db P t
  have hinv1 : MutualExclusion (RemoveConflictingRecords env.faults h.db P t).1 :=
    fun l hl a ha => hinv l (hsub.1 l hl) a (hsub.2 a ha)
  unfold recordUnplannedActivity
  rcases hR : RemoveConflictingRecords env.faults h.db P t with ⟨db1, e1⟩
  rw [hR] at hinv1
  cases e1 with
  | some err => exact hinv1
  | none =>
    have hdb1 : db1 = withoutDay h.db P t.date := by
      have := RemoveConflictingRecords_ok env.faults h.db P t (by rw [hR])
      rw [hR] at this; exact this
    simp only
    have hno : leavesOf db1 P t.date = [] := by
      rw [hdb1]; exact leavesOf_withoutDay_self _ _ _ hal
    have hnoa : sqlActivitiesOf db1 P t.date = [] := by
      rw [hdb1]; exact sqlActivitiesOf_withoutDay_self _ _ _
    rcases AddUnplannedActivity_of_no_row env.faults db1 P t d hnoa with
      ⟨hne, heq⟩ | ⟨hok, heq⟩
    · rcases hA : AddUnplannedActivity env.faults db1 P t d with ⟨db2, e2⟩
      rw [hA] at hne heq
      cases e2 with
      | none => exact absurd rfl hne
      | some err => simp only [send_db]; simp only at heq; rw [heq]; exact hinv1
    · rcases hA : AddUnplannedActivity env.faults db1 P t d with ⟨db2, e2⟩
      rw [hA] at hok heq
      simp only at hok heq
      subst hok
      simp only [send_db]
      rw [heq]
      intro l hl a ha
      simp only [List.mem_append, List.mem_singleton] at ha
      rcases ha with ha | rfl
      · exact hinv1 l hl a ha
      · rintro ⟨h1, h2⟩
        have : l ∈ leavesOf db1 P t.date := mem_leavesOf.2 ⟨hl, h1, h2⟩
        rw [hno] at this
        simp at this

/-- In the first hours of a Moscow day the two `DELETE` statements miss the
records of the day: `DATE(column)` of a row of 01:00 is the day before, the
argument is formatted to the wall-clock day.  A leave at 01:30 is written next
to the activity of 01:00, and an activity at 01:30 next to the leave of 01:00. -/
theorem record_early_hours_keeps_other_record :
    MutualExclusion earlyDBActivity ∧
    (recordLeave earlyEnv (idleHandler earlyDBActivity) 7 1 earlyNow).db =
      { earlyDBActivity with
        leaves := [⟨1, 1, ⟨2024, 5, 2, 1, 30, 0, 0, 180⟩⟩], leavesSeq := 1 } ∧
    ¬ MutualExclusion (recordLeave earlyEnv (idleHandler earlyDBActivity) 7 1 earlyNow).db ∧
    MutualExclusion earlyDBLeave ∧
    (recordUnplannedActivity earlyEnv (idleHandler earlyDBLeave) 7 1 earlyNow (utf8 "call")).db =
      { earlyDBLeave with
        activities := [⟨1, 1, ⟨2024, 5, 2, 1, 30, 0, 0, 180⟩, utf8 "call"⟩],
        activitiesSeq := 1 } ∧
    ¬ MutualExclusion
      (recordUnplannedActivity earlyEnv (idleHandler earlyDBLeave) 7 1 earlyNow
        (utf8 "call")).db := by
  decide

end handlers

namespace handlers

open database

/-- C1 (the code breaks the claim).  With the mutual-exclusion invariant true
before, the confirmed `confirm_leave` branch of `handleConfirmation` writes
Petrov's leave next to his activity of the same day, and the confirmed
`confirm_unplanned` branch writes his activity next to his leave of the same
day: after either, that (person, day) has both records. -/
theorem handleConfirmation_breaks_MutualExclusion :
    (MutualExclusion pendingLeaveConfirm.db ∧
      ∃ h2, handleConfirmation sampleEnv pendingLeaveConfirm 7 true 0 = some h2 ∧
        leavesOf h2.db 1 (2024, 5, 2) = [⟨1, 1, ⟨2024, 5, 2, 10, 11, 0, 0, 180⟩⟩] ∧
        activitiesOf h2.db 1 (2024, 5, 2) = [⟨1, 1, ⟨2024, 5, 2, 9, 0, 0, 0, 180⟩, utf8 "meeting"⟩] ∧
        ¬ MutualExclusion h2.db) ∧
    (MutualExclusion pendingActivityConfirm.db ∧
      ∃ h2, handleConfirmation sampleEnv pendingActivityConfirm 7 true 0 = some h2 ∧
        leavesOf h2.db 1 (2024, 5, 2) = [⟨1, 1, ⟨2024, 5, 2, 9, 0, 0, 0, 180⟩⟩] ∧
        activitiesOf h2.db 1 (2024, 5, 2) = [⟨1, 1, ⟨2024, 5, 2, 10, 11, 0, 0, 180⟩, utf8 "call"⟩] ∧
        ¬ MutualExclusion h2.db) := by
  refine ⟨⟨by decide, ?_⟩, ⟨by decide, ?_⟩⟩
  · have key : (handleConfirmation sampleEnv pendingLeaveConfirm 7 true 0).map (fun h => h.db) =
        some { sampleDBActivity with
          leaves := [⟨1, 1, ⟨2024, 5, 2, 10, 11, 0, 0, 180⟩⟩], leavesSeq := 1 } := by decide
    obtain ⟨h2, hh, hdb⟩ := Option.map_eq_some'.1 key
    exact ⟨h2, hh, by rw [hdb]; decide, by rw [hdb]; decide, by rw [hdb]; decide⟩
  · have key : (handleConfirmation sampleEnv pendingActivityConfirm 7 true 0).map
        (fun h => h.db) =
        some { sampleDBLeave with
          activities := [⟨1, 1, ⟨2024, 5, 2, 10, 11, 0, 0, 180⟩, utf8 "call"⟩],
          activitiesSeq := 1 } := by decide
    obtain ⟨h2, hh, hdb⟩ := Option.map_eq_some'.1 key
    exact ⟨h2, hh, by rw [hdb]; decide, by rw [hdb]; decide, by rw [hdb]; decide⟩

end handlers

/-! ### Two leaves of one day -/

namespace database

/-- When the stored leave times and `t1` are day-aligned, two successful
`AddLeave` calls for the person `P` with times `t1`, `t2` of one day, on a store
with unique row ids that holds at most one leave row per (person, day), leave
exactly one leave row for (`P`, that day), with the hour and minute of `t2`;
the leave rows of every other (person, day) and all activity rows are as
before. -/
theorem AddLeave_twice_of_dayAligned (f1 f2 : Faults) (db : DB) (P : Int) (t1 t2 : Time)
    (hkeys : db.KeysUnique)
    (hal : ∀ l ∈ db.leaves, l.LeaveTime.DayAligned) (ht1 : t1.DayAligned)
    (huniq : ∀ p d, (leavesOf db p d).length ≤ 1)
    (hday : t1.date = t2.date)
    (hok1 : (AddLeave f1 db P t1).2 = none)
    (hok2 : (AddLeave f2 (AddLeave f1 db P t1).1 P t2).2 = none) :
    (∃ l, leavesOf (AddLeave f2 (AddLeave f1 db P t1).1 P t2).1 P t2.date = [l] ∧
        l.LeaveTime.hour = t2.hour ∧ l.LeaveTime.minute = t2.minute) ∧
    (∀ p d, (p, d) ≠ (P, t2.date) →
        leavesOf (AddLeave f2 (AddLeave f1 db P t1).1 P t2).1 p d = leavesOf db p d) ∧
    (AddLeave f2 (AddLeave f1 db P t1).1 P t2).1.activities = db.activities := by
  obtain ⟨⟨l1, hl1, _⟩, hother1, hact1, _, hkeys1, hal1⟩ :=
    AddLeave_spec f1 db P t1 hkeys.1 hal (huniq P t1.date) hok1
  have huniq1 : (leavesOf (AddLeave f1 db P t1).1 P t2.date).length ≤ 1 := by
    rw [← hday, hl1]; simp
  obtain ⟨hone2, hother2, hact2, _, _⟩ :=
    AddLeave_spec f2 (AddLeave f1 db P t1).1 P t2 hkeys1 (hal1 ht1) huniq1 hok2
  refine ⟨hone2, ?_, by rw [hact2, hact1]⟩
  intro p d hne
  rw [hother2 p d hne, hother1 p d (by rw [hday]; exact hne)]

/-- Two leaves after 03:00 Moscow time: Petrov left at 09:00; leaves at 10:11:12
and then at 17:45:30 of the same day are written, and one row remains. -/
theorem AddLeave_twice_sample :
    (AddLeave {} (AddLeave {} sampleDBLeave 1 sampleNow).1 1
      ⟨2024, 5, 2, 17, 45, 30, 0, 180⟩).1.leaves = [⟨1, 1, ⟨2024, 5, 2, 17, 45, 30, 0, 180⟩⟩] := by
  decide

/-- C2 (the code breaks the claim).  The store holds no leave row.  `AddLeave`
for Petrov at 01:00 and then at 02:00 Moscow time of 2 May 2024, two times of
one day, both succeed.  The second call looks for a row whose `DATE(leave_time)`
is "2024-05-02"; for the row of 01:00+03:00 `DATE` gives "2024-05-01", so no row
is found and a second row is inserted: the (person, day) has two leave rows. -/
theorem AddLeave_twice_early_hours :
    sampleDB.leaves = [] ∧
    (⟨2024, 5, 2, 1, 0, 0, 0, 180⟩ : Time).date = (⟨2024, 5, 2, 2, 0, 0, 0, 180⟩ : Time).date ∧
    AddLeave {} sampleDB 1 ⟨2024, 5, 2, 1, 0, 0, 0, 180⟩ =
      ({ sampleDB with leaves := [⟨1, 1, ⟨2024, 5, 2, 1, 0, 0, 0, 180⟩⟩], leavesSeq := 1 },
        none) ∧
    AddLeave {} (AddLeave {} sampleDB 1 ⟨2024, 5, 2, 1, 0, 0, 0, 180⟩).1 1
        ⟨2024, 5, 2, 2, 0, 0, 0, 180⟩ =
      ({ sampleDB with
          leaves := [⟨1, 1, ⟨2024, 5, 2, 1, 0, 0, 0, 180⟩⟩, ⟨2, 1, ⟨2024, 5, 2, 2, 0, 0, 0, 180⟩⟩],
          leavesSeq := 2 }, none) ∧
    leavesOf (AddLeave {} (AddLeave {} sampleDB 1 ⟨2024, 5, 2, 1, 0, 0, 0, 180⟩).1 1
        ⟨2024, 5, 2, 2, 0, 0, 0, 180⟩).1 1 (2024, 5, 2) =
      [⟨1, 1, ⟨2024, 5, 2, 1, 0, 0, 0, 180⟩⟩, ⟨2, 1, ⟨2024, 5, 2, 2, 0, 0, 0, 180⟩⟩] := by
  decide

end database

/-! ### An activity that replaces a leave -/

namespace handlers

open database

end handlers

/-! ### Free-text leave input -/

namespace handlers

open database

theorem recordLeave_session (env : Env) (h : BotHandler) (c P : Int) (t : Time) :
    (recordLeave env h c P t).userStates = h.userStates ∧
    (recordLeave env h c P t).userData = h.userData := by
  unfold recordLeave
  rcases RemoveConflictingRecords env.faults h.db P t with ⟨db1, e1⟩
  cases e1 with
  | some err => exact ⟨rfl, rfl⟩
  | none =>
    simp only
    rcases AddLeave env.faults db1 P t with ⟨db2, e2⟩
    cases e2 <;> exact ⟨rfl, rfl⟩

/-- `processLeaveInput` never leaves a state tag for the chat. -/
theorem processLeaveInput_userStates (env : Env) (h : BotHandler) (c : Int) (text : GoString) :
    (processLeaveInput env h c text).userStates c = none := by
  unfold processLeaveInput
  simp only
  split
  · simp [BotHandler.send]
  · split
    · simp [BotHandler.send]
    · split
      · simp [BotHandler.send]
      · split
        · simp [BotHandler.send]
        · split
          · simp [BotHandler.send]
          · rw [(recordLeave_session _ _ _ _ _).1]; simp
          · simp [BotHandler.send]

/-- A selection event for a chat without a state tag only reports that the
session has expired. -/
theorem handleSubordinateSelection_of_no_state (env : Env) (h : BotHandler)
    (c subID messageID : Int) (hst : h.userStates c = none) :
    handleSubordinateSelection env h c subID messageID =
      (h.send c (.deleteMessage messageID)).send c .sessionExpired := by
  unfold handleSubordinateSelection
  have : (h.send c (.deleteMessage messageID)).userStates c = none := hst
  simp only [this]

/-- Whatever the text, a selection event that follows `processLeaveInput` writes
nothing: the store is the one `processLeaveInput` left. -/
theorem selection_after_processLeaveInput (env env2 : Env) (h : BotHandler)
    (c subID messageID : Int) (text : GoString) :
    (handleSubordinateSelection env2 (processLeaveInput env h c text) c subID messageID).db =
      (processLeaveInput env h c text).db ∧
    (handleSubordinateSelection env2 (processLeaveInput env h c text) c subID messageID).sent =
      (processLeaveInput env h c text).sent ++
        [(c, .deleteMessage messageID), (c, .sessionExpired)] := by
  rw [handleSubordinateSelection_of_no_state _ _ _ _ _
    (processLeaveInput_userStates env h c text)]
  simp [BotHandler.send]

/-- C4 (the code breaks the claim).  The text "Ivanov 14:30" matches two
people, the prompt lists both and the pending action stores 14:30; the
selection event carrying the id of the second candidate then commits nothing:
the handler reports an expired session, the store has no leave row and the
data bag of the chat is still there. -/
theorem disambiguation_selection_not_committed :
    afterIvanovText.sent = [(7, .chooseSubordinate [ivanovAnna, ivanovBoris])] ∧
    afterIvanovText.userData 7 = some
      [("action", .str (utf8 "leave_time")), ("sub_list", .subs [ivanovAnna, ivanovBoris]),
       ("leave_time", .time ⟨2024, 5, 2, 14, 30, 0, 0, 180⟩)] ∧
    afterIvanovText.userStates 7 = none ∧
    (handleSubordinateSelection sampleEnv afterIvanovText 7 ivanovBoris.ID 0).sent =
      afterIvanovText.sent ++ [(7, .deleteMessage 0), (7, .sessionExpired)] ∧
    (handleSubordinateSelection sampleEnv afterIvanovText 7 ivanovBoris.ID 0).db.leaves = [] ∧
    (handleSubordinateSelection sampleEnv afterIvanovText 7 ivanovBoris.ID 0).userData 7 =
      afterIvanovText.userData 7 := by
  refine ⟨by decide, by decide, by decide, by decide, by decide, by decide⟩

end handlers

namespace handlers

open database

/-- Without storage faults `recordLeave` removes the rows the two `DELETE`
statements match from both tables, inserts the leave row and sends the
receipt. -/
theorem recordLeave_of_no_faults (env : Env) (h : BotHandler) (c P : Int) (t : Time)
    (hf : env.faults = {}) :
    recordLeave env h c P t =
      ({ h with db := insertLeave (withoutDay h.db P t.date) P t }).send c
        (.leaveRecorded (GetSubordinateByID (insertLeave (withoutDay h.db P t.date) P t) P) t) := by
  have hR : RemoveConflictingRecords env.faults h.db P t = (withoutDay h.db P t.date, none) := by
    rw [hf]; rfl
  have hA : AddLeave env.faults (withoutDay h.db P t.date) P t =
      (insertLeave (withoutDay h.db P t.date) P t, none) := by
    have hfind : (withoutDay h.db P t.date).leaves.find?
        (fun l => l.SubordinateID == P && l.LeaveTime.sqlDate == t.date) = none := by
      rw [List.find?_eq_none]
      exact List.filter_eq_nil_iff.1 (sqlLeavesOf_withoutDay_self h.db P t.date)
    unfold AddLeave
    simp only [hfind, hf]
    rfl
  unfold recordLeave
  rw [hR]
  simp only
  rw [hA]

/-- The leave table after the two `DELETE` statements and the `INSERT`: rows
kept from before, and the new row last. -/
theorem insertLeave_withoutDay_leaves (db : DB) (P : Int) (t : Time) :
    ∃ id rest, (insertLeave (withoutDay db P t.date) P t).leaves = rest ++
        [⟨id, P, Time.Date t.year t.month t.day t.hour t.minute 0 0 t.offset⟩] ∧
      ∀ l ∈ rest, l ∈ db.leaves :=
  ⟨_, _, rfl, (withoutDay_subset db P t.date).1⟩

end handlers

namespace handlers

open database

/-- In the first hours of a Moscow day the same text is written next to the
leave of the day: Petrov left at 01:00, the text "Petrov 1:30" leaves two leave
rows of 2 May for him. -/
theorem handleFreeTextInput_early_hours :
    (handleFreeTextInput earlyEnv (idleHandler earlyDBLeave) 7 (utf8 "Petrov 1:30")).db.leaves =
      [⟨1, 1, ⟨2024, 5, 2, 1, 0, 0, 0, 180⟩⟩, ⟨2, 1, ⟨2024, 5, 2, 1, 30, 0, 0, 180⟩⟩] := by
  decide

/-- Whatever the roster, a leave text whose residual has no exact match is
answered with "person not found": no other search is run and nothing is
written. -/
theorem processLeaveInput_no_exact_match (env : Env) (h : BotHandler) (c : Int)
    (text pre hs ms post : GoString)
    (hkw : strings.Contains (env.lower text) kwNow = false)
    (hfirst : utils.FirstTimeMatch text pre hs ms post)
    (hh : utils.parseInt hs ≤ 23) (hm : utils.parseInt ms ≤ 59)
    (hres : strings.TrimSpace (utils.ReplaceAllTimes text) ≠ [])
    (hzero : FindSubordinatesBySingleTerm env.sqlLower h.db
      (strings.TrimSpace (utils.ReplaceAllTimes text)) = []) :
    processLeaveInput env h c text =
      ({ h with userStates := Function.update h.userStates c none }).send c
        .personNotFound := by
  have hmatch : utils.MatchString text = true :=
    (utils.MatchString_iff text).2 ⟨pre, hs, ms, post, hfirst.1⟩
  have hct : utils.ContainsTime env.lower text = true := by
    simp [utils.ContainsTime, hmatch]
  have hparse := utils.ParseTime_of_first_match env.lower env.now text pre hs ms post hkw hfirst
  have hnot : ¬ (23 < utils.parseInt hs ∨ 59 < utils.parseInt ms) := by omega
  rw [if_neg hnot] at hparse
  have hclean : (strings.TrimSpace (utils.ReplaceAllTimes text) == []) = false := by
    simpa using hres
  unfold processLeaveInput
  simp only [hct, hkw, hparse, hclean, findExactSubordinate, hzero]
  simp [hres]
  rw [hzero]

/-- C9 (the code breaks the claim).  The search key "Petr" of the text
"Petr 14:30" equals no last or first name of the roster and is a substring of
the last name "Petrov", which the substring search `FindSubordinatesByName`
does find; `processLeaveInput` never runs that search and reports that the
person was not found, writing nothing. -/
theorem processLeaveInput_no_substring_fallback :
    strings.TrimSpace (utils.ReplaceAllTimes (utf8 "Petr 14:30")) = utf8 "Petr" ∧
    (∀ s ∈ sampleDB.subordinates,
      sampleEnv.sqlLower s.LastName ≠ sampleEnv.sqlLower (utf8 "Petr") ∧
      sampleEnv.sqlLower s.FirstName ≠ sampleEnv.sqlLower (utf8 "Petr")) ∧
    petrov ∈ sampleDB.subordinates ∧
    strings.Contains petrov.LastName (utf8 "Petr") = true ∧
    FindSubordinatesByName sampleEnv.sqlLower sampleEnv.sqlLike sampleDB (utf8 "Petr")
      (utf8 "Petr") = [petrov] ∧
    (handleFreeTextInput sampleEnv (idleHandler sampleDB) 7 (utf8 "Petr 14:30")).sent =
      [(7, .personNotFound)] ∧
    (handleFreeTextInput sampleEnv (idleHandler sampleDB) 7 (utf8 "Petr 14:30")).db = sampleDB ∧
    (handleFreeTextInput sampleEnv (idleHandler sampleDB) 7 (utf8 "Petr 14:30")).userData 7 =
      none := by
  refine ⟨by decide, by decide, by decide, by decide, by decide, by decide, by decide, by decide⟩

end handlers

namespace utils

/-- C5 on the text "Petrov 14:30". -/
theorem ParseTime_valid_witness :
    ParseTime lowerRu sampleNow (utf8 "Petrov 14:30") =
      .ok { year := 2024, month := 5, day := 2, hour := 14, minute := 30, second := 0,
            nano := 0, offset := 180 } :=
  ParseTime_valid lowerRu sampleNow (utf8 "Petrov 14:30") (utf8 "Petrov ") (utf8 "14")
    (utf8 "30") [] 14 30 (by decide) ((findTime_eq_some_iff _ _ _ _ _).1 (by decide))
    (by decide) (by decide) (by decide) (by decide)

/-- C6 on the text "25:00 12:30": the first occurrence is out of range, the
second one is a valid time. -/
theorem ParseTime_invalid_witness :
    ParseTime lowerRu sampleNow (utf8 "25:00 12:30") = .error (.invalidTimeValue 25 0) ∧
      ParseTime lowerRu sampleNow (utf8 "25:00 12:30") ≠ .error .noTimeFound :=
  ParseTime_invalid lowerRu sampleNow (utf8 "25:00 12:30") [] (utf8 "25") (utf8 "00")
    (utf8 " 12:30") (by decide) ((findTime_eq_some_iff _ _ _ _ _).1 (by decide))
    (by decide)

end utils

/-! ### The exact search -/

namespace database

theorem bytesLe_total (a b : GoString) : bytesLe a b = true ∨ bytesLe b a = true := by
  induction a generalizing b with
  | nil => left; simp [bytesLe]
  | cons x xs ih =>
    cases b with
    | nil => right; simp [bytesLe]
    | cons y ys =>
      simp only [bytesLe, Bool.or_eq_true, decide_eq_true_eq, Bool.and_eq_true, beq_iff_eq]
      rcases Nat.lt_trichotomy x y with h | h | h
      · exact Or.inl (Or.inl h)
      · subst h
        rcases ih ys with h2 | h2
        · exact Or.inl (Or.inr ⟨rfl, h2⟩)
        · exact Or.inr (Or.inr ⟨rfl, h2⟩)
      · exact Or.inr (Or.inl h)

theorem bytesLe_trans {a b c : GoString} (h1 : bytesLe a b = true) (h2 : bytesLe b c = true) :
    bytesLe a c = true := by
  induction a generalizing b c with
  | nil => simp [bytesLe]
  | cons x xs ih =>
    cases b with
    | nil => simp [bytesLe] at h1
    | cons y ys =>
      cases c with
      | nil => simp [bytesLe] at h2
      | cons z zs =>
        simp only [bytesLe, Bool.or_eq_true, decide_eq_true_eq, Bool.and_eq_true,
          beq_iff_eq] at h1 h2 ⊢
        rcases h1 with h1 | ⟨rfl, h1⟩
        · rcases h2 with h2 | ⟨rfl, _⟩
          · exact Or.inl (lt_trans h1 h2)
          · exact Or.inl h1
        · rcases h2 with h2 | ⟨rfl, h2⟩
          · exact Or.inl h2
          · exact Or.inr ⟨rfl, ih h1 h2⟩

theorem bytesLe_antisymm {a b : GoString} (h1 : bytesLe a b = true) (h2 : bytesLe b a = true) :
    a = b := by
  induction a generalizing b with
  | nil =>
    cases b with
    | nil => rfl
    | cons y ys => simp [bytesLe] at h2
  | cons x xs ih =>
    cases b with
    | nil => simp [bytesLe] at h1
    | cons y ys =>
      simp only [bytesLe, Bool.or_eq_true, decide_eq_true_eq, Bool.and_eq_true,
        beq_iff_eq] at h1 h2
      rcases h1 with h1 | ⟨rfl, h1⟩
      · rcases h2 with h2 | ⟨rfl, _⟩
        · omega
        · omega
      · rcases h2 with h2 | ⟨_, h2⟩
        · omega
        · rw [ih h1 h2]

instance : IsTotal Subordinate nameLe where
  total a b := by
    unfold nameLe
    by_cases h : a.LastName = b.LastName
    · rcases bytesLe_total a.FirstName b.FirstName with h2 | h2
      · exact Or.inl (Or.inr ⟨h, h2⟩)
      · exact Or.inr (Or.inr ⟨h.symm, h2⟩)
    · rcases bytesLe_total a.LastName b.LastName with h2 | h2
      · exact Or.inl (Or.inl ⟨h, h2⟩)
      · exact Or.inr (Or.inl ⟨fun e => h e.symm, h2⟩)

instance : IsTrans Subordinate nameLe where
  trans a b c := by
    unfold nameLe
    rintro (⟨hne1, hle1⟩ | ⟨heq1, hle1⟩) (⟨hne2, hle2⟩ | ⟨heq2, hle2⟩)
    · refine Or.inl ⟨?_, bytesLe_trans hle1 hle2⟩
      intro e
      rw [← e] at hle2
      exact hne1 (bytesLe_antisymm hle1 hle2)
    · rw [← heq2]; exact Or.inl ⟨hne1, hle1⟩
    · rw [heq1]; exact Or.inl ⟨hne2, hle2⟩
    · exact Or.inr ⟨heq1.trans heq2, bytesLe_trans hle1 hle2⟩

/-- An ordered selection returns the selected rows, each as often as the table
holds it, in the order of `ORDER BY last_name, first_name`. -/
theorem selectOrdered_spec (db : DB) (p : Subordinate → Bool) :
    (selectOrdered db p).Perm (db.subordinates.filter p) ∧
    (selectOrdered db p).Pairwise nameLe :=
  ⟨List.perm_insertionSort _ _, List.sorted_insertionSort _ _⟩

end database

/-- SQL `LOWER` of two texts agrees exactly when the texts are equal up to the
case of their ASCII letters. -/
theorem lowerAscii_eq_iff (a b : GoString) :
    lowerAscii a = lowerAscii b ↔ EqualFoldAscii a b = true := by
  induction a generalizing b with
  | nil =>
    cases b with
    | nil => simp [lowerAscii, EqualFoldAscii]
    | cons y ys => simp [lowerAscii, EqualFoldAscii]
  | cons x xs ih =>
    cases b with
    | nil => simp [lowerAscii, EqualFoldAscii]
    | cons y ys =>
      have ih2 := ih ys
      simp only [lowerAscii] at ih2
      simp only [lowerAscii, List.map_cons, List.cons.injEq, EqualFoldAscii, Bool.and_eq_true,
        ih2]
      refine and_congr_left (fun _ => ?_)
      simp only [sameAsciiLetter, Bool.or_eq_true, Bool.and_eq_true, beq_iff_eq,
        decide_eq_true_eq]
      split_ifs <;> omega

namespace handlers

open database

/-- The rows `findExactSubordinate(t, "")` returns for a non-empty term, with
the SQL function `LOWER` of the environment. -/
theorem findExactSubordinate_single_term_rows (env : Env) (db : DB) (t : GoString)
    (ht : t ≠ []) :
    ∃ r, findExactSubordinate env db t [] = .ok r ∧
      r.Perm (db.subordinates.filter (fun s =>
        decide (env.sqlLower s.LastName = env.sqlLower t ∨
          env.sqlLower s.FirstName = env.sqlLower t))) ∧
      r.Pairwise nameLe := by
  have hfun : (fun s : Subordinate =>
      env.sqlLower s.LastName == env.sqlLower t || env.sqlLower s.FirstName == env.sqlLower t) =
      (fun s => decide (env.sqlLower s.LastName = env.sqlLower t ∨
          env.sqlLower s.FirstName = env.sqlLower t)) := by
    funext s
    rw [Bool.eq_iff_iff]
    simp
  have hspec := selectOrdered_spec db (fun s =>
    env.sqlLower s.LastName == env.sqlLower t || env.sqlLower s.FirstName == env.sqlLower t)
  rw [hfun] at hspec
  refine ⟨FindSubordinatesBySingleTerm env.sqlLower db t, ?_, ?_, ?_⟩
  · have : (t == []) = false := by simpa using ht
    simp [findExactSubordinate, this]
  · unfold FindSubordinatesBySingleTerm; rw [hfun]; exact hspec.1
  · unfold FindSubordinatesBySingleTerm; rw [hfun]; exact hspec.2

/-- C10 (amended).  With `LOWER` as SQLite ships it, for a non-empty term `t`
the search `findExactSubordinate(t, "")` succeeds and returns exactly the rows
of the directory whose last name or first name equals `t` up to the case of the
ASCII letters (`EqualFoldAscii`), each as often as the directory holds it (once
when the rows of the directory are distinct), ordered ascending by (last name,
first name). -/
theorem findExactSubordinate_single_term (env : Env) (db : DB) (t : GoString)
    (hlow : env.sqlLower = lowerAscii) (ht : t ≠ []) :
    ∃ r, findExactSubordinate env db t [] = .ok r ∧
      r.Perm (db.subordinates.filter (fun s =>
        EqualFoldAscii s.LastName t || EqualFoldAscii s.FirstName t)) ∧
      (∀ s, s ∈ r ↔ s ∈ db.subordinates ∧
        (EqualFoldAscii s.LastName t = true ∨ EqualFoldAscii s.FirstName t = true)) ∧
      (db.subordinates.Nodup → r.Nodup) ∧
      r.Pairwise nameLe := by
  obtain ⟨r, hr, hperm, hsorted⟩ := findExactSubordinate_single_term_rows env db t ht
  have hfun : (fun s : Subordinate =>
      decide (env.sqlLower s.LastName = env.sqlLower t ∨
        env.sqlLower s.FirstName = env.sqlLower t)) =
      (fun s => EqualFoldAscii s.LastName t || EqualFoldAscii s.FirstName t) := by
    funext s
    rw [Bool.eq_iff_iff, hlow]
    simp [lowerAscii_eq_iff]
  rw [hfun] at hperm
  refine ⟨r, hr, hperm, ?_, ?_, hsorted⟩
  · intro s
    rw [hperm.mem_iff]
    simp
  · intro hnd
    exact hperm.nodup_iff.2 (hnd.filter _)

theorem findExactSubordinate_ivanov :
    findExactSubordinate sampleEnv sampleDB (utf8 "ivanov") [] =
      .ok [ivanovAnna, ivanovBoris] := by decide

/-- C10 (amended) on the sample roster: the two people named Ivanov are both
returned for the term "ivanov", Anna before Boris, although the directory lists
Boris first. -/
theorem findExactSubordinate_single_term_witness :
    sampleEnv.sqlLower = lowerAscii ∧ utf8 "ivanov" ≠ [] ∧
    ∃ r, findExactSubordinate sampleEnv sampleDB (utf8 "ivanov") [] = .ok r ∧
      r.Perm (sampleDB.subordinates.filter (fun s =>
        EqualFoldAscii s.LastName (utf8 "ivanov") ||
          EqualFoldAscii s.FirstName (utf8 "ivanov"))) ∧
      (∀ s, s ∈ r ↔ s ∈ sampleDB.subordinates ∧
        (EqualFoldAscii s.LastName (utf8 "ivanov") = true ∨
          EqualFoldAscii s.FirstName (utf8 "ivanov") = true)) ∧
      (sampleDB.subordinates.Nodup → r.Nodup) ∧
      r.Pairwise nameLe :=
  ⟨rfl, by decide, findExactSubordinate_single_term sampleEnv sampleDB (utf8 "ivanov") rfl
    (by decide)⟩

/-- C10 as stated fails for a name outside ASCII: in a directory that holds
"Иванов", the term "иванов" (equal to the surname up to case: `strings.ToLower`
maps both to the same text) finds nobody, while the term "Иванов" finds the
row. -/
theorem findExactSubordinate_cyrillic_case :
    lowerRu (utf8 "иванов") = lowerRu ivanovRu.LastName ∧
    findExactSubordinate sampleEnv cyrillicDB (utf8 "иванов") [] = .ok [] ∧
    findExactSubordinate sampleEnv cyrillicDB (utf8 "Иванов") [] = .ok [ivanovRu] := by
  decide

end handlers

/-! ### Rounding of the stored time -/

namespace database

/-- C12 (the code breaks the claim).  With Petrov's row of the day already in
the table, `AddLeave` and `AddUnplannedActivity` for 10:11:12.000000013 run
their `UPDATE` and store that time as it is, seconds and nanoseconds included;
on the empty tables the same calls run their `INSERT` and store 10:11:00. -/
theorem update_stores_unrounded_time :
    (AddLeave {} sampleDBLeave 1 sampleNow).1.leaves = [⟨1, 1, ⟨2024, 5, 2, 10, 11, 12, 13, 180⟩⟩] ∧
    (AddLeave {} sampleDBLeave 1 sampleNow).2 = none ∧
    (AddUnplannedActivity {} sampleDBActivity 1 sampleNow (utf8 "call")).1.activities =
      [⟨1, 1, ⟨2024, 5, 2, 10, 11, 12, 13, 180⟩, utf8 "call"⟩] ∧
    (AddUnplannedActivity {} sampleDBActivity 1 sampleNow (utf8 "call")).2 = none ∧
    utils.RoundTimeToMinute sampleNow = ⟨2024, 5, 2, 10, 11, 0, 0, 180⟩ ∧
    (AddLeave {} sampleDB 1 sampleNow).1.leaves = [⟨1, 1, ⟨2024, 5, 2, 10, 11, 0, 0, 180⟩⟩] ∧
    (AddUnplannedActivity {} sampleDB 1 sampleNow (utf8 "call")).1.activities =
      [⟨1, 1, ⟨2024, 5, 2, 10, 11, 0, 0, 180⟩, utf8 "call"⟩] := by
  refine ⟨by decide, by decide, by decide, by decide, by decide, by decide, by decide⟩

end database

/-! ### A commit that fails part way -/

namespace database

end database

namespace handlers

open database

end handlers

/-! ### Follow-up events -/

namespace handlers

open database

/-- C14 (amended).  In a chat without a data bag, a selection callback and a
confirm callback report the expired session, a deny callback reports the
cancellation, and a description text (the chat being in state
`waiting_activity_desc_input`) reports the expired session; in every case the
store is unchanged and the chat has no data bag afterwards, and after the
description text it has no state tag either. -/
theorem follow_up_without_data_bag (env : Env) (h : BotHandler) (c subID messageID : Int)
    (text : GoString) (hbag : h.userData c = none) :
    ((handleSubordinateSelection env h c subID messageID).sent =
        h.sent ++ [(c, .deleteMessage messageID), (c, .sessionExpired)] ∧
      (handleSubordinateSelection env h c subID messageID).db = h.db ∧
      (handleSubordinateSelection env h c subID messageID).userData c = none) ∧
    (∃ h2, handleConfirmation env h c true messageID = some h2 ∧
      h2.sent = h.sent ++ [(c, .deleteMessage messageID), (c, .sessionExpired)] ∧
      h2.db = h.db ∧ h2.userData c = none) ∧
    (∃ h2, handleConfirmation env h c false messageID = some h2 ∧
      h2.sent = h.sent ++ [(c, .deleteMessage messageID), (c, .cancelled)] ∧
      h2.db = h.db ∧ h2.userData c = none) ∧
    (h.userStates c = some "waiting_activity_desc_input" →
      (processActivityDescriptionInput env h c text).sent = h.sent ++ [(c, .sessionExpired)] ∧
      (processActivityDescriptionInput env h c text).db = h.db ∧
      (processActivityDescriptionInput env h c text).userStates c = none ∧
      (processActivityDescriptionInput env h c text).userData c = none) := by
  refine ⟨?_, ?_, ?_, ?_⟩
  · have hsel : handleSubordinateSelection env h c subID messageID =
        (h.send c (.deleteMessage messageID)).send c .sessionExpired := by
      unfold handleSubordinateSelection
      have : (h.send c (.deleteMessage messageID)).userData c = none := hbag
      simp only [this]
      split <;> first | rfl | simp_all
    rw [hsel]
    exact ⟨by simp [BotHandler.send], rfl, hbag⟩
  · refine ⟨(h.send c (.deleteMessage messageID)).send c .sessionExpired, ?_,
      by simp [BotHandler.send], rfl, hbag⟩
    unfold handleConfirmation
    have : (h.send c (.deleteMessage messageID)).userData c = none := hbag
    simp [this]
  · refine ⟨{ (h.send c (.deleteMessage messageID)).send c .cancelled with
        userData := Function.update h.userData c none }, ?_,
      by simp [BotHandler.send], rfl, by simp⟩
    unfold handleConfirmation
    simp [BotHandler.send]
  · intro hst
    unfold processActivityDescriptionInput
    simp [hst, hbag, BotHandler.send]

/-- C14 (amended) in a chat that never had a session. -/
theorem follow_up_without_data_bag_witness :
    ((handleSubordinateSelection sampleEnv (idleHandler sampleDB) 7 1 0).sent =
        (idleHandler sampleDB).sent ++ [(7, .deleteMessage 0), (7, .sessionExpired)] ∧
      (handleSubordinateSelection sampleEnv (idleHandler sampleDB) 7 1 0).db =
        (idleHandler sampleDB).db ∧
      (handleSubordinateSelection sampleEnv (idleHandler sampleDB) 7 1 0).userData 7 = none) ∧
    (∃ h2, handleConfirmation sampleEnv (idleHandler sampleDB) 7 true 0 = some h2 ∧
      h2.sent = (idleHandler sampleDB).sent ++ [(7, .deleteMessage 0), (7, .sessionExpired)] ∧
      h2.db = (idleHandler sampleDB).db ∧ h2.userData 7 = none) ∧
    (∃ h2, handleConfirmation sampleEnv (idleHandler sampleDB) 7 false 0 = some h2 ∧
      h2.sent = (idleHandler sampleDB).sent ++ [(7, .deleteMessage 0), (7, .cancelled)] ∧
      h2.db = (idleHandler sampleDB).db ∧ h2.userData 7 = none) ∧
    ((idleHandler sampleDB).userStates 7 = some "waiting_activity_desc_input" →
      (processActivityDescriptionInput sampleEnv (idleHandler sampleDB) 7
        (utf8 "call")).sent = (idleHandler sampleDB).sent ++ [(7, .sessionExpired)] ∧
      (processActivityDescriptionInput sampleEnv (idleHandler sampleDB) 7 (utf8 "call")).db =
        (idleHandler sampleDB).db ∧
      (processActivityDescriptionInput sampleEnv (idleHandler sampleDB) 7
        (utf8 "call")).userStates 7 = none ∧
      (processActivityDescriptionInput sampleEnv (idleHandler sampleDB) 7
        (utf8 "call")).userData 7 = none) :=
  follow_up_without_data_bag sampleEnv (idleHandler sampleDB) 7 1 0 (utf8 "call") rfl

/-- C14 as stated fails.  After a "record leave" intent and a click on the deny
button the chat has a state tag and no data bag.  A selection callback and a
confirm callback then report the expired session but keep the state tag, so the
chat is not idle; a deny callback does not report an expired session at all. -/
theorem follow_up_without_data_bag_not_idle :
    handleConfirmation sampleEnv afterLeaveIntent 7 false 0 = some afterIntentDenied ∧
    afterIntentDenied.userData 7 = none ∧
    (handleSubordinateSelection sampleEnv afterIntentDenied 7 1 0).sent =
      afterIntentDenied.sent ++ [(7, .deleteMessage 0), (7, .sessionExpired)] ∧
    (handleSubordinateSelection sampleEnv afterIntentDenied 7 1 0).userStates 7 =
      some "waiting_leave_selection" ∧
    (handleConfirmation sampleEnv afterIntentDenied 7 true 0).map (fun h => h.sent) =
      some (afterIntentDenied.sent ++ [(7, .deleteMessage 0), (7, .sessionExpired)]) ∧
    (handleConfirmation sampleEnv afterIntentDenied 7 true 0).map (fun h => h.userStates 7) =
      some (some "waiting_leave_selection") ∧
    (handleConfirmation sampleEnv afterIntentDenied 7 false 0).map (fun h => h.sent) =
      some (afterIntentDenied.sent ++ [(7, .deleteMessage 0), (7, .cancelled)]) := by
  refine ⟨rfl, by decide, by decide, by decide, by decide, by decide, by decide⟩

end handlers

namespace handlers

open database

theorem recordUnplannedActivity_session (env : Env) (h : BotHandler) (c P : Int) (t : Time)
    (d : GoString) :
    (recordUnplannedActivity env h c P t d).userStates = h.userStates ∧
    (recordUnplannedActivity env h c P t d).userData = h.userData := by
  unfold recordUnplannedActivity
  rcases RemoveConflictingRecords env.faults h.db P t with ⟨db1, e1⟩
  cases e1 with
  | some err => exact ⟨rfl, rfl⟩
  | none =>
    simp only
    rcases AddUnplannedActivity env.faults db1 P t d with ⟨db2, e2⟩
    cases e2 <;> exact ⟨rfl, rfl⟩

/-- In the first hours of a Moscow day the selection writes its row next to the
records of the day: Petrov has an activity at 01:00, his selection at 01:30
leaves that activity and the new leave row of 2 May. -/
theorem selection_early_hours :
    (handleSubordinateSelection earlyEnv (handleRecordLeave (idleHandler earlyDBActivity) 7)
      7 1 0).db.leaves = [⟨1, 1, ⟨2024, 5, 2, 1, 30, 0, 0, 180⟩⟩] ∧
    (handleSubordinateSelection earlyEnv (handleRecordLeave (idleHandler earlyDBActivity) 7)
      7 1 0).db.activities = earlyDBActivity.activities ∧
    earlyDBActivity.activities.map (fun a => (a.SubordinateID, a.ActivityTime.date)) =
      [(1, (2024, 5, 2))] := by
  refine ⟨by decide, by decide, by decide⟩

/-- C17. In a chat in state `waiting_activity_desc_input` whose data bag holds
a person id and a time, a text that is blank after trimming is answered with
the empty-description error and nothing else happens: the store, the state tag
and the data bag of every chat are as before. -/
theorem blank_description_changes_nothing (env : Env) (h : BotHandler) (c p : Int) (t : Time)
    (bag : DataBag) (text : GoString)
    (hst : h.userStates c = some "waiting_activity_desc_input")
    (hbag : h.userData c = some bag)
    (hp : bag.lookup "subordinate_id" = some (.int p))
    (ht : bag.lookup "activity_time" = some (.time t))
    (hblank : strings.TrimSpace text = []) :
    (processActivityDescriptionInput env h c text).sent = h.sent ++ [(c, .emptyDescription)] ∧
    (processActivityDescriptionInput env h c text).db = h.db ∧
    (processActivityDescriptionInput env h c text).userStates = h.userStates ∧
    (processActivityDescriptionInput env h c text).userData = h.userData ∧
    (processActivityDescriptionInput env h c text).userStates c =
      some "waiting_activity_desc_input" ∧
    (processActivityDescriptionInput env h c text).userData c = some bag := by
  have key : processActivityDescriptionInput env h c text = h.send c .emptyDescription := by
    unfold processActivityDescriptionInput
    simp [hst, hbag, hp, ht, hblank]
  rw [key]
  exact ⟨rfl, rfl, rfl, rfl, hst, hbag⟩

/-- C17 on a text of blanks and a tab. -/
theorem blank_description_changes_nothing_witness :
    (processActivityDescriptionInput sampleEnv awaitingDescription 7 (utf8 "  \t ")).sent =
      awaitingDescription.sent ++ [(7, .emptyDescription)] ∧
    (processActivityDescriptionInput sampleEnv awaitingDescription 7 (utf8 "  \t ")).db =
      awaitingDescription.db ∧
    (processActivityDescriptionInput sampleEnv awaitingDescription 7 (utf8 "  \t ")).userStates =
      awaitingDescription.userStates ∧
    (processActivityDescriptionInput sampleEnv awaitingDescription 7 (utf8 "  \t ")).userData =
      awaitingDescription.userData ∧
    (processActivityDescriptionInput sampleEnv awaitingDescription 7
      (utf8 "  \t ")).userStates 7 = some "waiting_activity_desc_input" ∧
    (processActivityDescriptionInput sampleEnv awaitingDescription 7 (utf8 "  \t ")).userData 7 =
      some [("subordinate_id", .int 1), ("activity_time", .time sampleNow)] :=
  blank_description_changes_nothing sampleEnv awaitingDescription 7 1 sampleNow
    [("subordinate_id", .int 1), ("activity_time", .time sampleNow)] (utf8 "  \t ")
    (by decide) (by decide) (by decide) (by decide) (by decide)

end handlers

namespace handlers

open database

theorem description_call_stored :
    (processActivityDescriptionInput laterEnv awaitingDescription 7 (utf8 " call ")).db.activities
      = [⟨1, 1, ⟨2024, 5, 2, 10, 11, 0, 0, 180⟩, utf8 "call"⟩] := by decide

end handlers

namespace handlers

open database

end handlers

/-! ### The keyword "сейчас" in a leave text -/

namespace handlers

open database

/-- A leave text in which the keyword is recognised, with a non-empty residual
that has exactly one exact match `p`, is committed as a leave of `p` at the
time of the clock; the search key is the trimmed text from which the three
spellings have been deleted one after the other. -/
theorem processLeaveInput_now_single_match (env : Env) (h : BotHandler) (c : Int)
    (text : GoString) (p : Subordinate)
    (hnow : strings.Contains (env.lower text) kwNow = true)
    (hres : strings.TrimSpace (strings.ReplaceAll (strings.ReplaceAll
      (strings.ReplaceAll text kwNow []) kwNowCap []) kwNowUpper []) ≠ [])
    (hone : FindSubordinatesBySingleTerm env.sqlLower h.db
      (strings.TrimSpace (strings.ReplaceAll (strings.ReplaceAll
        (strings.ReplaceAll text kwNow []) kwNowCap []) kwNowUpper [])) = [p]) :
    processLeaveInput env h c text =
      recordLeave env { h with userStates := Function.update h.userStates c none } c p.ID
        env.now := by
  have hct : utils.ContainsTime env.lower text = true := by
    simp [utils.ContainsTime, hnow]
  have hclean : (strings.TrimSpace (strings.ReplaceAll (strings.ReplaceAll
      (strings.ReplaceAll text kwNow []) kwNowCap []) kwNowUpper []) == []) = false := by
    simpa using hres
  unfold processLeaveInput
  simp only [hct, hnow, hclean, findExactSubordinate, hone]
  simp [hres]
  rw [hone]

/-- C15 (the code breaks the claim).  In the text "Petrov сейсейчасчас" the
keyword is recognised; deleting the occurrence of "сейчас" joins "сей" and
"час", so the search key is "Petrov сейчас", which contains the keyword, and
Petrov is not found.  The plain text "Petrov сейчас" is committed for him. -/
theorem now_keyword_left_in_search_key :
    strings.Contains (sampleEnv.lower (utf8 "Petrov сейсейчасчас")) kwNow = true ∧
    strings.TrimSpace (strings.ReplaceAll (strings.ReplaceAll
      (strings.ReplaceAll (utf8 "Petrov сейсейчасчас") kwNow []) kwNowCap []) kwNowUpper []) =
      utf8 "Petrov сейчас" ∧
    strings.Contains (utf8 "Petrov сейчас") kwNow = true ∧
    (handleFreeTextInput sampleEnv (idleHandler sampleDB) 7
      (utf8 "Petrov сейсейчасчас")).sent = [(7, .personNotFound)] ∧
    (handleFreeTextInput sampleEnv (idleHandler sampleDB) 7
      (utf8 "Petrov сейсейчасчас")).db.leaves = [] ∧
    (handleFreeTextInput sampleEnv (idleHandler sampleDB) 7 (utf8 "Petrov сейчас")).db.leaves =
      [⟨1, 1, ⟨2024, 5, 2, 10, 11, 0, 0, 180⟩⟩] := by
  refine ⟨by decide, by decide, by decide, by decide, by decide, by decide⟩

end handlers

/-! ### Starting a session -/

namespace handlers

open database

theorem cons_set_perm {α : Type} (a b : α) :
    ∀ (l : List α) (k : Nat), l.get? k = some b → (b :: l.set k a).Perm (a :: l)
  | [], _, h => by simp at h
  | x :: xs, 0, h => by
    simp only [List.get?_cons_zero, Option.some.injEq] at h
    subst h
    simpa using List.Perm.swap a x xs
  | x :: xs, k + 1, h => by
    simp only [List.get?_cons_succ] at h
    have ih := cons_set_perm a b xs k h
    simp only [List.set_cons_succ]
    exact (List.Perm.swap x b _).trans ((ih.cons x).trans (List.Perm.swap a x _))

theorem swap_perm {α : Type} (a b : α) :
    ∀ (l : List α) (i j : Nat), l.get? i = some a → l.get? j = some b →
      ((l.set i b).set j a).Perm l
  | [], _, _, h, _ => by simp at h
  | x :: xs, 0, 0, hi, hj => by
    simp only [List.get?_cons_zero, Option.some.injEq] at hi hj
    subst hi
    simp
  | x :: xs, 0, j + 1, hi, hj => by
    simp only [List.get?_cons_zero, Option.some.injEq, List.get?_cons_succ] at hi hj
    subst hi
    simpa using cons_set_perm x b xs j hj
  | x :: xs, i + 1, 0, hi, hj => by
    simp only [List.get?_cons_zero, Option.some.injEq, List.get?_cons_succ] at hi hj
    subst hj
    simpa using cons_set_perm x a xs i hi
  | x :: xs, i + 1, j + 1, hi, hj => by
    simp only [List.get?_cons_succ] at hi hj
    simpa using (swap_perm a b xs i j hi hj).cons x

theorem swapIfAfter_perm (l : List Subordinate) (i j : Nat) : (swapIfAfter l i j).Perm l := by
  unfold swapIfAfter
  split
  · rename_i a b hi hj
    split
    · exact swap_perm a b l i j hi hj
    · exact List.Perm.refl _
  · exact List.Perm.refl _

theorem sortInner_perm (i : Nat) :
    ∀ (k j : Nat) (l : List Subordinate), (sortInner i k j l).Perm l
  | 0, _, l => List.Perm.refl l
  | k + 1, j, l => (sortInner_perm i k (j + 1) (swapIfAfter l i j)).trans (swapIfAfter_perm l i j)

theorem sortOuter_perm : ∀ (k i : Nat) (l : List Subordinate), (sortOuter k i l).Perm l
  | 0, _, l => List.Perm.refl l
  | k + 1, i, l =>
    (sortOuter_perm k (i + 1) (sortInner i (l.length - (i + 1)) (i + 1) l)).trans
      (sortInner_perm i _ _ l)

/-- The list `sortSubordinatesAlphabetically` leaves holds the same people. -/
theorem sortSubordinatesAlphabetically_perm (l : List Subordinate) :
    (sortSubordinatesAlphabetically l).Perm l :=
  sortOuter_perm _ _ l

/-- C19. Whatever session the chat holds, with a non-empty roster the "record
leave" intent leaves the chat in state `waiting_leave_selection` and the
"record activity" intent in state `waiting_activity_description`, with a data
bag of exactly two entries: the new action and a candidate list that holds the
whole roster; nothing of an earlier data bag is kept and the store is not
touched. -/
theorem intent_overwrites_session (h : BotHandler) (c : Int)
    (hne : h.db.subordinates ≠ []) :
    ((handleRecordLeave h c).userStates c = some "waiting_leave_selection" ∧
      (∃ subs, (handleRecordLeave h c).userData c =
          some [("action", .str (utf8 "record_leave")), ("sub_list", .subs subs)] ∧
        subs.Perm h.db.subordinates) ∧
      (handleRecordLeave h c).db = h.db) ∧
    ((handleUnplannedActivity h c).userStates c = some "waiting_activity_description" ∧
      (∃ subs, (handleUnplannedActivity h c).userData c =
          some [("action", .str (utf8 "unplanned_activity")), ("sub_list", .subs subs)] ∧
        subs.Perm h.db.subordinates) ∧
      (handleUnplannedActivity h c).db = h.db) := by
  have hlen : (h.db.subordinates.length == 0) = false := by
    cases hs : h.db.subordinates with
    | nil => exact absurd hs hne
    | cons x xs => rfl
  constructor
  · unfold handleRecordLeave
    simp only [GetAllSubordinates, hlen]
    refine ⟨by simp [BotHandler.send], ⟨sortSubordinatesAlphabetically h.db.subordinates, ?_,
      sortSubordinatesAlphabetically_perm _⟩, by simp [BotHandler.send]⟩
    simp [BotHandler.send]
  · unfold handleUnplannedActivity
    simp only [GetAllSubordinates, hlen]
    refine ⟨by simp [BotHandler.send], ⟨sortSubordinatesAlphabetically h.db.subordinates, ?_,
      sortSubordinatesAlphabetically_perm _⟩, by simp [BotHandler.send]⟩
    simp [BotHandler.send]

/-- C19 in the chat that waits for the description of Petrov's activity: the
data bag with his id and the time is replaced. -/
theorem intent_overwrites_session_witness :
    ((handleRecordLeave awaitingDescription 7).userStates 7 = some "waiting_leave_selection" ∧
      (∃ subs, (handleRecordLeave awaitingDescription 7).userData 7 =
          some [("action", .str (utf8 "record_leave")), ("sub_list", .subs subs)] ∧
        subs.Perm awaitingDescription.db.subordinates) ∧
      (handleRecordLeave awaitingDescription 7).db = awaitingDescription.db) ∧
    ((handleUnplannedActivity awaitingDescription 7).userStates 7 =
        some "waiting_activity_description" ∧
      (∃ subs, (handleUnplannedActivity awaitingDescription 7).userData 7 =
          some [("action", .str (utf8 "unplanned_activity")), ("sub_list", .subs subs)] ∧
        subs.Perm awaitingDescription.db.subordinates) ∧
      (handleUnplannedActivity awaitingDescription 7).db = awaitingDescription.db) :=
  intent_overwrites_session awaitingDescription 7 (by decide)

end handlers

/-! ### Confirmation -/

namespace database

end database

namespace database

end database

namespace handlers

open database

end handlers

namespace handlers

open database

end handlers

/-! ### The length of a stored description -/

namespace database

end database

/-! ### The alphabetical sort -/

namespace handlers

open database

theorem bytesLe_refl (a : GoString) : bytesLe a a = true := by
  induction a with
  | nil => rfl
  | cons x xs ih => simp [bytesLe, ih]

theorem sortsAfter_iff (a b : Subordinate) : sortsAfter a b = true ↔ ¬ nameLe a b := by
  unfold sortsAfter nameLe
  by_cases h : a.LastName = b.LastName
  · simp [h, bytesLe_refl]
  · simp [h]

theorem swapIfAfter_step (l : List Subordinate) (i j : Nat) (hij : i < j)
    (hb : SortedBelow i l) (hm : MinUpTo i j l) :
    SortedBelow i (swapIfAfter l i j) ∧ MinUpTo i (j + 1) (swapIfAfter l i j) := by
  unfold swapIfAfter
  simp only [List.get?_eq_getElem?]
  cases hi : l[i]? with
  | none =>
    refine ⟨hb, ?_⟩
    intro k x y _ _ hx _
    rw [hi] at hx; cases hx
  | some a =>
    cases hj : l[j]? with
    | none =>
      refine ⟨hb, ?_⟩
      intro k x y hik hkj hx hy
      rcases Nat.lt_succ_iff_lt_or_eq.1 hkj with h | h
      · exact hm k x y hik h hx hy
      · subst h; rw [hj] at hy; cases hy
    | some b =>
      have hilen : i < l.length := (List.getElem?_eq_some.1 hi).1
      have hjlen : j < l.length := (List.getElem?_eq_some.1 hj).1
      simp only
      by_cases hs : sortsAfter a b = true
      · have hnle : ¬ nameLe a b := (sortsAfter_iff a b).1 hs
        have hba : nameLe b a := (IsTotal.total a b).resolve_left hnle
        simp only [hs, if_true]
        have hget : ∀ k, ((l.set i b).set j a)[k]? =
            if j = k then some a else if i = k then some b else l[k]? := by
          intro k
          simp only [List.getElem?_set, List.length_set, hilen, hjlen, if_true]
        constructor
        · intro a0 b0 x y ha0 hab hx hy
          rw [hget] at hx hy
          have h1 : ¬ j = a0 := by omega
          have h2 : ¬ i = a0 := by omega
          simp only [h1, h2, if_false] at hx
          by_cases hbj : j = b0
          · simp only [hbj, if_true, Option.some.injEq] at hy
            subst hy
            exact hb a0 i x a ha0 ha0 hx hi
          · by_cases hbi : i = b0
            · simp only [hbj, hbi, if_true, if_false, Option.some.injEq] at hy
              subst hy
              exact hb a0 j x b ha0 (by omega) hx hj
            · simp only [hbj, hbi, if_false] at hy
              exact hb a0 b0 x y ha0 hab hx hy
        · intro k x y hik hkj hx hy
          rw [hget] at hx hy
          have h1 : ¬ j = i := by omega
          simp only [h1, if_false, if_true, Option.some.injEq] at hx
          subst hx
          by_cases hkj2 : j = k
          · simp only [hkj2, if_true, Option.some.injEq] at hy
            subst hy
            exact hba
          · have h2 : ¬ i = k := by omega
            simp only [hkj2, h2, if_false] at hy
            exact IsTrans.trans _ _ _ hba (hm k a y hik (by omega) hi hy)
      · have hle : nameLe a b := by
          by_contra hc
          exact hs ((sortsAfter_iff a b).2 hc)
        have hs2 : sortsAfter a b = false := by simpa using hs
        simp only [hs2, Bool.false_eq_true, if_false]
        refine ⟨hb, ?_⟩
        intro k x y hik hkj hx hy
        rcases Nat.lt_succ_iff_lt_or_eq.1 hkj with h | h
        · exact hm k x y hik h hx hy
        · subst h
          rw [hi] at hx; rw [hj] at hy
          cases hx; cases hy
          exact hle

theorem sortInner_step (i : Nat) :
    ∀ (k j : Nat) (l : List Subordinate), i < j → SortedBelow i l → MinUpTo i j l →
      SortedBelow i (sortInner i k j l) ∧ MinUpTo i (j + k) (sortInner i k j l)
  | 0, _, _, _, hb, hm => ⟨hb, hm⟩
  | k + 1, j, l, hij, hb, hm => by
    obtain ⟨hb2, hm2⟩ := swapIfAfter_step l i j hij hb hm
    have := sortInner_step i k (j + 1) (swapIfAfter l i j) (by omega) hb2 hm2
    have e : j + 1 + k = j + (k + 1) := by omega
    rw [e] at this
    exact this

theorem sortInner_sortedBelow (i : Nat) (l : List Subordinate) (hb : SortedBelow i l) :
    SortedBelow (i + 1) (sortInner i (l.length - (i + 1)) (i + 1) l) := by
  obtain ⟨hb2, hm2⟩ := sortInner_step i (l.length - (i + 1)) (i + 1) l (by omega) hb
    (fun k _ _ h1 h2 => by omega)
  have hlen : (sortInner i (l.length - (i + 1)) (i + 1) l).length = l.length :=
    (sortInner_perm i _ _ l).length_eq
  intro a b x y ha hab hx hy
  rcases Nat.lt_succ_iff_lt_or_eq.1 ha with h | h
  · exact hb2 a b x y h hab hx hy
  · subst h
    have hblen : b < l.length := by
      rw [← hlen]; exact (List.getElem?_eq_some.1 hy).1
    exact hm2 b x y hab (by omega) hx hy

theorem sortOuter_sortedBelow :
    ∀ (k i : Nat) (l : List Subordinate), SortedBelow i l → SortedBelow (i + k) (sortOuter k i l)
  | 0, _, _, hb => hb
  | k + 1, i, l, hb => by
    have := sortOuter_sortedBelow k (i + 1) _ (sortInner_sortedBelow i l hb)
    have e : i + 1 + k = i + (k + 1) := by omega
    rw [e] at this
    exact this

theorem sortSubordinatesAlphabetically_pairwise (l : List Subordinate) :
    (sortSubordinatesAlphabetically l).Pairwise nameLe := by
  have hb := sortOuter_sortedBelow (l.length - 1) 0 l (fun a b x y h => by omega)
  have hlen : (sortSubordinatesAlphabetically l).length = l.length :=
    (sortSubordinatesAlphabetically_perm l).length_eq
  rw [List.pairwise_iff_getElem]
  intro a b ha hb2 hab
  refine hb a b _ _ (by omega) hab ?_ ?_
  · exact List.getElem?_eq_getElem ha
  · exact List.getElem?_eq_getElem hb2

/-- C25. `sortSubordinatesAlphabetically` leaves a permutation of its input in
which every earlier entry is at most every later entry in the order of (last
name, first name), compared byte-wise as Go compares strings; in particular
every adjacent pair is in that order. -/
theorem sortSubordinatesAlphabetically_sorted (l : List Subordinate) :
    (sortSubordinatesAlphabetically l).Perm l ∧
    (sortSubordinatesAlphabetically l).Pairwise nameLe ∧
    (sortSubordinatesAlphabetically l).Chain' nameLe :=
  ⟨sortSubordinatesAlphabetically_perm l, sortSubordinatesAlphabetically_pairwise l,
    List.chain'_iff_pairwise.2 (sortSubordinatesAlphabetically_pairwise l)⟩

end handlers

/-! ### The selection keyboard and its tokens -/

namespace fmt

theorem decimalAux_digits : ∀ (fuel n : Nat) (acc : GoString), n < fuel →
    (∀ b ∈ acc, utils.isDigit b = true) → ∀ b ∈ decimalAux fuel n acc, utils.isDigit b = true
  | 0, _, _, hlt, _ => by omega
  | fuel + 1, n, acc, hlt, hacc => by
    unfold decimalAux
    split_ifs with h10
    · intro b hb
      rcases List.mem_cons.1 hb with rfl | hb
      · simp [utils.isDigit]; omega
      · exact hacc b hb
    · apply decimalAux_digits fuel (n / 10) _ (by omega)
      intro b hb
      rcases List.mem_cons.1 hb with rfl | hb
      · simp [utils.isDigit]; omega
      · exact hacc b hb

theorem decimalAux_ne_nil : ∀ (fuel n : Nat) (acc : GoString), n < fuel →
    decimalAux fuel n acc ≠ []
  | 0, _, _, hlt => by omega
  | fuel + 1, n, acc, hlt => by
    unfold decimalAux
    split_ifs with h10
    · simp
    · exact decimalAux_ne_nil fuel (n / 10) _ (by omega)

theorem parseInt_decimalAux : ∀ (fuel n : Nat) (acc : GoString), n < fuel →
    (decimalAux fuel n acc).foldl (fun a b => 10 * a + (b - 48)) 0 =
      acc.foldl (fun a b => 10 * a + (b - 48)) n
  | 0, _, _, hlt => by omega
  | fuel + 1, n, acc, hlt => by
    unfold decimalAux
    split_ifs with h10
    · simp
    · rw [parseInt_decimalAux fuel (n / 10) _ (by omega)]
      simp only [List.foldl_cons]
      congr 1
      omega

theorem parseInt_decimal (n : Nat) : utils.parseInt (decimal n) = n := by
  unfold utils.parseInt decimal
  rw [parseInt_decimalAux (n + 1) n [] (by omega)]
  rfl

theorem decimal_digits (n : Nat) : ∀ b ∈ decimal n, utils.isDigit b = true :=
  decimalAux_digits (n + 1) n [] (by omega) (by simp)

theorem decimal_ne_nil (n : Nat) : decimal n ≠ [] := decimalAux_ne_nil (n + 1) n [] (by omega)

end fmt

namespace strconv

/-- `Atoi` reads back what `%d` prints, for every `int` of 64 bits. -/
theorem Atoi_formatInt (n : Int) (hlo : -9223372036854775808 ≤ n)
    (hhi : n ≤ 9223372036854775807) : Atoi (fmt.formatInt n) = n := by
  have hd := fmt.decimal_digits n.natAbs
  have hne := fmt.decimal_ne_nil n.natAbs
  have hp := fmt.parseInt_decimal n.natAbs
  have hall : (fmt.decimal n.natAbs).all utils.isDigit = true := List.all_eq_true.2 hd
  have hemp : (fmt.decimal n.natAbs).isEmpty = false := by
    cases hdec : fmt.decimal n.natAbs with
    | nil => exact absurd hdec hne
    | cons a l => rfl
  unfold fmt.formatInt
  split_ifs with hneg
  · have hs : splitSign (45 :: fmt.decimal n.natAbs) = (true, fmt.decimal n.natAbs) := by
      simp [splitSign]
    unfold Atoi isNumber
    simp only [hs, hall, hemp, hp, Bool.not_false, Bool.and_self, Bool.not_true,
      Bool.false_eq_true, if_false, if_true]
    split_ifs with hbig
    · omega
    · omega
  · have hs : splitSign (fmt.decimal n.natAbs) = (false, fmt.decimal n.natAbs) := by
      cases hdec : fmt.decimal n.natAbs with
      | nil => exact absurd hdec hne
      | cons a l =>
        have ha : utils.isDigit a = true := hd a (by rw [hdec]; simp)
        simp [utils.isDigit] at ha
        have ha43 : (a == 43) = false := by simp; omega
        have ha45 : (a == 45) = false := by simp; omega
        simp [splitSign, ha43, ha45]
    unfold Atoi isNumber
    simp only [hs, hall, hemp, hp, Bool.not_false, Bool.and_self, Bool.not_true,
      Bool.false_eq_true, if_false, if_true]
    split_ifs with hbig
    · omega
    · omega

theorem Atoi_of_not_number (s : GoString) (h : isNumber s = false) : Atoi s = 0 := by
  unfold Atoi
  simp [h]

end strconv

namespace strings

theorem TrimPrefix_append (p s : GoString) : TrimPrefix (p ++ s) p = s := by
  unfold TrimPrefix HasPrefix
  simp

theorem HasPrefix_append (p s : GoString) : HasPrefix (p ++ s) p = true := by
  unfold HasPrefix
  simp

end strings

namespace handlers

open database

theorem keyboard_flatten : ∀ subs : List Subordinate,
    (CreateSubordinateSelectionKeyboard subs).flatten = subs.map selectionButton
  | [] => rfl
  | [a] => rfl
  | a :: b :: rest => by
    unfold CreateSubordinateSelectionKeyboard
    simp [keyboard_flatten rest]

theorem keyboard_rows : ∀ subs : List Subordinate,
    (CreateSubordinateSelectionKeyboard subs).map List.length =
      List.replicate (subs.length / 2) 2 ++ (if subs.length % 2 = 1 then [1] else [])
  | [] => rfl
  | [a] => by simp [CreateSubordinateSelectionKeyboard]
  | a :: b :: rest => by
    unfold CreateSubordinateSelectionKeyboard
    have h1 : (rest.length + 1 + 1) / 2 = rest.length / 2 + 1 := by omega
    have h2 : (rest.length + 1 + 1) % 2 = rest.length % 2 := by omega
    simp only [List.map_cons, keyboard_rows rest, List.length_cons, h1, h2,
      List.replicate_succ, List.length_nil, List.cons_append, Nat.zero_add]

end handlers

namespace handlers

open database

/-- C24. The keyboard has one button per candidate, in list order, two per row
with a single button in the last row when the count is odd; and the token of
each button, decoded as `HandleCallback` decodes it, is the id of its
candidate (ids in the range of a 64-bit `int`). -/
theorem selection_keyboard_decodes (env : Env) (h : BotHandler) (c messageID : Int)
    (subs : List Subordinate)
    (hid : ∀ s ∈ subs, -9223372036854775808 ≤ s.ID ∧ s.ID ≤ 9223372036854775807) :
    (CreateSubordinateSelectionKeyboard subs).flatten = subs.map selectionButton ∧
    (CreateSubordinateSelectionKeyboard subs).map List.length =
      List.replicate (subs.length / 2) 2 ++ (if subs.length % 2 = 1 then [1] else []) ∧
    ∀ s ∈ subs,
      strconv.Atoi (strings.TrimPrefix (selectionButton s).data (utf8 "select_sub_")) = s.ID ∧
      HandleCallback env h ⟨c, (selectionButton s).data, messageID⟩ =
        some (handleSubordinateSelection env h c s.ID messageID) := by
  refine ⟨keyboard_flatten subs, keyboard_rows subs, ?_⟩
  intro s hs
  have hdec : strconv.Atoi (strings.TrimPrefix (selectionButton s).data (utf8 "select_sub_")) =
      s.ID := by
    unfold selectionButton
    simp only [strings.TrimPrefix_append]
    exact strconv.Atoi_formatInt s.ID (hid s hs).1 (hid s hs).2
  refine ⟨hdec, ?_⟩
  unfold HandleCallback
  have hpre : strings.HasPrefix (selectionButton s).data (utf8 "select_sub_") = true := by
    unfold selectionButton
    exact strings.HasPrefix_append _ _
  simp only [hpre, if_true, hdec]

/-- C24 on the keyboard of the three people of the sample roster. -/
theorem selection_keyboard_decodes_witness :
    (∀ s ∈ [petrov, ivanovAnna, ivanovBoris],
      -9223372036854775808 ≤ s.ID ∧ s.ID ≤ 9223372036854775807) ∧
    (CreateSubordinateSelectionKeyboard [petrov, ivanovAnna, ivanovBoris]).flatten =
      [petrov, ivanovAnna, ivanovBoris].map selectionButton ∧
    (CreateSubordinateSelectionKeyboard [petrov, ivanovAnna, ivanovBoris]).map List.length =
      List.replicate ([petrov, ivanovAnna, ivanovBoris].length / 2) 2 ++
        (if [petrov, ivanovAnna, ivanovBoris].length % 2 = 1 then [1] else []) ∧
    ∀ s ∈ [petrov, ivanovAnna, ivanovBoris],
      strconv.Atoi (strings.TrimPrefix (selectionButton s).data (utf8 "select_sub_")) = s.ID ∧
      HandleCallback sampleEnv (idleHandler sampleDB) ⟨7, (selectionButton s).data, 0⟩ =
        some (handleSubordinateSelection sampleEnv (idleHandler sampleDB) 7 s.ID 0) :=
  ⟨by decide, selection_keyboard_decodes sampleEnv (idleHandler sampleDB) 7 0
    [petrov, ivanovAnna, ivanovBoris] (by decide)⟩

end handlers

/-! ### Callback tokens and the confirm callback -/

namespace handlers

open database config

/-- The sample session after the intent "Зафиксировать уход" is reachable. -/
theorem reachable_afterLeaveIntent (cfg : Config) : Reachable cfg afterLeaveIntent :=
  Reachable.message sampleEnv ⟨7, utf8 "Зафиксировать уход", none, []⟩
    (Reachable.start sampleDB) (by rfl)

/-- The sample session after the intent and a click on the deny button is
reachable. -/
theorem reachable_afterIntentDenied (cfg : Config) : Reachable cfg afterIntentDenied :=
  Reachable.callback sampleEnv ⟨7, utf8 "confirm_no", 0⟩ (reachable_afterLeaveIntent cfg)
    (by rfl)

/-- A selection event in state `waiting_leave_selection` with a data bag is a
call of `recordLeave` followed by the deletion of the session. -/
theorem handleSubordinateSelection_leave (env : Env) (h : BotHandler) (c p messageID : Int)
    (bag : DataBag) (hst : h.userStates c = some "waiting_leave_selection")
    (hbag : h.userData c = some bag) :
    handleSubordinateSelection env h c p messageID =
      { recordLeave env (h.send c (.deleteMessage messageID)) c p env.msk with
        userStates := Function.update
          (recordLeave env (h.send c (.deleteMessage messageID)) c p env.msk).userStates c none,
        userData := Function.update
          (recordLeave env (h.send c (.deleteMessage messageID)) c p env.msk).userData c
            none } := by
  unfold handleSubordinateSelection
  have h1 : (h.send c (.deleteMessage messageID)).userStates c =
      some "waiting_leave_selection" := hst
  have h2 : (h.send c (.deleteMessage messageID)).userData c = some bag := hbag
  simp [h1, h2]

/-- C30, amended.  In a chat in state `waiting_leave_selection` that has a data
bag, every callback token that begins with `select_sub_` commits (no storage
statement failing) a leave for the integer `Atoi` reads from the rest of the
token, whatever the data bag holds: the candidate list is not consulted, and a
leave row for that integer at the Moscow clock rounded to the minute is
appended to the leave rows kept from before.  When the rest of the token is not
a number that integer is 0, and the leave row is written for person id 0. -/
theorem selection_token_not_checked (env : Env) (h : BotHandler) (c messageID : Int)
    (bag : DataBag) (token : GoString) (hf : env.faults = {})
    (hst : h.userStates c = some "waiting_leave_selection")
    (hbag : h.userData c = some bag)
    (htok : strings.HasPrefix token (utf8 "select_sub_") = true) :
    HandleCallback env h ⟨c, token, messageID⟩ =
      some (handleSubordinateSelection env h c
        (strconv.Atoi (strings.TrimPrefix token (utf8 "select_sub_"))) messageID) ∧
    (∃ id rest, (handleSubordinateSelection env h c
        (strconv.Atoi (strings.TrimPrefix token (utf8 "select_sub_"))) messageID).db.leaves =
      rest ++ [⟨id, strconv.Atoi (strings.TrimPrefix token (utf8 "select_sub_")),
        utils.RoundTimeToMinute env.msk⟩] ∧ ∀ l ∈ rest, l ∈ h.db.leaves) ∧
    (strconv.isNumber (strings.TrimPrefix token (utf8 "select_sub_")) = false →
      strconv.Atoi (strings.TrimPrefix token (utf8 "select_sub_")) = 0 ∧
      ∃ id rest, (handleSubordinateSelection env h c 0 messageID).db.leaves =
        rest ++ [⟨id, 0, utils.RoundTimeToMinute env.msk⟩] ∧ ∀ l ∈ rest, l ∈ h.db.leaves) := by
  have hrow : ∀ p : Int, ∃ id rest,
      (handleSubordinateSelection env h c p messageID).db.leaves =
        rest ++ [⟨id, p, utils.RoundTimeToMinute env.msk⟩] ∧ ∀ l ∈ rest, l ∈ h.db.leaves := by
    intro p
    rw [handleSubordinateSelection_leave env h c p messageID bag hst hbag,
      recordLeave_of_no_faults _ _ _ _ _ hf]
    exact insertLeave_withoutDay_leaves h.db p env.msk
  refine ⟨?_, hrow _, fun hnum => ⟨strconv.Atoi_of_not_number _ hnum, hrow 0⟩⟩
  unfold HandleCallback
  simp only [htok, if_true]

/-- C30 (amended) in the chat that has just received the "record leave"
prompt: the token `select_sub_abc` commits a leave for person id 0. -/
theorem selection_token_not_checked_witness :
    sampleEnv.faults = {} ∧
    awaitingLeaveSelection.userStates 7 = some "waiting_leave_selection" ∧
    strings.HasPrefix (utf8 "select_sub_abc") (utf8 "select_sub_") = true ∧
    HandleCallback sampleEnv awaitingLeaveSelection ⟨7, utf8 "select_sub_abc", 0⟩ =
      some (handleSubordinateSelection sampleEnv awaitingLeaveSelection 7
        (strconv.Atoi (strings.TrimPrefix (utf8 "select_sub_abc") (utf8 "select_sub_"))) 0) ∧
    (∃ id rest, (handleSubordinateSelection sampleEnv awaitingLeaveSelection 7
        (strconv.Atoi (strings.TrimPrefix (utf8 "select_sub_abc") (utf8 "select_sub_")))
        0).db.leaves =
      rest ++ [⟨id, strconv.Atoi (strings.TrimPrefix (utf8 "select_sub_abc")
        (utf8 "select_sub_")), utils.RoundTimeToMinute sampleEnv.msk⟩] ∧
      ∀ l ∈ rest, l ∈ awaitingLeaveSelection.db.leaves) ∧
    (strconv.isNumber (strings.TrimPrefix (utf8 "select_sub_abc") (utf8 "select_sub_")) = false →
      strconv.Atoi (strings.TrimPrefix (utf8 "select_sub_abc") (utf8 "select_sub_")) = 0 ∧
      ∃ id rest, (handleSubordinateSelection sampleEnv awaitingLeaveSelection 7 0 0).db.leaves =
        rest ++ [⟨id, 0, utils.RoundTimeToMinute sampleEnv.msk⟩] ∧
        ∀ l ∈ rest, l ∈ awaitingLeaveSelection.db.leaves) :=
  ⟨rfl, by decide, by decide,
    selection_token_not_checked sampleEnv awaitingLeaveSelection 7 0
      [("action", .str (utf8 "record_leave")),
       ("sub_list", .subs [ivanovAnna, ivanovBoris, petrov])] (utf8 "select_sub_abc")
      rfl (by decide) (by decide) (by decide)⟩

/-- The token `select_sub_abc` on the sample data: a leave row for person id 0,
who is not in the roster, is in the store afterwards. -/
theorem selection_token_abc_sample :
    strconv.Atoi (strings.TrimPrefix (utf8 "select_sub_abc") (utf8 "select_sub_")) = 0 ∧
    (HandleCallback sampleEnv awaitingLeaveSelection ⟨7, utf8 "select_sub_abc", 0⟩).map
      (fun h2 => h2.db.leaves) = some [⟨1, 0, ⟨2024, 5, 2, 10, 11, 0, 0, 180⟩⟩] := by
  decide

/-- C30, counterexample.  Chat 7 is in state `waiting_leave_selection` and has
no data bag (the intent "Зафиксировать уход", then a click on the deny button:
a reachable state).  The token `select_sub_1` is answered with the
session-expired message and no leave is written. -/
theorem selection_without_bag_not_committed :
    Reachable ⟨[]⟩ afterIntentDenied ∧
    afterIntentDenied.userStates 7 = some "waiting_leave_selection" ∧
    strings.HasPrefix (utf8 "select_sub_1") (utf8 "select_sub_") = true ∧
    (HandleCallback sampleEnv afterIntentDenied ⟨7, utf8 "select_sub_1", 0⟩).map
      (fun h2 => (h2.db.leaves, h2.sent.getLast?)) = some ([], some (7, .sessionExpired)) :=
  ⟨reachable_afterIntentDenied ⟨[]⟩, by decide, by decide, by decide⟩

/-- C28.  After the intent "Зафиксировать уход" chat 7 has a data bag that
holds `action` and `sub_list` and no `subordinate_id`; the callback
`confirm_yes` then fails in the type assertion `userData["subordinate_id"].(int)`.
After a selection in state `waiting_activity_description` the data bag holds
`subordinate_id` and `activity_time` and no `action`, and `confirm_yes` fails in
`userData["action"].(string)`. -/
theorem confirm_yes_fails_type_assertion (cfg : Config) (env : Env) :
    Reachable cfg afterLeaveIntent ∧
    (∃ bag, afterLeaveIntent.userData 7 = some bag ∧ bag.lookup "subordinate_id" = none) ∧
    HandleCallback env afterLeaveIntent ⟨7, utf8 "confirm_yes", 0⟩ = none ∧
    Reachable cfg afterActivitySelection ∧
    (∃ bag, afterActivitySelection.userData 7 = some bag ∧
      bag.lookup "action" = none) ∧
    HandleCallback env afterActivitySelection ⟨7, utf8 "confirm_yes", 0⟩ = none := by
  refine ⟨reachable_afterLeaveIntent cfg, ⟨_, rfl, by decide⟩, by rfl, ?_, ⟨_, rfl, by decide⟩,
    by rfl⟩
  exact Reachable.callback sampleEnv ⟨7, utf8 "select_sub_1", 0⟩
    (Reachable.message sampleEnv ⟨7, utf8 "Внеплановая деятельность", none, []⟩
      (Reachable.start sampleDB) (by rfl)) (by rfl)

end handlers

/-! ### The report of where people are -/

namespace handlers

open database

theorem statusOf_isActivity (leaves : Int → Option Time)
    (activities : Int → Option UnplannedActivity) (s : Subordinate) :
    (statusOf leaves activities s).isActivity = (activities s.ID).isSome := by
  unfold statusOf
  cases activities s.ID <;> cases leaves s.ID <;> rfl

theorem statusOf_isLeft (leaves : Int → Option Time)
    (activities : Int → Option UnplannedActivity) (s : Subordinate) :
    (statusOf leaves activities s).isLeft =
      (!(activities s.ID).isSome && (leaves s.ID).isSome) := by
  unfold statusOf
  cases activities s.ID <;> cases leaves s.ID <;> rfl

theorem statusOf_isPresent (leaves : Int → Option Time)
    (activities : Int → Option UnplannedActivity) (s : Subordinate) :
    (statusOf leaves activities s).isPresent =
      (!(activities s.ID).isSome && !(leaves s.ID).isSome) := by
  unfold statusOf
  cases activities s.ID <;> cases leaves s.ID <;> rfl

/-- The counting loop started at `counts`. -/
theorem countStatuses_foldl (leaves : Int → Option Time)
    (activities : Int → Option UnplannedActivity) :
    ∀ (subs : List Subordinate) (counts : Int × Int),
      subs.foldl
        (fun counts sub =>
          if (activities sub.ID).isSome then (counts.1, counts.2 + 1)
          else if (leaves sub.ID).isSome then (counts.1 + 1, counts.2)
          else counts) counts =
      (counts.1 + ((subs.countP (fun s => (statusOf leaves activities s).isLeft) : Nat) : Int),
       counts.2 + ((subs.countP (fun s => (statusOf leaves activities s).isActivity) : Nat) : Int))
  | [], counts => by simp
  | s :: subs, counts => by
    rw [List.foldl_cons, countStatuses_foldl leaves activities subs]
    simp only [List.countP_cons, statusOf_isLeft, statusOf_isActivity]
    cases ha : (activities s.ID).isSome <;> cases hl : (leaves s.ID).isSome <;>
      simp <;> ring

theorem countStatuses_eq (leaves : Int → Option Time)
    (activities : Int → Option UnplannedActivity) (subs : List Subordinate) :
    countStatuses leaves activities subs =
      (((subs.countP (fun s => (statusOf leaves activities s).isLeft) : Nat) : Int),
       ((subs.countP (fun s => (statusOf leaves activities s).isActivity) : Nat) : Int)) := by
  unfold countStatuses
  rw [countStatuses_foldl]
  simp

/-- Every person is in exactly one of the three categories. -/
theorem status_partition (leaves : Int → Option Time)
    (activities : Int → Option UnplannedActivity) :
    ∀ subs : List Subordinate,
      subs.countP (fun s => (statusOf leaves activities s).isPresent) +
        subs.countP (fun s => (statusOf leaves activities s).isLeft) +
        subs.countP (fun s => (statusOf leaves activities s).isActivity) = subs.length
  | [] => rfl
  | s :: subs => by
    have ih := status_partition leaves activities subs
    have key : ∀ st : Status, (if st.isPresent = true then 1 else 0) +
        (if st.isLeft = true then 1 else 0) + (if st.isActivity = true then 1 else 0) = 1 := by
      intro st; cases st <;> rfl
    have hk := key (statusOf leaves activities s)
    simp only [List.countP_cons, List.length_cons]
    omega

/-- C23.  For every roster and every pair of maps of the day, the report of
`handleWhereSubordinates` has one line per person, in roster order: the activity
status when the person has an activity (also when a leave exists), the leave
status when there is a leave and no activity, and "present" otherwise.  The
counts it prints are the numbers of people with each status, so every person
is counted in exactly one category and the three counts sum to the size of the
roster. -/
theorem whereReport_statuses_and_counts (env : Env) (h : BotHandler) (chatID : Int)
    (subs : List Subordinate) (leaves : Int → Option Time)
    (activities : Int → Option UnplannedActivity) :
    handleWhereSubordinates env h chatID =
      h.send chatID (whereReport (sortSubordinatesAlphabetically (GetAllSubordinates h.db))
        (GetTodayLeaves h.db env.now) (GetTodayUnplannedActivities h.db env.now)) ∧
    whereReport subs leaves activities =
      .whereReport (subs.map (fun s => (s, statusOf leaves activities s))) subs.length
        (subs.countP (fun s => (statusOf leaves activities s).isPresent) : Nat)
        (subs.countP (fun s => (statusOf leaves activities s).isLeft) : Nat)
        (subs.countP (fun s => (statusOf leaves activities s).isActivity) : Nat) ∧
    (∀ s ∈ subs,
      (∀ a, activities s.ID = some a →
        statusOf leaves activities s = .activity a.ActivityTime (shortDescription a.Description)) ∧
      (∀ t, activities s.ID = none → leaves s.ID = some t →
        statusOf leaves activities s = .left t) ∧
      (activities s.ID = none → leaves s.ID = none →
        statusOf leaves activities s = .present)) ∧
    subs.countP (fun s => (statusOf leaves activities s).isPresent) +
      subs.countP (fun s => (statusOf leaves activities s).isLeft) +
      subs.countP (fun s => (statusOf leaves activities s).isActivity) = subs.length := by
  have hpart := status_partition leaves activities subs
  refine ⟨rfl, ?_, ?_, hpart⟩
  · unfold whereReport
    simp only [countStatuses_eq]
    congr 1
    have hcast : ((subs.length : Nat) : Int) =
        (subs.countP (fun s => (statusOf leaves activities s).isPresent) : Nat) +
        (subs.countP (fun s => (statusOf leaves activities s).isLeft) : Nat) +
        (subs.countP (fun s => (statusOf leaves activities s).isActivity) : Nat) := by
      rw [← hpart]; push_cast; ring
    rw [hcast]; ring
  · intro s _
    refine ⟨fun a ha => ?_, fun t ha hl => ?_, fun ha hl => ?_⟩
    · simp [statusOf, ha]
    · simp [statusOf, ha, hl]
    · simp [statusOf, ha, hl]

/-- The report on the sample store in which Petrov has both a leave and an
activity on 2 May 2024: he is shown with the activity and counted once. -/
theorem whereReport_sample :
    (handleWhereSubordinates sampleEnv (idleHandler sampleDBBoth) 7).sent =
      [(7, .whereReport
        [(ivanovAnna, .present), (ivanovBoris, .left ⟨2024, 5, 2, 9, 30, 0, 0, 180⟩),
         (petrov, .activity ⟨2024, 5, 2, 9, 0, 0, 0, 180⟩ (utf8 "meeting"))] 3 1 1 1)] := by
  decide

end handlers

/-! ### The partial search with an empty first-name term -/

/-- The sample `LIKE` lets the pattern `%%` match every text. -/
theorem likeContains_any (x : GoString) : likeContains (lowerAscii [37, 37]) x = true := by
  cases x <;> rfl

namespace database

/-- With an empty first-name term the second pattern of `FindSubordinatesByName`
is `%%`; when it matches every text, the query selects the whole table. -/
theorem FindSubordinatesByName_empty (sqlLower : GoString → GoString)
    (sqlLike : GoString → GoString → Bool) (db : DB) (term : GoString)
    (hlike : ∀ x, sqlLike (sqlLower [37, 37]) x = true) :
    FindSubordinatesByName sqlLower sqlLike db term [] =
      db.subordinates.insertionSort nameLe := by
  unfold FindSubordinatesByName selectOrdered
  have hp : ∀ s : Subordinate,
      (sqlLike (sqlLower ([37] ++ term ++ [37])) (sqlLower s.LastName) ||
        sqlLike (sqlLower ([37] ++ [] ++ [37])) (sqlLower s.FirstName)) = true := by
    intro s
    have := hlike (sqlLower s.FirstName)
    simp only [List.append_nil, List.singleton_append, this, Bool.or_true]
  simp only [hp, List.filter_true]

end database

namespace handlers

open database

/-- C27.  When the storage engine lets the pattern `%%` match every text,
`FindSubordinatesByName(term, "")` returns every person of the directory, in the
order of the query, whatever the term.  So in `processUnplannedActivity`, when
the exact search for the typed surname finds nobody, the candidates are the
whole roster: a roster of exactly one person gets the activity committed to that
person, and a roster of two or more people is offered for selection. -/
theorem partial_search_returns_roster (env : Env) (h : BotHandler) (c : Int) (db : DB)
    (term searchText lastName : GoString) (rest : List GoString) (t : Time) (d : GoString)
    (hlike : ∀ x, env.sqlLike (env.sqlLower [37, 37]) x = true)
    (hfields : strings.Fields searchText = lastName :: rest)
    (hexact : findExactSubordinate env h.db lastName [] = .ok []) :
    (FindSubordinatesByName env.sqlLower env.sqlLike db term []).Perm db.subordinates ∧
    (∀ p, h.db.subordinates = [p] →
      processUnplannedActivity env h c searchText t d =
        recordUnplannedActivity env h c p.ID t d) ∧
    (2 ≤ h.db.subordinates.length →
      processUnplannedActivity env h c searchText t d =
        ({ h with userData := Function.update h.userData c (some
          [("action", .str (utf8 "unplanned")),
           ("sub_list", .subs (FindSubordinatesByName env.sqlLower env.sqlLike h.db lastName [])),
           ("activity_time", .time t), ("description", .str d)]) }).send c
          (.chooseSubordinate
            (FindSubordinatesByName env.sqlLower env.sqlLike h.db lastName []))) := by
  refine ⟨?_, ?_, ?_⟩
  · rw [FindSubordinatesByName_empty _ _ _ _ hlike]
    exact List.perm_insertionSort _ _
  · intro p hp
    unfold processUnplannedActivity
    simp only [hfields, hexact]
    rw [FindSubordinatesByName_empty _ _ _ _ hlike, hp]
    simp
  · intro hlen
    unfold processUnplannedActivity
    simp only [hfields, hexact]
    have hperm : (FindSubordinatesByName env.sqlLower env.sqlLike h.db lastName []).Perm
        h.db.subordinates := by
      rw [FindSubordinatesByName_empty _ _ _ _ hlike]
      exact List.perm_insertionSort _ _
    have hl := hperm.length_eq
    cases hres : FindSubordinatesByName env.sqlLower env.sqlLike h.db lastName [] with
    | nil => rw [hres] at hl; simp at hl; omega
    | cons a l =>
      cases l with
      | nil => rw [hres] at hl; simp at hl; omega
      | cons b l => simp

/-- C27 on a roster of one person: the text "Sidorov" names nobody, and the
activity is committed to Petrov. -/
theorem partial_search_returns_roster_witness :
    (∀ x, sampleEnv.sqlLike (sampleEnv.sqlLower [37, 37]) x = true) ∧
    strings.Fields (utf8 "Sidorov") = [utf8 "Sidorov"] ∧
    findExactSubordinate sampleEnv (idleHandler onePersonDB).db (utf8 "Sidorov") [] = .ok [] ∧
    (FindSubordinatesByName sampleEnv.sqlLower sampleEnv.sqlLike sampleDB (utf8 "Sidorov")
      []).Perm sampleDB.subordinates ∧
    (∀ p, (idleHandler onePersonDB).db.subordinates = [p] →
      processUnplannedActivity sampleEnv (idleHandler onePersonDB) 7 (utf8 "Sidorov") sampleNow
          (utf8 "call") =
        recordUnplannedActivity sampleEnv (idleHandler onePersonDB) 7 p.ID sampleNow
          (utf8 "call")) ∧
    (2 ≤ (idleHandler onePersonDB).db.subordinates.length →
      processUnplannedActivity sampleEnv (idleHandler onePersonDB) 7 (utf8 "Sidorov") sampleNow
          (utf8 "call") =
        ({ idleHandler onePersonDB with
          userData := Function.update (idleHandler onePersonDB).userData 7 (some
            [("action", .str (utf8 "unplanned")),
             ("sub_list", .subs (FindSubordinatesByName sampleEnv.sqlLower sampleEnv.sqlLike
               (idleHandler onePersonDB).db (utf8 "Sidorov") [])),
             ("activity_time", .time sampleNow), ("description", .str (utf8 "call"))]) }).send 7
          (.chooseSubordinate (FindSubordinatesByName sampleEnv.sqlLower sampleEnv.sqlLike
            (idleHandler onePersonDB).db (utf8 "Sidorov") []))) :=
  ⟨likeContains_any, by decide, by decide,
    partial_search_returns_roster sampleEnv (idleHandler onePersonDB) 7 sampleDB (utf8 "Sidorov")
      (utf8 "Sidorov") (utf8 "Sidorov") [] sampleNow (utf8 "call") likeContains_any (by decide)
      (by decide)⟩

/-- The text "Sidorov" on the roster of one person: the activity row is written
for Petrov (id 1). -/
theorem partial_search_sample :
    (processUnplannedActivity sampleEnv (idleHandler onePersonDB) 7 (utf8 "Sidorov") sampleNow
      (utf8 "call")).db.activities = [⟨1, 1, ⟨2024, 5, 2, 10, 11, 0, 0, 180⟩, utf8 "call"⟩] := by
  decide

end handlers

/-! ### The state tags of reachable sessions -/

namespace handlers

open database config

theorem TagStep.refl (h : BotHandler) : TagStep h h := fun _ => Or.inl rfl

theorem TagStep.of_eq {h h2 : BotHandler} (e : h2.userStates = h.userStates) : TagStep h h2 :=
  fun c => Or.inl (by rw [e])

theorem TagStep.update {h h2 : BotHandler} (c : Int) (v : Option String) (hv : AssignedTag v)
    (e : h2.userStates = Function.update h.userStates c v) : TagStep h h2 := by
  intro c2
  rw [e]
  by_cases hc : c2 = c
  · subst hc; right; simpa using hv
  · left; simp [Function.update_noteq hc]

theorem TagStep.trans {h h2 h3 : BotHandler} (a : TagStep h h2) (b : TagStep h2 h3) :
    TagStep h h3 := by
  intro c
  rcases b c with e | e
  · rcases a c with e2 | e2
    · left; rw [e, e2]
    · right; rw [e]; exact e2
  · right; exact e

theorem assigned_none : AssignedTag none := Or.inl rfl

theorem recordLeave_userStates (env : Env) (h : BotHandler) (c P : Int) (t : Time) :
    (recordLeave env h c P t).userStates = h.userStates := (recordLeave_session env h c P t).1

theorem recordUnplannedActivity_userStates (env : Env) (h : BotHandler) (c P : Int) (t : Time)
    (d : GoString) : (recordUnplannedActivity env h c P t d).userStates = h.userStates :=
  (recordUnplannedActivity_session env h c P t d).1

theorem handleRecordLeave_tags (h : BotHandler) (c : Int) : TagStep h (handleRecordLeave h c) := by
  unfold handleRecordLeave
  simp only
  split
  · exact TagStep.refl h
  · exact TagStep.update c _ (Or.inr (Or.inl rfl)) rfl

theorem handleUnplannedActivity_tags (h : BotHandler) (c : Int) :
    TagStep h (handleUnplannedActivity h c) := by
  unfold handleUnplannedActivity
  simp only
  split
  · exact TagStep.refl h
  · exact TagStep.update c _ (Or.inr (Or.inr (Or.inl rfl))) rfl

theorem handleStatisticsCommand_tags (cfg : Config) (h : BotHandler) (c : Int)
    (text : GoString) : TagStep h (handleStatisticsCommand cfg h c text) := by
  unfold handleStatisticsCommand handleExcelExport
  split
  · split
    · split <;> exact TagStep.refl h
    · exact TagStep.refl h
  · exact TagStep.refl h

theorem handleAddExcel_tags (cfg : Config) (env : Env) (h : BotHandler) (c : Int)
    (d : Option Document) : TagStep h (handleAddExcel cfg env h c d) := by
  unfold handleAddExcel showAllSubordinates
  split
  · exact TagStep.refl h
  · split
    · exact TagStep.refl h
    · split
      · exact TagStep.refl h
      · split <;> exact TagStep.refl h

theorem processActivityDescriptionInput_tags (env : Env) (h : BotHandler) (c : Int)
    (text : GoString) : TagStep h (processActivityDescriptionInput env h c text) := by
  unfold processActivityDescriptionInput
  split
  · exact TagStep.refl h
  · split
    · exact TagStep.update c none assigned_none rfl
    · split
      · simp only
        split
        · exact TagStep.refl h
        · refine TagStep.update c none assigned_none ?_
          simp only [recordUnplannedActivity_userStates]
      · exact TagStep.update c none assigned_none rfl

theorem processLeaveInput_tags (env : Env) (h : BotHandler) (c : Int) (text : GoString) :
    TagStep h (processLeaveInput env h c text) := by
  refine TagStep.update c none assigned_none ?_
  unfold processLeaveInput
  simp only
  split
  · rfl
  · split
    · rfl
    · split
      · rfl
      · split
        · rfl
        · split
          · rfl
          · rw [recordLeave_userStates]
          · rfl

theorem handleFreeTextInput_tags (env : Env) (h : BotHandler) (c : Int) (text : GoString) :
    TagStep h (handleFreeTextInput env h c text) := by
  unfold handleFreeTextInput
  split
  · exact processLeaveInput_tags env h c text
  · exact TagStep.refl h

theorem processUnplannedActivity_userStates (env : Env) (h : BotHandler) (c : Int)
    (searchText : GoString) (t : Time) (d : GoString) :
    (processUnplannedActivity env h c searchText t d).userStates = h.userStates := by
  unfold processUnplannedActivity
  split
  · rfl
  · split
    · rfl
    · simp only
      split
      · rfl
      · rw [recordUnplannedActivity_userStates]
      · rfl

theorem finishUnplannedInput_userStates (env : Env) (h : BotHandler) (c : Int)
    (t : Time) (a b : GoString) :
    (finishUnplannedInput env h c t a b).userStates = h.userStates := by
  unfold finishUnplannedInput
  simp only
  split
  · rfl
  · split
    · rfl
    · rw [processUnplannedActivity_userStates]

theorem processUnplannedInput_tags (env : Env) (h h2 : BotHandler) (c : Int) (text : GoString)
    (e : processUnplannedInput env h c text = some h2) : TagStep h h2 := by
  refine TagStep.update c none assigned_none ?_
  unfold processUnplannedInput at e
  simp only at e
  split at e
  · cases e; rfl
  · split at e
    · split at e
      · cases e; rfl
      · split at e
        · cases e
        · split at e
          · cases e
          · cases e; rw [finishUnplannedInput_userStates]
    · split at e
      · cases e; rfl
      · split at e
        · cases e; rfl
        · split at e
          · cases e
          · split at e
            · cases e
            · cases e; rw [finishUnplannedInput_userStates]

theorem handleLeaveTimeInput_tags (env : Env) (h h2 : BotHandler) (c : Int) (text : GoString)
    (e : handleLeaveTimeInput env h c text = some h2) : TagStep h h2 := by
  refine TagStep.update c none assigned_none ?_
  unfold handleLeaveTimeInput at e
  simp only at e
  split at e
  · cases e; rfl
  · split at e
    · cases e; rfl
    · split at e
      · cases e
        simp only [recordLeave_userStates]
      · cases e

theorem handleUnplannedDetailsInput_tags (env : Env) (h h2 : BotHandler) (c : Int)
    (text : GoString) (e : handleUnplannedDetailsInput env h c text = some h2) :
    TagStep h h2 := by
  refine TagStep.update c none assigned_none ?_
  unfold handleUnplannedDetailsInput at e
  simp only at e
  split at e
  · cases e; rfl
  · split at e
    · cases e; rfl
    · split at e
      · cases e
        simp only [recordUnplannedActivity_userStates]
      · cases e

theorem handleSubordinateSelection_tags (env : Env) (h : BotHandler) (c p messageID : Int) :
    TagStep h (handleSubordinateSelection env h c p messageID) := by
  unfold handleSubordinateSelection
  simp only
  split
  · split
    · refine TagStep.update c none assigned_none ?_
      simp only [recordLeave_userStates]
      rfl
    · split
      · exact TagStep.update c _ (Or.inr (Or.inr (Or.inr rfl))) rfl
      · exact TagStep.update c none assigned_none rfl
  · exact TagStep.refl h

theorem handleConfirmation_userStates (env : Env) (h h2 : BotHandler) (c : Int)
    (confirmed : Bool) (messageID : Int)
    (e : handleConfirmation env h c confirmed messageID = some h2) :
    h2.userStates = h.userStates := by
  unfold handleConfirmation at e
  simp only at e
  split at e
  · cases e; rfl
  · split at e
    · cases e; rfl
    · split at e
      · split at e
        · split at e
          · split at e
            · cases e; rfl
            · cases e; rfl
          · cases e
        · split at e
          · split at e
            · split at e
              · cases e; rfl
              · cases e; rfl
            · cases e
          · cases e; rfl
      · cases e

/-- The two ways a conditional can take a value. -/
theorem ite_cases {α : Type} {c : Prop} [Decidable c] {a b x : α}
    (e : (if c then a else b) = x) : (c ∧ a = x) ∨ (¬c ∧ b = x) := by
  by_cases hc : c
  · left; rw [if_pos hc] at e; exact ⟨hc, e⟩
  · right; rw [if_neg hc] at e; exact ⟨hc, e⟩

theorem HandleMessage_tags (cfg : Config) (env : Env) (h h2 : BotHandler) (m : Message)
    (e : HandleMessage cfg env h m = some h2) : TagStep h h2 := by
  unfold HandleMessage at e
  rcases ite_cases e with ⟨_, e⟩ | ⟨_, e⟩
  · rcases ite_cases e with ⟨_, e⟩ | ⟨_, e⟩
    · cases e; exact TagStep.refl h
    · cases e; exact handleAddExcel_tags _ _ _ _ _
  rcases ite_cases e with ⟨_, e⟩ | ⟨_, e⟩
  · cases e; exact TagStep.refl h
  rcases ite_cases e with ⟨_, e⟩ | ⟨_, e⟩
  · cases e; exact handleRecordLeave_tags _ _
  rcases ite_cases e with ⟨_, e⟩ | ⟨_, e⟩
  · cases e; exact handleUnplannedActivity_tags _ _
  rcases ite_cases e with ⟨_, e⟩ | ⟨_, e⟩
  · cases e; exact TagStep.refl h
  rcases ite_cases e with ⟨_, e⟩ | ⟨_, e⟩
  · cases e; exact TagStep.refl h
  rcases ite_cases e with ⟨_, e⟩ | ⟨_, e⟩
  · cases e; exact handleStatisticsCommand_tags _ _ _ _
  rcases ite_cases e with ⟨_, e⟩ | ⟨_, e⟩
  · cases e; exact TagStep.refl h
  rcases ite_cases e with ⟨_, e⟩ | ⟨_, e⟩
  · cases e; exact processActivityDescriptionInput_tags _ _ _ _
  rcases ite_cases e with ⟨_, e⟩ | ⟨_, e⟩
  · cases e; exact processLeaveInput_tags _ _ _ _
  rcases ite_cases e with ⟨_, e⟩ | ⟨_, e⟩
  · exact processUnplannedInput_tags _ _ _ _ _ e
  rcases ite_cases e with ⟨_, e⟩ | ⟨_, e⟩
  · exact handleLeaveTimeInput_tags _ _ _ _ _ e
  rcases ite_cases e with ⟨_, e⟩ | ⟨_, e⟩
  · exact handleUnplannedDetailsInput_tags _ _ _ _ _ e
  · cases e; exact handleFreeTextInput_tags _ _ _ _

theorem HandleCallback_tags (env : Env) (h h2 : BotHandler) (cb : Callback)
    (e : HandleCallback env h cb = some h2) : TagStep h h2 := by
  unfold HandleCallback at e
  simp only at e
  split at e
  · cases e; exact handleSubordinateSelection_tags _ _ _ _ _
  · split at e
    · exact TagStep.of_eq (handleConfirmation_userStates _ _ _ _ _ _ e)
    · cases e; exact TagStep.refl h

/-- In every reachable state every chat has an assigned tag or none. -/
theorem reachable_tags (cfg : Config) (h : BotHandler) (hr : Reachable cfg h) :
    ∀ c, AssignedTag (h.userStates c) := by
  induction hr with
  | start db => intro c; exact Or.inl rfl
  | message env m _ e ih =>
    intro c
    rcases HandleMessage_tags _ _ _ _ _ e c with e2 | e2
    · rw [e2]; exact ih c
    · exact e2
  | callback env cb _ e ih =>
    intro c
    rcases HandleCallback_tags _ _ _ _ e c with e2 | e2
    · rw [e2]; exact ih c
    · exact e2

end handlers

namespace handlers

open database config

/-- An assigned tag is none of the four tags that only `HandleMessage` reads. -/
theorem AssignedTag.not_read_only {tag : Option String} (ht : AssignedTag tag) :
    tag ≠ some "waiting_leave_input" ∧ tag ≠ some "waiting_unplanned_input" ∧
    tag ≠ some "waiting_leave_time" ∧ tag ≠ some "waiting_unplanned_details" := by
  rcases ht with e | e | e | e <;> subst e <;> decide

/-- The sample session that waits for the description of Petrov's activity is
reachable. -/
theorem reachable_afterActivitySelection (cfg : Config) : Reachable cfg afterActivitySelection :=
  Reachable.callback sampleEnv ⟨7, utf8 "select_sub_1", 0⟩
    (Reachable.message sampleEnv ⟨7, utf8 "Внеплановая деятельность", none, []⟩
      (Reachable.start sampleDB) (by rfl)) (by rfl)

/-- C29 (amended).  In every state reachable from the empty session maps through
`HandleMessage` and `HandleCallback`, the state tag of every chat is absent or
one of `waiting_leave_selection`, `waiting_activity_description`,
`waiting_activity_desc_input`.  So the guards of the branches of `HandleMessage`
that call `processLeaveInput` directly, `processUnplannedInput`,
`handleLeaveTimeInput` and `handleUnplannedDetailsInput` are false: a message
that is no command (and no roster attachment) goes to
`processActivityDescriptionInput` when the chat waits for a description and to
`handleFreeTextInput` otherwise; and in a chat that does not wait for a
description, a text that contains a time marker or the keyword "сейчас" is
handled by `processLeaveInput`. -/
theorem reachable_state_tags (cfg : Config) (env : Env) (h : BotHandler) (m : Message)
    (hr : Reachable cfg h) :
    (∀ c, AssignedTag (h.userStates c)) ∧
    (∀ c, h.userStates c ≠ some "waiting_leave_input" ∧
      h.userStates c ≠ some "waiting_unplanned_input" ∧
      h.userStates c ≠ some "waiting_leave_time" ∧
      h.userStates c ≠ some "waiting_unplanned_details") ∧
    ((m.document.isSome && m.caption != [] &&
        strings.HasPrefix m.caption (utf8 "/add_excel")) = false →
      isCommand m.text = false →
      HandleMessage cfg env h m =
        some (if h.userStates m.chatID == some "waiting_activity_desc_input" then
          processActivityDescriptionInput env h m.chatID m.text
        else handleFreeTextInput env h m.chatID m.text)) ∧
    ((m.document.isSome && m.caption != [] &&
        strings.HasPrefix m.caption (utf8 "/add_excel")) = false →
      isCommand m.text = false →
      h.userStates m.chatID ≠ some "waiting_activity_desc_input" →
      (strings.Contains m.text kwNow || utils.ContainsTime env.lower m.text) = true →
      HandleMessage cfg env h m = some (processLeaveInput env h m.chatID m.text)) := by
  have htags := reachable_tags cfg h hr
  have hdispatch : (m.document.isSome && m.caption != [] &&
        strings.HasPrefix m.caption (utf8 "/add_excel")) = false →
      isCommand m.text = false →
      HandleMessage cfg env h m =
        some (if h.userStates m.chatID == some "waiting_activity_desc_input" then
          processActivityDescriptionInput env h m.chatID m.text
        else handleFreeTextInput env h m.chatID m.text) := by
    intro hatt hcmd
    unfold isCommand at hcmd
    simp only [Bool.or_eq_false_iff] at hcmd
    obtain ⟨⟨⟨⟨⟨⟨c1, c2⟩, c3⟩, c4⟩, c5⟩, c6⟩, c7⟩ := hcmd
    obtain ⟨t1, t2, t3, t4⟩ := (htags m.chatID).not_read_only
    have b1 : ¬ (h.userStates m.chatID == some "waiting_leave_input") = true :=
      fun hb => t1 (beq_iff_eq.1 hb)
    have b2 : ¬ (h.userStates m.chatID == some "waiting_unplanned_input") = true :=
      fun hb => t2 (beq_iff_eq.1 hb)
    have b3 : ¬ (h.userStates m.chatID == some "waiting_leave_time") = true :=
      fun hb => t3 (beq_iff_eq.1 hb)
    have b4 : ¬ (h.userStates m.chatID == some "waiting_unplanned_details") = true :=
      fun hb => t4 (beq_iff_eq.1 hb)
    unfold HandleMessage
    rw [if_neg (by rw [hatt]; exact Bool.false_ne_true), if_neg (by rw [c1]; exact Bool.false_ne_true),
      if_neg (by rw [c2]; exact Bool.false_ne_true), if_neg (by rw [c3]; exact Bool.false_ne_true),
      if_neg (by rw [c4]; exact Bool.false_ne_true), if_neg (by rw [c5]; exact Bool.false_ne_true),
      if_neg (by rw [c6]; exact Bool.false_ne_true), if_neg (by rw [c7]; exact Bool.false_ne_true)]
    by_cases hd : (h.userStates m.chatID == some "waiting_activity_desc_input") = true
    · rw [if_pos hd, if_pos hd]
    · rw [if_neg hd, if_neg hd, if_neg b1, if_neg b2, if_neg b3, if_neg b4]
  refine ⟨htags, fun c => (htags c).not_read_only, hdispatch, ?_⟩
  intro hatt hcmd hnd hmark
  rw [hdispatch hatt hcmd, if_neg (fun hb => hnd (beq_iff_eq.1 hb))]
  unfold handleFreeTextInput
  rw [if_pos hmark]

/-- C29 (amended) in the chat that has just received the "record leave" prompt: the text
"Petrov 14:30" is handled as leave input. -/
theorem reachable_state_tags_witness :
    Reachable ⟨[]⟩ afterLeaveIntent ∧
    AssignedTag (afterLeaveIntent.userStates 7) ∧
    (afterLeaveIntent.userStates 7 ≠ some "waiting_leave_input" ∧
      afterLeaveIntent.userStates 7 ≠ some "waiting_unplanned_input" ∧
      afterLeaveIntent.userStates 7 ≠ some "waiting_leave_time" ∧
      afterLeaveIntent.userStates 7 ≠ some "waiting_unplanned_details") ∧
    HandleMessage ⟨[]⟩ sampleEnv afterLeaveIntent ⟨7, utf8 "Petrov 14:30", none, []⟩ =
      some (processLeaveInput sampleEnv afterLeaveIntent 7 (utf8 "Petrov 14:30")) :=
  have w := reachable_state_tags ⟨[]⟩ sampleEnv afterLeaveIntent
    ⟨7, utf8 "Petrov 14:30", none, []⟩ (reachable_afterLeaveIntent ⟨[]⟩)
  ⟨reachable_afterLeaveIntent ⟨[]⟩, w.1 7, w.2.1 7,
    w.2.2.2 (by decide) (by decide) (by decide) (by decide)⟩

/-- C29 as stated fails in a chat that waits for a description: chat 7 has
sent the intent "Внеплановая деятельность" and selected Petrov, a reachable
state with the tag `waiting_activity_desc_input`.  The text "Petrov 14:30"
contains a time marker, yet it is not handled as leave input: it is stored as
the description of Petrov's activity at 10:11 and no leave is written, while
`processLeaveInput` would have written his leave at 14:30. -/
theorem time_text_stored_as_description :
    Reachable ⟨[]⟩ afterActivitySelection ∧
    afterActivitySelection.userStates 7 = some "waiting_activity_desc_input" ∧
    isCommand (utf8 "Petrov 14:30") = false ∧
    utils.ContainsTime sampleEnv.lower (utf8 "Petrov 14:30") = true ∧
    (HandleMessage ⟨[]⟩ sampleEnv afterActivitySelection
        ⟨7, utf8 "Petrov 14:30", none, []⟩).map
      (fun h2 => (h2.db.leaves, h2.db.activities)) =
      some ([], [⟨1, 1, ⟨2024, 5, 2, 10, 11, 0, 0, 180⟩, utf8 "Petrov 14:30"⟩]) ∧
    (processLeaveInput sampleEnv afterActivitySelection 7 (utf8 "Petrov 14:30")).db.leaves =
      [⟨1, 1, ⟨2024, 5, 2, 14, 30, 0, 0, 180⟩⟩] :=
  ⟨reachable_afterActivitySelection ⟨[]⟩, by decide, by decide, by decide, by decide,
    by decide⟩

/-- The text "Petrov 14:30" in the chat that has just received the "record
leave" prompt: Petrov's leave at 14:30 is written, and the prompt's state tag
is gone. -/
theorem free_text_in_selection_state_sample :
    (HandleMessage ⟨[]⟩ sampleEnv afterLeaveIntent ⟨7, utf8 "Petrov 14:30", none, []⟩).map
      (fun h2 => (h2.db.leaves, h2.userStates 7)) =
      some ([⟨1, 1, ⟨2024, 5, 2, 14, 30, 0, 0, 180⟩⟩], none) := by
  decide

end handlers

/-! ### The allow-list -/

namespace database

theorem RemoveConflictingRecords_subordinates (f : Faults) (db : DB) (p : Int) (t : Time) :
    (RemoveConflictingRecords f db p t).1.subordinates = db.subordinates := by
  unfold RemoveConflictingRecords
  simp only
  split
  · rfl
  · split <;> rfl

theorem AddLeave_subordinates (f : Faults) (db : DB) (p : Int) (t : Time) :
    (AddLeave f db p t).1.subordinates = db.subordinates := by
  unfold AddLeave
  simp only
  split
  · rfl
  · split
    · split <;> rfl
    · split <;> rfl

theorem AddUnplannedActivity_subordinates (f : Faults) (db : DB) (p : Int) (t : Time)
    (d : GoString) : (AddUnplannedActivity f db p t d).1.subordinates = db.subordinates := by
  unfold AddUnplannedActivity
  simp only
  split
  · rfl
  · split
    · split <;> rfl
    · split <;> rfl

end database

namespace handlers

open database config

theorem NoImportExport.unchanged (h : BotHandler) : NoImportExport h h :=
  ⟨rfl, [], by simp, by simp⟩

theorem NoImportExport.send_of {h h1 : BotHandler} (a : NoImportExport h h1) (c : Int)
    (r : Reply) (hr : r.fromImportOrExport = false) : NoImportExport h (h1.send c r) := by
  obtain ⟨hdb, rs, hs, hall⟩ := a
  refine ⟨hdb, rs ++ [(c, r)], ?_, ?_⟩
  · rw [send_sent, hs, List.append_assoc]
  · intro x hx
    rcases List.mem_append.1 hx with hx | hx
    · exact hall x hx
    · rw [List.mem_singleton.1 hx]; exact hr

theorem NoImportExport.session {h h1 h2 : BotHandler} (a : NoImportExport h h1)
    (hdb : h2.db = h1.db) (hsent : h2.sent = h1.sent) : NoImportExport h h2 := by
  obtain ⟨hd, rs, hs, hall⟩ := a
  exact ⟨by rw [hdb, hd], rs, by rw [hsent, hs], hall⟩

theorem recordLeave_quiet {h h1 : BotHandler} (a : NoImportExport h h1) (env : Env)
    (c p : Int) (t : Time) : NoImportExport h (recordLeave env h1 c p t) := by
  have h1s := RemoveConflictingRecords_subordinates env.faults h1.db p t
  unfold recordLeave
  rcases hR : RemoveConflictingRecords env.faults h1.db p t with ⟨db1, e1⟩
  rw [hR] at h1s
  cases e1 with
  | some err =>
    have x := a.send_of c (.conflictRemovalError err) rfl
    exact ⟨by simpa [BotHandler.send] using h1s.trans a.1, x.2⟩
  | none =>
    simp only
    have h2s := AddLeave_subordinates env.faults db1 p t
    rcases hA : AddLeave env.faults db1 p t with ⟨db2, e2⟩
    rw [hA] at h2s
    cases e2 with
    | some err =>
      have x := a.send_of c (.leaveWriteError err) rfl
      exact ⟨by simpa [BotHandler.send] using (h2s.trans h1s).trans a.1, x.2⟩
    | none =>
      have x := a.send_of c (.leaveRecorded (GetSubordinateByID db2 p) t) rfl
      exact ⟨by simpa [BotHandler.send] using (h2s.trans h1s).trans a.1, x.2⟩

theorem recordUnplannedActivity_quiet {h h1 : BotHandler} (a : NoImportExport h h1) (env : Env)
    (c p : Int) (t : Time) (d : GoString) :
    NoImportExport h (recordUnplannedActivity env h1 c p t d) := by
  have h1s := RemoveConflictingRecords_subordinates env.faults h1.db p t
  unfold recordUnplannedActivity
  rcases hR : RemoveConflictingRecords env.faults h1.db p t with ⟨db1, e1⟩
  rw [hR] at h1s
  cases e1 with
  | some err =>
    have x := a.send_of c (.conflictRemovalError err) rfl
    exact ⟨by simpa [BotHandler.send] using h1s.trans a.1, x.2⟩
  | none =>
    simp only
    have h2s := AddUnplannedActivity_subordinates env.faults db1 p t d
    rcases hA : AddUnplannedActivity env.faults db1 p t d with ⟨db2, e2⟩
    rw [hA] at h2s
    cases e2 with
    | some err =>
      have x := a.send_of c (.activityWriteError err) rfl
      exact ⟨by simpa [BotHandler.send] using (h2s.trans h1s).trans a.1, x.2⟩
    | none =>
      have x := a.send_of c (.activityRecorded (GetSubordinateByID db2 p) t d) rfl
      exact ⟨by simpa [BotHandler.send] using (h2s.trans h1s).trans a.1, x.2⟩

theorem handleRecordLeave_quiet (h : BotHandler) (c : Int) :
    NoImportExport h (handleRecordLeave h c) := by
  unfold handleRecordLeave
  simp only
  split
  · exact (NoImportExport.unchanged h).send_of c _ rfl
  · exact ((NoImportExport.unchanged h).session rfl rfl).send_of c _ rfl

theorem handleUnplannedActivity_quiet (h : BotHandler) (c : Int) :
    NoImportExport h (handleUnplannedActivity h c) := by
  unfold handleUnplannedActivity
  simp only
  split
  · exact (NoImportExport.unchanged h).send_of c _ rfl
  · exact ((NoImportExport.unchanged h).session rfl rfl).send_of c _ rfl

theorem handleStatisticsCommand_quiet (cfg : Config) (h : BotHandler) (c : Int)
    (text : GoString) (hna : cfg.IsAdmin c = false) :
    NoImportExport h (handleStatisticsCommand cfg h c text) := by
  unfold handleStatisticsCommand handleExcelExport
  split
  · split
    · simp only [hna, Bool.not_false, if_true]
      exact (NoImportExport.unchanged h).send_of c _ rfl
    · exact (NoImportExport.unchanged h).send_of c _ rfl
  · exact (NoImportExport.unchanged h).send_of c _ rfl

theorem processActivityDescriptionInput_quiet (env : Env) (h : BotHandler) (c : Int)
    (text : GoString) : NoImportExport h (processActivityDescriptionInput env h c text) := by
  unfold processActivityDescriptionInput
  split
  · exact (NoImportExport.unchanged h).send_of c _ rfl
  · split
    · exact ((NoImportExport.unchanged h).send_of c .sessionExpired rfl).session rfl rfl
    · split
      · simp only
        split
        · exact (NoImportExport.unchanged h).send_of c _ rfl
        · exact (recordUnplannedActivity_quiet (NoImportExport.unchanged h) env c _ _ _).session
            rfl rfl
      · exact ((NoImportExport.unchanged h).send_of c .sessionDataError rfl).session rfl rfl

theorem processLeaveInput_quiet (env : Env) (h : BotHandler) (c : Int) (text : GoString) :
    NoImportExport h (processLeaveInput env h c text) := by
  have a : NoImportExport h { h with userStates := Function.update h.userStates c none } :=
    (NoImportExport.unchanged h).session rfl rfl
  unfold processLeaveInput
  simp only
  split
  · exact a.send_of c _ rfl
  · split
    · exact a.send_of c _ rfl
    · split
      · exact a.send_of c _ rfl
      · split
        · exact a.send_of c _ rfl
        · split
          · exact a.send_of c _ rfl
          · exact recordLeave_quiet a env c _ _
          · exact (a.session rfl rfl).send_of c _ rfl

theorem handleFreeTextInput_quiet (env : Env) (h : BotHandler) (c : Int) (text : GoString) :
    NoImportExport h (handleFreeTextInput env h c text) := by
  unfold handleFreeTextInput
  split
  · exact processLeaveInput_quiet env h c text
  · exact (NoImportExport.unchanged h).send_of c _ rfl

theorem processUnplannedActivity_quiet {h h1 : BotHandler} (a : NoImportExport h h1) (env : Env)
    (c : Int) (searchText : GoString) (t : Time) (d : GoString) :
    NoImportExport h (processUnplannedActivity env h1 c searchText t d) := by
  unfold processUnplannedActivity
  split
  · exact a.send_of c _ rfl
  · split
    · exact a.send_of c _ rfl
    · simp only
      split
      · exact a.send_of c _ rfl
      · exact recordUnplannedActivity_quiet a env c _ _ _
      · exact (a.session rfl rfl).send_of c _ rfl

theorem finishUnplannedInput_quiet {h h1 : BotHandler} (a : NoImportExport h h1) (env : Env)
    (c : Int) (t : Time) (x y : GoString) :
    NoImportExport h (finishUnplannedInput env h1 c t x y) := by
  unfold finishUnplannedInput
  simp only
  split
  · exact a.send_of c _ rfl
  · split
    · exact a.send_of c _ rfl
    · exact processUnplannedActivity_quiet a env c _ _ _

theorem processUnplannedInput_quiet (env : Env) (h h2 : BotHandler) (c : Int) (text : GoString)
    (e : processUnplannedInput env h c text = some h2) : NoImportExport h h2 := by
  have a : NoImportExport h { h with userStates := Function.update h.userStates c none } :=
    (NoImportExport.unchanged h).session rfl rfl
  unfold processUnplannedInput at e
  simp only at e
  split at e
  · cases e; exact a.send_of c _ rfl
  · split at e
    · split at e
      · cases e; exact a.send_of c _ rfl
      · split at e
        · cases e
        · split at e
          · cases e
          · cases e; exact finishUnplannedInput_quiet a env c _ _ _
    · split at e
      · cases e; exact a.send_of c _ rfl
      · split at e
        · cases e; exact a.send_of c _ rfl
        · split at e
          · cases e
          · split at e
            · cases e
            · cases e; exact finishUnplannedInput_quiet a env c _ _ _

theorem handleLeaveTimeInput_quiet (env : Env) (h h2 : BotHandler) (c : Int) (text : GoString)
    (e : handleLeaveTimeInput env h c text = some h2) : NoImportExport h h2 := by
  have a : NoImportExport h { h with userStates := Function.update h.userStates c none } :=
    (NoImportExport.unchanged h).session rfl rfl
  unfold handleLeaveTimeInput at e
  simp only at e
  split at e
  · cases e; exact a.send_of c _ rfl
  · split at e
    · cases e; exact a.send_of c _ rfl
    · split at e
      · cases e
        exact (recordLeave_quiet a env c _ _).session rfl rfl
      · cases e

theorem handleUnplannedDetailsInput_quiet (env : Env) (h h2 : BotHandler) (c : Int)
    (text : GoString) (e : handleUnplannedDetailsInput env h c text = some h2) :
    NoImportExport h h2 := by
  have a : NoImportExport h { h with userStates := Function.update h.userStates c none } :=
    (NoImportExport.unchanged h).session rfl rfl
  unfold handleUnplannedDetailsInput at e
  simp only at e
  split at e
  · cases e; exact a.send_of c _ rfl
  · split at e
    · cases e; exact a.send_of c _ rfl
    · split at e
      · cases e
        exact (recordUnplannedActivity_quiet a env c _ _ _).session rfl rfl
      · cases e

/-- A message from a chat outside the allow-list runs neither the import nor
the export. -/
theorem HandleMessage_quiet (cfg : Config) (env : Env) (h h2 : BotHandler) (m : Message)
    (hna : cfg.IsAdmin m.chatID = false) (e : HandleMessage cfg env h m = some h2) :
    NoImportExport h h2 := by
  unfold HandleMessage at e
  rcases ite_cases e with ⟨_, e⟩ | ⟨_, e⟩
  · rw [hna] at e
    rcases ite_cases e with ⟨_, e⟩ | ⟨hc, _⟩
    · cases e; exact (NoImportExport.unchanged h).send_of _ _ rfl
    · exact absurd rfl hc
  rcases ite_cases e with ⟨_, e⟩ | ⟨_, e⟩
  · cases e; exact (NoImportExport.unchanged h).send_of _ _ rfl
  rcases ite_cases e with ⟨_, e⟩ | ⟨_, e⟩
  · cases e; exact handleRecordLeave_quiet _ _
  rcases ite_cases e with ⟨_, e⟩ | ⟨_, e⟩
  · cases e; exact handleUnplannedActivity_quiet _ _
  rcases ite_cases e with ⟨_, e⟩ | ⟨_, e⟩
  · cases e; exact (NoImportExport.unchanged h).send_of _ _ rfl
  rcases ite_cases e with ⟨_, e⟩ | ⟨_, e⟩
  · cases e; exact (NoImportExport.unchanged h).send_of _ _ rfl
  rcases ite_cases e with ⟨_, e⟩ | ⟨_, e⟩
  · cases e; exact handleStatisticsCommand_quiet _ _ _ _ hna
  rcases ite_cases e with ⟨_, e⟩ | ⟨_, e⟩
  · cases e; exact (NoImportExport.unchanged h).send_of _ _ rfl
  rcases ite_cases e with ⟨_, e⟩ | ⟨_, e⟩
  · cases e; exact processActivityDescriptionInput_quiet _ _ _ _
  rcases ite_cases e with ⟨_, e⟩ | ⟨_, e⟩
  · cases e; exact processLeaveInput_quiet _ _ _ _
  rcases ite_cases e with ⟨_, e⟩ | ⟨_, e⟩
  · exact processUnplannedInput_quiet _ _ _ _ _ e
  rcases ite_cases e with ⟨_, e⟩ | ⟨_, e⟩
  · exact handleLeaveTimeInput_quiet _ _ _ _ _ e
  rcases ite_cases e with ⟨_, e⟩ | ⟨_, e⟩
  · exact handleUnplannedDetailsInput_quiet _ _ _ _ _ e
  · cases e; exact handleFreeTextInput_quiet _ _ _ _

end handlers

namespace handlers

open database config

/-- C21.  For every message from a chat that is not in the allow-list:
a roster attachment (a document with a caption that starts with `/add_excel`)
and a text routed to the export (`/stat` with `excel` as its second word) are
both answered with the no-permission message alone, the store and the sessions
left as they were; the two handlers behind the check refuse as well; and
whatever the message is, `HandleMessage` leaves the roster as it was and sends
no message of the import or of the export. -/
theorem not_admin_no_import_no_export (cfg : Config) (env : Env) (h : BotHandler)
    (m : Message) (hna : cfg.IsAdmin m.chatID = false) :
    ((m.document.isSome && m.caption != [] &&
        strings.HasPrefix m.caption (utf8 "/add_excel")) = true →
      HandleMessage cfg env h m = some (h.send m.chatID .noPermission)) ∧
    ((m.document.isSome && m.caption != [] &&
        strings.HasPrefix m.caption (utf8 "/add_excel")) = false →
      strings.HasPrefix m.text (utf8 "/stat") = true →
      ∀ first rest, strings.Fields m.text = first :: utf8 "excel" :: rest →
        HandleMessage cfg env h m = some (h.send m.chatID .noPermission)) ∧
    handleAddExcel cfg env h m.chatID m.document = h.send m.chatID .noPermission ∧
    handleExcelExport cfg h m.chatID = h.send m.chatID .noPermission ∧
    (∀ h2, HandleMessage cfg env h m = some h2 → NoImportExport h h2) := by
  refine ⟨?_, ?_, ?_, ?_, fun h2 e => HandleMessage_quiet cfg env h h2 m hna e⟩
  · intro hatt
    unfold HandleMessage
    rw [if_pos hatt, hna]
    rfl
  · intro hatt hstat first rest hfields
    have n1 : ¬ (m.text == utf8 "/start") = true := by
      intro hb; rw [beq_iff_eq.1 hb] at hstat; exact absurd hstat (by decide)
    have n2 : ¬ (m.text == utf8 "Зафиксировать уход") = true := by
      intro hb; rw [beq_iff_eq.1 hb] at hstat; exact absurd hstat (by decide)
    have n3 : ¬ (m.text == utf8 "Внеплановая деятельность") = true := by
      intro hb; rw [beq_iff_eq.1 hb] at hstat; exact absurd hstat (by decide)
    have n4 : ¬ (m.text == utf8 "Где подчинённые") = true := by
      intro hb; rw [beq_iff_eq.1 hb] at hstat; exact absurd hstat (by decide)
    have n5 : ¬ (m.text == utf8 "Статистика") = true := by
      intro hb; rw [beq_iff_eq.1 hb] at hstat; exact absurd hstat (by decide)
    unfold HandleMessage
    rw [if_neg (by rw [hatt]; exact Bool.false_ne_true), if_neg n1, if_neg n2, if_neg n3,
      if_neg n4, if_neg n5, if_pos hstat]
    unfold handleStatisticsCommand handleExcelExport
    simp only [hfields, hna, beq_self_eq_true, Bool.not_false, if_true]
  · unfold handleAddExcel
    simp only [hna, Bool.not_false, if_true]
  · unfold handleExcelExport
    simp only [hna, Bool.not_false, if_true]

/-- C21 for chat 7, which is not in the allow-list `[1]`, and the text
`/stat excel`. -/
theorem not_admin_no_import_no_export_witness :
    Config.IsAdmin ⟨[1]⟩ 7 = false ∧
    strings.Fields (utf8 "/stat excel") = [utf8 "/stat", utf8 "excel"] ∧
    HandleMessage ⟨[1]⟩ sampleEnv (idleHandler sampleDB) ⟨7, utf8 "/stat excel", none, []⟩ =
      some ((idleHandler sampleDB).send 7 .noPermission) ∧
    handleExcelExport ⟨[1]⟩ (idleHandler sampleDB) 7 =
      (idleHandler sampleDB).send 7 .noPermission ∧
    NoImportExport (idleHandler sampleDB) ((idleHandler sampleDB).send 7 .noPermission) :=
  have w := not_admin_no_import_no_export ⟨[1]⟩ sampleEnv (idleHandler sampleDB)
    ⟨7, utf8 "/stat excel", none, []⟩ (by decide)
  ⟨by decide, by decide, w.2.1 (by decide) (by decide) (utf8 "/stat") [] (by decide), w.2.2.2.1,
    w.2.2.2.2 _ (w.2.1 (by decide) (by decide) (utf8 "/stat") [] (by decide))⟩

/-- The same text from chat 1, which is in the allow-list: the export runs. -/
theorem admin_export_sample :
    (HandleMessage ⟨[1]⟩ sampleEnv (idleHandler sampleDB) ⟨1, utf8 "/stat excel", none, []⟩).map
      (fun h2 => h2.sent) = some [(1, .statisticsDocument)] := by
  decide

/-- A roster attachment from chat 1, which is in the allow-list: the new person
of the sheet is added to the roster; from chat 7 the same message is refused. -/
theorem roster_import_sample :
    (HandleMessage ⟨[1]⟩ sampleEnv (idleHandler sampleDB)
      ⟨1, [], some ⟨utf8 "roster.xlsx",
        .rows [[utf8 "Last", utf8 "First", utf8 "Middle"],
          [utf8 "Petrov", utf8 "Ivan", []], [utf8 " Sidorov ", utf8 "Oleg", utf8 "P"]]⟩,
        utf8 "/add_excel"⟩).map (fun h2 => h2.db.subordinates) =
      some [petrov, ivanovBoris, ivanovAnna, ⟨4, utf8 "Sidorov", utf8 "Oleg", utf8 "P"⟩] ∧
    (HandleMessage ⟨[1]⟩ sampleEnv (idleHandler sampleDB)
      ⟨7, [], some ⟨utf8 "roster.xlsx",
        .rows [[utf8 "Last", utf8 "First", utf8 "Middle"],
          [utf8 "Petrov", utf8 "Ivan", []], [utf8 " Sidorov ", utf8 "Oleg", utf8 "P"]]⟩,
        utf8 "/add_excel"⟩).map (fun h2 => (h2.db.subordinates, h2.sent)) =
      some ([petrov, ivanovBoris, ivanovAnna], [(7, .noPermission)]) := by
  decide

end handlers

/-! ### The keyword together with a time -/

namespace strings

/-- A word that is a prefix of `s` and shares no byte with `old` is kept in
front by the deletion of the occurrences of `old`. -/
theorem replaceAllAux_prefix_kept (old : GoString) (hne : old ≠ []) :
    ∀ (w s : GoString), (∀ b ∈ w, b ∉ old) → w <+: s →
      w <+: replaceAllAux old [] 0 s
  | [], _, _, _ => List.nil_prefix
  | b :: w, [], _, hp => by simp at hp
  | b :: w, c :: cs, hw, hp => by
    obtain ⟨hbc, hp2⟩ := List.cons_prefix_cons.1 hp
    subst hbc
    have hnp : old.isPrefixOf (b :: cs) = false := by
      cases old with
      | nil => exact absurd rfl hne
      | cons o os =>
        have : b ≠ o := fun e =>
          hw b (List.mem_cons_self b w) (by rw [e]; exact List.mem_cons_self o os)
        simp [List.isPrefixOf, this]
        intro e; exact absurd e.symm this
    unfold replaceAllAux
    simp only [hnp, Bool.false_eq_true, if_false]
    exact List.cons_prefix_cons.2 ⟨rfl,
      replaceAllAux_prefix_kept old hne w cs (fun x hx => hw x (List.mem_cons_of_mem b hx)) hp2⟩

/-- A non-empty word that occurs in `s` and shares no byte with `old` still
occurs after the deletion of the occurrences of `old`; `skip` bytes of an
occurrence are still to be dropped. -/
theorem replaceAllAux_infix_kept (old w : GoString) (hne : old ≠ []) (hwne : w ≠ [])
    (hw : ∀ b ∈ w, b ∉ old) :
    ∀ (s : GoString) (skip : Nat), (∀ b ∈ s.take skip, b ∈ old) → w <:+: s →
      w <:+: replaceAllAux old [] skip s
  | [], _, _, hi => by
    have := List.eq_nil_of_infix_nil hi
    exact absurd this hwne
  | c :: cs, skip + 1, hskip, hi => by
    unfold replaceAllAux
    have hc : c ∈ old := hskip c (by simp)
    rcases List.infix_cons_iff.1 hi with hp | hi2
    · cases w with
      | nil => exact absurd rfl hwne
      | cons b w2 =>
        obtain ⟨hbc, _⟩ := List.cons_prefix_cons.1 hp
        subst hbc
        exact absurd hc (hw b (List.mem_cons_self b w2))
    · exact replaceAllAux_infix_kept old w hne hwne hw cs skip
        (fun b hb => hskip b (by simp only [List.take_succ_cons]; exact List.mem_cons_of_mem c hb))
        hi2
  | c :: cs, 0, _, hi => by
    unfold replaceAllAux
    by_cases hpre : old.isPrefixOf (c :: cs) = true
    · simp only [hpre, if_true, List.nil_append]
      have hpre2 : old <+: c :: cs := List.isPrefixOf_iff_prefix.1 hpre
      cases old with
      | nil => exact absurd rfl hne
      | cons o os =>
        obtain ⟨hoc, hos⟩ := List.cons_prefix_cons.1 hpre2
        subst hoc
        have hskip2 : ∀ b ∈ cs.take (List.length (o :: os) - 1), b ∈ o :: os := by
          intro b hb
          have ht : cs.take os.length = os := by
            obtain ⟨t, ht⟩ := hos
            rw [← ht]; simp
          simp only [List.length_cons, Nat.add_sub_cancel] at hb
          rw [ht] at hb
          exact List.mem_cons_of_mem o hb
        rcases List.infix_cons_iff.1 hi with hp | hi2
        · cases w with
          | nil => exact absurd rfl hwne
          | cons b w2 =>
            obtain ⟨hbc, _⟩ := List.cons_prefix_cons.1 hp
            subst hbc
            exact absurd (List.mem_cons_self b os) (hw b (List.mem_cons_self b w2))
        · exact replaceAllAux_infix_kept (o :: os) w hne hwne hw cs _ hskip2 hi2
    · simp only [hpre, if_false]
      rcases List.infix_cons_iff.1 hi with hp | hi2
      · have hk := replaceAllAux_prefix_kept old hne w (c :: cs) hw hp
        unfold replaceAllAux at hk
        simp only [hpre, if_false] at hk
        exact hk.isInfix
      · exact List.infix_cons
          (replaceAllAux_infix_kept old w hne hwne hw cs 0 (by simp) hi2)

theorem ReplaceAll_infix_kept (old w s : GoString) (hne : old ≠ []) (hwne : w ≠ [])
    (hw : ∀ b ∈ w, b ∉ old) (hi : w <:+: s) : w <:+: ReplaceAll s old [] :=
  replaceAllAux_infix_kept old w hne hwne hw s 0 (by simp) hi

/-- A non-empty word that occurs in `e ++ rest` and shares no byte with `e`
occurs in `rest`. -/
theorem infix_of_infix_append (w : GoString) (hwne : w ≠ []) :
    ∀ (e rest : GoString), (∀ b ∈ w, b ∉ e) → w <:+: e ++ rest → w <:+: rest
  | [], _, _, hi => hi
  | x :: e, rest, hw, hi => by
    rcases List.infix_cons_iff.1 hi with hp | hi2
    · cases w with
      | nil => exact absurd rfl hwne
      | cons b w2 =>
        obtain ⟨hbc, _⟩ := List.cons_prefix_cons.1 hp
        subst hbc
        exact absurd (List.mem_cons_self b e) (hw b (List.mem_cons_self b w2))
    · exact infix_of_infix_append w hwne e rest
        (fun b hb hbe => hw b hb (List.mem_cons_of_mem x hbe)) hi2

theorem dropSpace_eq_some (encs : List GoString) (s rest : GoString)
    (h : dropSpace encs s = some rest) : ∃ e ∈ encs, s = e ++ rest := by
  unfold dropSpace at h
  obtain ⟨e, he, hs⟩ := List.exists_of_findSome?_eq_some h
  by_cases hp : e.isPrefixOf s = true
  · simp only [hp, if_true, Option.some.injEq] at hs
    obtain ⟨t, ht⟩ := List.isPrefixOf_iff_prefix.1 hp
    refine ⟨e, he, ?_⟩
    rw [← hs, ← ht]; simp
  · simp [hp] at hs

theorem trimLeftAux_infix_kept (encs : List GoString) (w : GoString) (hwne : w ≠ [])
    (hw : ∀ b ∈ w, ∀ e ∈ encs, b ∉ e) :
    ∀ (fuel : Nat) (s : GoString), w <:+: s → w <:+: trimLeftAux encs fuel s
  | 0, _, hi => hi
  | fuel + 1, s, hi => by
    unfold trimLeftAux
    cases hd : dropSpace encs s with
    | none => exact hi
    | some rest =>
      obtain ⟨e, he, hs⟩ := dropSpace_eq_some encs s rest hd
      simp only
      apply trimLeftAux_infix_kept encs w hwne hw fuel rest
      rw [hs] at hi
      exact infix_of_infix_append w hwne e rest (fun b hb => hw b hb e he) hi

/-- A non-empty word without a byte of a white-space rune that occurs in `s`
occurs in `TrimSpace s`. -/
theorem TrimSpace_infix_kept (w s : GoString) (hwne : w ≠ [])
    (hw : ∀ b ∈ w, ∀ e ∈ spaceEncodings, b ∉ e) (hi : w <:+: s) : w <:+: TrimSpace s := by
  unfold TrimSpace TrimRightSpace TrimLeftSpace
  have h1 := trimLeftAux_infix_kept spaceEncodings w hwne hw s.length s hi
  have h2 : w.reverse <:+: (trimLeftAux spaceEncodings s.length s).reverse :=
    List.reverse_infix.2 h1
  have hw2 : ∀ b ∈ w.reverse, ∀ e ∈ spaceEncodings.map List.reverse, b ∉ e := by
    intro b hb e he
    obtain ⟨e0, he0, rfl⟩ := List.mem_map.1 he
    rw [List.mem_reverse]
    exact hw b (List.mem_reverse.1 hb) e0 he0
  have h3 := trimLeftAux_infix_kept (spaceEncodings.map List.reverse) w.reverse
    (by simpa using hwne) hw2 (trimLeftAux spaceEncodings s.length s).length _ h2
  have h4 := List.reverse_infix.2 h3
  rw [List.reverse_reverse] at h4
  exact h4

end strings

namespace handlers

open database

/-- The bytes of a time text `H:MM` are digits and the colon. -/
theorem time_text_bytes (hs ms : GoString) (ht : utils.IsTimeText hs ms) :
    ∀ b ∈ hs ++ 58 :: ms, 48 ≤ b ∧ b ≤ 58 := by
  obtain ⟨_, _, hh, hm⟩ := ht
  intro b hb
  rcases List.mem_append.1 hb with hb | hb
  · have := hh b hb
    simp [utils.isDigit] at this
    omega
  · rcases List.mem_cons.1 hb with rfl | hb
    · omega
    · have := hm b hb
      simp [utils.isDigit] at this
      omega

/-- C26.  When the lower-cased text contains the keyword "сейчас" and the text
contains a time `H:MM`, `processLeaveInput` takes the current time as the leave
time and deletes only the spellings of the keyword: the search key still
contains the text `H:MM`, so the time pattern still matches the key.  The
outcome is decided by the exact search for that key: nobody, one person (the
leave is committed at the current time), or several (the session stores the
current time). -/
theorem now_keyword_keeps_time_text (env : Env) (h : BotHandler) (c : Int)
    (text pre hs ms post : GoString)
    (hnow : strings.Contains (env.lower text) kwNow = true)
    (htime : utils.TimeMatchAt text pre hs ms post) :
    (hs ++ 58 :: ms) <:+: nowSearchKey text ∧
    utils.MatchString (nowSearchKey text) = true ∧
    processLeaveInput env h c text =
      (match FindSubordinatesBySingleTerm env.sqlLower h.db (nowSearchKey text) with
      | [] => ({ h with userStates := Function.update h.userStates c none }).send c
          .personNotFound
      | [sub] =>
        recordLeave env { h with userStates := Function.update h.userStates c none } c sub.ID
          env.now
      | subordinates =>
        ({ h with
          userStates := Function.update h.userStates c none,
          userData := Function.update h.userData c (some
            [("action", .str (utf8 "leave_now")), ("sub_list", .subs subordinates),
             ("leave_time", .time env.now)]) }).send c (.chooseSubordinate subordinates)) := by
  have hbytes := time_text_bytes hs ms htime.2
  have hwne : hs ++ 58 :: ms ≠ [] := by simp
  have hin : (hs ++ 58 :: ms) <:+: text := by
    rw [htime.1]
    exact ⟨pre, post, by simp⟩
  have hk : ∀ kw : GoString, (∀ x ∈ kw, 128 ≤ x) → ∀ b ∈ hs ++ 58 :: ms, b ∉ kw := by
    intro kw hkw b hb hbk
    have := hbytes b hb
    have := hkw b hbk
    omega
  have h1 := strings.ReplaceAll_infix_kept kwNow _ text (by decide) hwne (hk _ (by decide)) hin
  have h2 := strings.ReplaceAll_infix_kept kwNowCap _ _ (by decide) hwne (hk _ (by decide)) h1
  have h3 := strings.ReplaceAll_infix_kept kwNowUpper _ _ (by decide) hwne (hk _ (by decide)) h2
  have hsp : ∀ b ∈ hs ++ 58 :: ms, ∀ e ∈ strings.spaceEncodings, b ∉ e := by
    intro b hb e he hbe
    have hb2 := hbytes b hb
    have hall : ∀ e ∈ strings.spaceEncodings, ∀ x ∈ e, x ≤ 32 ∨ 128 ≤ x := by decide
    have := hall e he b hbe
    omega
  have hkey : (hs ++ 58 :: ms) <:+: nowSearchKey text :=
    strings.TrimSpace_infix_kept _ _ hwne hsp h3
  have hkne : nowSearchKey text ≠ [] := by
    intro e
    rw [e] at hkey
    exact hwne (List.eq_nil_of_infix_nil hkey)
  refine ⟨hkey, ?_, ?_⟩
  · obtain ⟨a, b, hab⟩ := hkey
    exact (utils.MatchString_iff _).2 ⟨a, hs, ms, b, by rw [← hab]; simp, htime.2⟩
  · have hct : utils.ContainsTime env.lower text = true := by
      simp [utils.ContainsTime, hnow]
    have hclean : (nowSearchKey text == []) = false := by simpa using hkne
    unfold nowSearchKey at hclean hkne
    unfold processLeaveInput nowSearchKey
    simp only [hct, hnow, hclean, findExactSubordinate]
    simp [hkne]
    split <;> simp_all

/-- C26 on the text "Petrov сейчас 14:30". -/
theorem now_keyword_keeps_time_text_witness :
    strings.Contains (sampleEnv.lower (utf8 "Petrov сейчас 14:30")) kwNow = true ∧
    utils.TimeMatchAt (utf8 "Petrov сейчас 14:30") (utf8 "Petrov сейчас ") (utf8 "14")
      (utf8 "30") [] ∧
    (utf8 "14" ++ 58 :: utf8 "30") <:+: nowSearchKey (utf8 "Petrov сейчас 14:30") ∧
    utils.MatchString (nowSearchKey (utf8 "Petrov сейчас 14:30")) = true ∧
    processLeaveInput sampleEnv (idleHandler sampleDB) 7 (utf8 "Petrov сейчас 14:30") =
      (match FindSubordinatesBySingleTerm sampleEnv.sqlLower (idleHandler sampleDB).db
          (nowSearchKey (utf8 "Petrov сейчас 14:30")) with
      | [] => ({ idleHandler sampleDB with
          userStates := Function.update (idleHandler sampleDB).userStates 7 none }).send 7
          .personNotFound
      | [sub] =>
        recordLeave sampleEnv { idleHandler sampleDB with
          userStates := Function.update (idleHandler sampleDB).userStates 7 none } 7 sub.ID
          sampleEnv.now
      | subordinates =>
        ({ idleHandler sampleDB with
          userStates := Function.update (idleHandler sampleDB).userStates 7 none,
          userData := Function.update (idleHandler sampleDB).userData 7 (some
            [("action", .str (utf8 "leave_now")), ("sub_list", .subs subordinates),
             ("leave_time", .time sampleEnv.now)]) }).send 7
          (.chooseSubordinate subordinates)) :=
  have ht : utils.TimeMatchAt (utf8 "Petrov сейчас 14:30") (utf8 "Petrov сейчас ") (utf8 "14")
      (utf8 "30") [] := ⟨by decide, by decide, by decide, by decide, by decide⟩
  ⟨by decide, ht,
    now_keyword_keeps_time_text sampleEnv (idleHandler sampleDB) 7 (utf8 "Petrov сейчас 14:30")
      (utf8 "Petrov сейчас ") (utf8 "14") (utf8 "30") [] (by decide) ht⟩

/-- The text "Petrov сейчас 14:30" on the sample roster: the search key is
"Petrov  14:30", nobody has that name, and no leave is written; the text
"Petrov сейчас" is committed at the current time. -/
theorem now_keyword_with_time_sample :
    nowSearchKey (utf8 "Petrov сейчас 14:30") = utf8 "Petrov  14:30" ∧
    (handleFreeTextInput sampleEnv (idleHandler sampleDB) 7 (utf8 "Petrov сейчас 14:30")).sent =
      [(7, .personNotFound)] ∧
    (handleFreeTextInput sampleEnv (idleHandler sampleDB) 7
      (utf8 "Petrov сейчас 14:30")).db.leaves = [] ∧
    (handleFreeTextInput sampleEnv (idleHandler sampleDB) 7 (utf8 "Petrov сейчас")).db.leaves =
      [⟨1, 1, ⟨2024, 5, 2, 10, 11, 0, 0, 180⟩⟩] := by
  refine ⟨by decide, by decide, by decide, by decide⟩

end handlers

/-! ### Activity input with the keyword -/

namespace strings

theorem indexFrom_contains (sub : GoString) :
    ∀ (s : GoString) (i j : Nat), indexFrom sub i s = some j → Contains s sub = true
  | [], i, j, h => by
    unfold indexFrom at h
    unfold Contains
    by_cases he : sub.isEmpty = true
    · exact he
    · simp [he] at h
  | c :: cs, i, j, h => by
    unfold indexFrom at h
    unfold Contains
    by_cases hp : sub.isPrefixOf (c :: cs) = true
    · simp [hp]
    · simp only [hp, if_false] at h
      simp [indexFrom_contains sub cs (i + 1) j h]

theorem Index_eq_natCast (s sub : GoString) (n : Nat) (h : Index s sub = (n : Int)) :
    indexFrom sub 0 s = some n := by
  unfold Index at h
  cases hi : indexFrom sub 0 s with
  | none => rw [hi] at h; simp at h
  | some i => rw [hi] at h; simp at h; rw [h]

end strings

namespace handlers

open database

/-- C22, amended.  The text reads `pre`, then a spelling `kw` of the keyword
(12 bytes), then `post`, and the first occurrence of "сейчас" in the lower-cased
text starts at the byte offset of `kw`.  Then `processUnplannedInput` deletes
the state tag and, when the trimmed `pre` and the trimmed `post` are both
non-empty, searches for the trimmed `pre` with the current time as activity
time and the first 1000 bytes of the trimmed `post` as description; an empty
trimmed segment is answered with its error message instead. -/
theorem processUnplannedInput_now (env : Env) (h : BotHandler) (c : Int)
    (text pre kw post : GoString) (htext : text = pre ++ kw ++ post)
    (hkw : kw.length = 12)
    (hidx : strings.Index (env.lower text) kwNow = (pre.length : Int)) :
    processUnplannedInput env h c text =
      some (
        if strings.TrimSpace pre = [] then
          ({ h with userStates := Function.update h.userStates c none }).send c .emptySearchTerm
        else if strings.TrimSpace post = [] then
          ({ h with userStates := Function.update h.userStates c none }).send c
            .descriptionRequired
        else
          processUnplannedActivity env
            { h with userStates := Function.update h.userStates c none } c
            (strings.TrimSpace pre) env.now ((strings.TrimSpace post).take 1000)) := by
  have hfrom := strings.Index_eq_natCast _ _ _ hidx
  have hnow : strings.Contains (env.lower text) kwNow = true :=
    strings.indexFrom_contains _ _ _ _ hfrom
  have hct : utils.ContainsTime env.lower text = true := by
    simp [utils.ContainsTime, hnow]
  have hne : (((pre.length : Nat) : Int) == -1) = false := by
    rw [beq_eq_false_iff_ne]
    omega
  have hlen : text.length = pre.length + 12 + post.length := by
    rw [htext]; simp [hkw]; omega
  have hto : sliceTo text (pre.length : Int) = some pre := by
    unfold sliceTo
    have : (0 : Int) ≤ (pre.length : Int) ∧ (pre.length : Int) ≤ (text.length : Int) := by
      constructor <;> omega
    rw [if_pos this]
    simp [htext, List.append_assoc]
  have hfromS : sliceFrom text ((pre.length : Int) + ((kwNow.length : Nat) : Int)) =
      some post := by
    unfold sliceFrom
    have hk : kwNow.length = 12 := rfl
    rw [hk]
    have : (0 : Int) ≤ (pre.length : Int) + ((12 : Nat) : Int) ∧
        (pre.length : Int) + ((12 : Nat) : Int) ≤ (text.length : Int) := by
      constructor <;> omega
    rw [if_pos this]
    have hn : ((pre.length : Int) + ((12 : Nat) : Int)).toNat = (pre ++ kw).length := by
      simp [hkw]; omega
    rw [hn, htext]
    simp
  unfold processUnplannedInput
  simp only [hct, hnow, hne, hidx, hto, hfromS, Bool.not_true, Bool.and_self, Bool.false_eq_true,
    if_false, if_true]
  have hcut : ∀ l : GoString, (if l.length > 1000 then l.take 1000 else l) = l.take 1000 := by
    intro l
    split
    · rfl
    · rw [List.take_of_length_le (by omega)]
  unfold finishUnplannedInput
  simp only [hcut]
  congr 1
  by_cases h1 : strings.TrimSpace pre = []
  · simp [h1]
  · by_cases h2 : strings.TrimSpace post = []
    · simp [h1, h2]
    · simp [h1, h2]

/-- C22 (amended) on the text "Petrov сейчас встреча с клиентом". -/
theorem processUnplannedInput_now_witness :
    utf8 "Petrov сейчас встреча с клиентом" =
      utf8 "Petrov " ++ kwNow ++ utf8 " встреча с клиентом" ∧
    kwNow.length = 12 ∧
    strings.Index (sampleEnv.lower (utf8 "Petrov сейчас встреча с клиентом")) kwNow =
      ((utf8 "Petrov ").length : Int) ∧
    processUnplannedInput sampleEnv (idleHandler sampleDB) 7
        (utf8 "Petrov сейчас встреча с клиентом") =
      some (
        if strings.TrimSpace (utf8 "Petrov ") = [] then
          ({ idleHandler sampleDB with
            userStates := Function.update (idleHandler sampleDB).userStates 7 none }).send 7
            .emptySearchTerm
        else if strings.TrimSpace (utf8 " встреча с клиентом") = [] then
          ({ idleHandler sampleDB with
            userStates := Function.update (idleHandler sampleDB).userStates 7 none }).send 7
            .descriptionRequired
        else
          processUnplannedActivity sampleEnv
            { idleHandler sampleDB with
              userStates := Function.update (idleHandler sampleDB).userStates 7 none } 7
            (strings.TrimSpace (utf8 "Petrov ")) sampleEnv.now
            ((strings.TrimSpace (utf8 " встреча с клиентом")).take 1000)) :=
  ⟨by decide, by decide, by decide,
    processUnplannedInput_now sampleEnv (idleHandler sampleDB) 7
      (utf8 "Petrov сейчас встреча с клиентом") (utf8 "Petrov ") kwNow
      (utf8 " встреча с клиентом") (by decide) (by decide) (by decide)⟩

/-- The scenario of the specification: "Petrov сейчас встреча с клиентом"
writes Petrov's activity at the current time, rounded to the minute, with the
description "встреча с клиентом". -/
theorem processUnplannedInput_scenario :
    (processUnplannedInput sampleEnv (idleHandler sampleDB) 7
      (utf8 "Petrov сейчас встреча с клиентом")).map (fun h2 => h2.db.activities) =
      some [⟨1, 1, ⟨2024, 5, 2, 10, 11, 0, 0, 180⟩, utf8 "встреча с клиентом"⟩] := by
  decide

set_option maxRecDepth 100000 in
/-- C22, counterexample.  The text is "Petrov сейчас " followed by 1001 letters
"a": the trimmed segment after the keyword has 1001 bytes, and the description
that is searched for and stored is its first 1000 bytes. -/
theorem processUnplannedInput_long_description :
    strings.Contains (utf8 "Petrov ") kwNow = false ∧
    (strings.TrimSpace ([32] ++ List.replicate 1001 97)).length = 1001 ∧
    (processUnplannedInput sampleEnv (idleHandler sampleDB) 7
      (utf8 "Petrov " ++ kwNow ++ ([32] ++ List.replicate 1001 97))).map
        (fun h2 => h2.db.activities) =
      some [⟨1, 1, ⟨2024, 5, 2, 10, 11, 0, 0, 180⟩, List.replicate 1000 97⟩] := by
  decide

/-- Two readings of one text.  "Petrov сейчасейчас call" is "Petrov сейча", the
keyword, " call", and "Petrov сейча" does not contain the keyword; the handler
cuts at the first occurrence of the keyword, which starts inside that segment:
it searches for "Petrov" and the description is "ейчас call". -/
theorem processUnplannedInput_first_occurrence :
    utf8 "Petrov сейчасейчас call" = utf8 "Petrov сейча" ++ kwNow ++ utf8 " call" ∧
    strings.Contains (utf8 "Petrov сейча") kwNow = false ∧
    (processUnplannedInput sampleEnv (idleHandler sampleDB) 7
      (utf8 "Petrov сейчасейчас call")).map (fun h2 => h2.db.activities) =
      some [⟨1, 1, ⟨2024, 5, 2, 10, 11, 0, 0, 180⟩, utf8 "ейчас call"⟩] := by
  decide

/-- The offset of the keyword is computed in the lower-cased text and used in
the original one.  In "K сейчас call", written with the Kelvin sign (three
bytes, lower-cased to the one byte "k"), the keyword is found at offset 2 of the
lower-cased text; the search text is the first two bytes of the Kelvin sign and
the description kept for the selection is "с call". -/
theorem processUnplannedInput_offset_of_lowered_text :
    strings.Index (kelvinEnv.lower ([0xE2, 0x84, 0xAA, 32] ++ kwNow ++ utf8 " call")) kwNow = 2 ∧
    sliceTo ([0xE2, 0x84, 0xAA, 32] ++ kwNow ++ utf8 " call") 2 = some [0xE2, 0x84] ∧
    (sliceFrom ([0xE2, 0x84, 0xAA, 32] ++ kwNow ++ utf8 " call") (2 + 12)).map
      strings.TrimSpace = some (utf8 "с call") ∧
    (processUnplannedInput kelvinEnv (idleHandler sampleDB) 7
      ([0xE2, 0x84, 0xAA, 32] ++ kwNow ++ utf8 " call")).map
        (fun h2 => (h2.userData 7).bind (fun bag => bag.lookup "description")) =
      some (some (.str (utf8 "с call"))) := by
  decide

end handlers
